import Mathlib

/-!
# FubanGo: the concurrent execution toolkit

A shallow embedding of the channel based components of
`exemplos/03-avancado/channels/bom.go` and `exemplos/03-avancado/goroutines/bom.go`.

Go channels are modelled as a record holding the buffered values, the capacity and
the closed flag.  An operation that may block or panic returns an `Op`: `done` with
the new state, `blocked` when the goroutine has to wait, `fault` when the Go runtime
panics.  Concurrent components are modelled as transition systems whose actions are
the atomic steps of the goroutines involved; a schedule is a list of actions.
-/

namespace FubanGo

/-! ## Go runtime: panics, channels -/

/-- Runtime panics that the modelled code can raise. -/
inductive Fault where
  | sendOnClosed
  | closeOfClosed
  | makeSizeOutOfRange
  | taskPanic
  | sliceBounds
  deriving DecidableEq, Repr

/-- Result of an operation that may block or panic. -/
inductive Op (σ : Type) where
  | done (s : σ)
  | blocked
  | fault (f : Fault)
  deriving DecidableEq, Repr

/-- Go channel `chan α`: buffered values (head is the oldest), capacity, closed flag. -/
structure Chan (α : Type) where
  buf : List α
  cap : Nat
  closed : Bool
  deriving DecidableEq, Repr

/-- The constant `maxAlloc` of the Go runtime on a 64 bit platform with 48 address
bits: 2^48 bytes. -/
def maxAlloc : Int := 281474976710656

/-- The constant `hchanSize` of the Go runtime: the bytes of the header of a channel. -/
def hchanSize : Int := 104

/-- Builtin `make(chan α, size)`, an element of type `α` taking `elemSize` bytes.  As
`makechan` of the runtime does, it panics with "makechan: size out of range" on a
negative size and when the `elemSize * size` bytes of the buffer exceed
`maxAlloc - hchanSize`.  A machine that runs out of memory below that limit ends the
process; that is not part of the model. -/
def Chan.make {α : Type} (elemSize size : Int) : Except Fault (Chan α) :=
  if size < 0 ∨ maxAlloc - hchanSize < elemSize * size then .error .makeSizeOutOfRange
  else .ok { buf := [], cap := size.toNat, closed := false }

/-- Whether the buffer of the channel still has a free slot. -/
def Chan.hasRoom {α : Type} (c : Chan α) : Bool :=
  decide (c.buf.length < c.cap)

/-- Statement `c <- v` with no receiver parked on the channel: panics on a closed
channel, enqueues at the tail when there is room, otherwise blocks. -/
def Chan.send {α : Type} (c : Chan α) (v : α) : Op (Chan α) :=
  if c.closed then .fault .sendOnClosed
  else if c.hasRoom then .done { c with buf := c.buf ++ [v] }
  else .blocked

/-- Builtin `close(c)`: panics when the channel is already closed. -/
def Chan.close {α : Type} (c : Chan α) : Except Fault (Chan α) :=
  if c.closed then .error .closeOfClosed
  else .ok { c with closed := true }

/-- Expression `v, ok := <-c` with no sender parked on the channel: the oldest
buffered value with `ok = true`; `ok = false` (here `none`) on a closed and drained
channel; otherwise blocks. -/
def Chan.recv {α : Type} (c : Chan α) : Op (Option α × Chan α) :=
  match c.buf with
  | v :: rest => .done (some v, { c with buf := rest })
  | [] => if c.closed then .done (none, c) else .blocked

/-- Go `int` arithmetic on a 64 bit platform: the result wraps around. -/
def wrapInt64 (x : Int) : Int :=
  (x + 2 ^ 63) % 2 ^ 64 - 2 ^ 63

/-- Go `error` values are modelled by their message; `none` is `nil`. -/
abbrev GoError := Option String

/-! ## SafeChannel (channels/bom.go) -/

/-- Struct `SafeChannel`; the mutex is represented by the atomicity of the methods. -/
structure SafeChannel where
  ch : Chan Int
  closed : Bool
  deriving DecidableEq, Repr

/-- Function `NewSafeChannel(buffer)`. -/
def NewSafeChannel (buffer : Int) : Except Fault SafeChannel :=
  match Chan.make 8 buffer with
  | .ok c => .ok { ch := c, closed := false }
  | .error f => .error f

/-- Outcome of a call that returns an error value. -/
inductive Call (σ : Type) where
  | returned (err : GoError) (s : σ)
  | blocked
  | fault (f : Fault)
  deriving DecidableEq, Repr

/-- Method `SafeChannel.Send`. -/
def SafeChannel.Send (sc : SafeChannel) (value : Int) : Call SafeChannel :=
  if sc.closed then .returned (some "canal fechado") sc
  else
    match sc.ch.send value with
    | .done c => .returned none { sc with ch := c }
    | .blocked => .blocked
    | .fault f => .fault f

/-- Method `SafeChannel.Close`. -/
def SafeChannel.Close (sc : SafeChannel) : Except Fault SafeChannel :=
  if !sc.closed then
    match sc.ch.close with
    | .ok c => .ok { ch := c, closed := true }
    | .error f => .error f
  else .ok sc

/-- Completed operations on a SafeChannel: the two methods, and a receive on the raw
channel by a consumer. -/
inductive SafeOp where
  | send (value : Int)
  | close
  | recv
  deriving DecidableEq, Repr

/-- One completed operation; `none` when the operation cannot complete in this state
(it blocks or it panics). -/
def SafeChannel.apply (sc : SafeChannel) : SafeOp → Option SafeChannel
  | .send v =>
    match sc.Send v with
    | .returned _ sc1 => some sc1
    | _ => none
  | .close =>
    match sc.Close with
    | .ok sc1 => some sc1
    | .error _ => none
  | .recv =>
    match sc.ch.recv with
    | .done (_, c) => some { sc with ch := c }
    | _ => none

/-- A history of completed operations, oldest first. -/
def SafeChannel.run (sc : SafeChannel) : List SafeOp → Option SafeChannel
  | [] => some sc
  | op :: ops =>
    match sc.apply op with
    | some sc1 => SafeChannel.run sc1 ops
    | none => none

/-- The flag of the wrapper agrees with the state of the wrapped channel. -/
def SafeChannel.Consistent (sc : SafeChannel) : Prop :=
  sc.ch.closed = sc.closed

/-! ## Cancellation token -/

/-- A `context.Context` as the code observes it: `Err()` is `nil` while the context
is live, and `Done()` is ready exactly when `Err()` is not `nil`. -/
structure Ctx where
  err : GoError
  deriving DecidableEq, Repr

/-- The context `context.Background()`, which is never cancelled. -/
def Ctx.background : Ctx := { err := none }

/-- Whether the channel `ctx.Done()` is ready. -/
def Ctx.isDone (c : Ctx) : Bool := c.err.isSome

/-- The `cancel` function of `context.WithCancel`: the first call records the reason,
later calls do nothing. -/
def Ctx.cancel (c : Ctx) : Ctx :=
  match c.err with
  | none => { err := some "context canceled" }
  | some _ => c

/-! ## WorkerPool (goroutines/bom.go) -/

/-- A task `func()`: the model keeps an identity and whether the call panics. -/
structure Task where
  id : Nat
  panics : Bool
  deriving DecidableEq, Repr

/-- Struct `WorkerPool`.  `wg` is the counter of the WaitGroup, that is the number of
workers inside their loop; `executed` is a log of the calls `task()` that returned,
oldest first. -/
structure WorkerPool where
  workers : Int
  tasks : Chan Task
  ctx : Ctx
  wg : Nat
  stopping : Bool
  executed : List Task
  deriving DecidableEq, Repr

/-- Method `WorkerPool.Start`: the loop runs `wg.Add(1)` and spawns a worker for
`i = 0 .. workers - 1`. -/
def WorkerPool.Start (p : WorkerPool) : WorkerPool :=
  { p with wg := p.wg + p.workers.toNat }

/-- Function `NewWorkerPool(workers)`; the size of the queue is the Go expression
`workers*2`. -/
def NewWorkerPool (workers : Int) : Except Fault WorkerPool :=
  match Chan.make 8 (wrapInt64 (workers * 2)) with
  | .ok c =>
    .ok (WorkerPool.Start
      { workers := workers, tasks := c, ctx := Ctx.background, wg := 0,
        stopping := false, executed := [] })
  | .error f => .error f

/-- The case of a `select` over the task queue and `ctx.Done()` that fires. -/
inductive SelectCase where
  | queue
  | ctxDone
  deriving DecidableEq, Repr

/-- One iteration of the loop of a worker in `Start`, with the case of the `select`
that fires: `blocked` when that case is not ready (or no worker is in its loop).
A receive with `ok = false` and `ctx.Done()` both return, running the deferred
`wg.Done()`.  The call `task()` is not wrapped in a `recover`, so a panic of the task
leaves the goroutine as a fault. -/
def WorkerPool.workerStep (p : WorkerPool) (c : SelectCase) : Op WorkerPool :=
  if p.wg = 0 then .blocked
  else
    match c with
    | .queue =>
      match p.tasks.recv with
      | .done (some task, q) =>
        if task.panics then .fault .taskPanic
        else .done { p with tasks := q, executed := p.executed ++ [task] }
      | .done (none, _) => .done { p with wg := p.wg - 1 }
      | .blocked => .blocked
      | .fault f => .fault f
    | .ctxDone =>
      if p.ctx.isDone then .done { p with wg := p.wg - 1 } else .blocked

/-- Method `WorkerPool.Submit`, with the case of the `select` that fires when the
call gets that far.  The load of the flag and the `select` are taken as one atomic
step. -/
def WorkerPool.Submit (p : WorkerPool) (task : Task) (c : SelectCase) : Call WorkerPool :=
  if p.stopping then .returned (some "pool está parando") p
  else
    match c with
    | .queue =>
      match p.tasks.send task with
      | .done q => .returned none { p with tasks := q }
      | .blocked => .blocked
      | .fault f => .fault f
    | .ctxDone =>
      if p.ctx.isDone then .returned p.ctx.err p else .blocked

/-- Method `WorkerPool.Stop` up to `wg.Wait()`: the three statements
`p.stopping.Store(true)`, `p.cancel()` and `close(p.tasks)`. -/
def WorkerPool.stopBegin (p : WorkerPool) : Except Fault WorkerPool :=
  let p1 := { p with stopping := true }
  let p2 := { p1 with ctx := p1.ctx.cancel }
  match p2.tasks.close with
  | .ok q => .ok { p2 with tasks := q }
  | .error f => .error f

/-- The last statement of `Stop`, `p.wg.Wait()`: returns once the counter is zero. -/
def WorkerPool.stopWait (p : WorkerPool) : Op WorkerPool :=
  if p.wg = 0 then .done p else .blocked

/-- The workers take the iterations listed, in order, while a caller waits. -/
def WorkerPool.workersRun (p : WorkerPool) : List SelectCase → Op WorkerPool
  | [] => .done p
  | c :: cs =>
    match p.workerStep c with
    | .done p1 => WorkerPool.workersRun p1 cs
    | .blocked => .blocked
    | .fault f => .fault f

/-- Method `WorkerPool.Stop` as a whole, `sched` being the iterations that the workers
take while the caller is in `wg.Wait()`. -/
def WorkerPool.Stop (p : WorkerPool) (sched : List SelectCase) : Op WorkerPool :=
  match p.stopBegin with
  | .error f => .fault f
  | .ok p1 =>
    match p1.workersRun sched with
    | .done p2 => p2.stopWait
    | .blocked => .blocked
    | .fault f => .fault f

/-- Atomic steps of a program using a pool. -/
inductive PoolAction where
  | submit (task : Task) (c : SelectCase)
  | worker (c : SelectCase)
  | stopBegin
  | stopReturn
  deriving DecidableEq, Repr

/-- A pool with the bookkeeping of its client: `accepted` lists the tasks whose
`Submit` returned `nil`, oldest first; `stopCalls` and `stopReturns` count the calls
of `Stop` that ran up to `wg.Wait()` and that returned. -/
structure PoolSys where
  pool : WorkerPool
  accepted : List Task
  stopCalls : Nat
  stopReturns : Nat
  deriving DecidableEq, Repr

/-- A freshly built pool. -/
def PoolSys.init (p : WorkerPool) : PoolSys :=
  { pool := p, accepted := [], stopCalls := 0, stopReturns := 0 }

/-- One atomic step; `none` when the step is not enabled (it blocks) or panics. -/
def PoolSys.step (s : PoolSys) : PoolAction → Option PoolSys
  | .submit task c =>
    match s.pool.Submit task c with
    | .returned none p => some { s with pool := p, accepted := s.accepted ++ [task] }
    | .returned (some _) p => some { s with pool := p }
    | _ => none
  | .worker c =>
    match s.pool.workerStep c with
    | .done p => some { s with pool := p }
    | _ => none
  | .stopBegin =>
    match s.pool.stopBegin with
    | .ok p => some { s with pool := p, stopCalls := s.stopCalls + 1 }
    | .error _ => none
  | .stopReturn =>
    if s.stopReturns < s.stopCalls then
      match s.pool.stopWait with
      | .done p => some { s with pool := p, stopReturns := s.stopReturns + 1 }
      | _ => none
    else none

/-- A schedule: the atomic steps in the order in which they happen. -/
def PoolSys.run (s : PoolSys) : List PoolAction → Option PoolSys
  | [] => some s
  | a :: as =>
    match s.step a with
    | some s1 => PoolSys.run s1 as
    | none => none

/-- The pool is in the stopped state: a call of `Stop` has returned. -/
def PoolSys.stopped (s : PoolSys) : Bool := decide (0 < s.stopReturns)

/-- What holds of a pool of `w` workers in every state: an accepted task is either
executed or still queued, in the order of acceptance; a returned `Stop` means that no
worker is left in its loop; until `Stop` is invoked the token is live, the queue is
open and all workers are in their loop. -/
def PoolSys.Inv (w : Nat) (s : PoolSys) : Prop :=
  s.accepted = s.pool.executed ++ s.pool.tasks.buf ∧
  (0 < s.stopReturns → s.pool.wg = 0) ∧
  (s.pool.stopping = false →
    s.pool.wg = w ∧ s.pool.ctx.isDone = false ∧ s.pool.tasks.closed = false)

/-- The pool that `NewWorkerPool(1)` builds. -/
def demoPool : WorkerPool :=
  { workers := 1, tasks := { buf := [], cap := 2, closed := false },
    ctx := Ctx.background, wg := 1, stopping := false, executed := [] }

/-- The pool `demoPool` once `Stop` has run up to `wg.Wait()`, with `queued` in its
queue and `wg` workers in their loop. -/
def demoStopping (queued : List Task) (wg : Nat) : WorkerPool :=
  { workers := 1, tasks := { buf := queued, cap := 2, closed := true },
    ctx := { err := some "context canceled" }, wg := wg, stopping := true, executed := [] }

/-! ## Pipeline (channels/bom.go) -/

/-- The transform of the stage, the Go expression `value * 2`. -/
def transform (value : Int) : Int :=
  wrapInt64 (value * 2)

/-- Struct `Pipeline`. -/
structure Pipeline where
  input : Chan Int
  output : Chan Int
  done : Chan Unit
  deriving DecidableEq, Repr

/-- Function `NewPipeline(bufferSize)`. -/
def NewPipeline (bufferSize : Int) : Except Fault Pipeline :=
  match Chan.make 8 bufferSize, Chan.make 8 bufferSize, Chan.make 0 0 with
  | .ok i, .ok o, .ok d => .ok { input := i, output := o, done := d }
  | .error f, _, _ => .error f
  | _, .error f, _ => .error f
  | _, _, .error f => .error f

/-- The case of the `select` of `Send` that fires. -/
inductive SendCase where
  | enqueue
  | ctxDone
  | timer
  deriving DecidableEq, Repr

/-- Method `Pipeline.Send` with the case of its `select` that fires; `timerFired`
tells whether the channel of `time.After(time.Second)` is ready, `parked` whether a
receiver (the stage at its outer `select`) is waiting on the input.  The send
`p.input <- value` goes as in the runtime: it panics on a closed channel; else, if a
receiver is parked, the value is handed to it and the buffer is left as it is; else
the value is enqueued if the buffer has room.  `blocked` when the chosen case is not
ready. -/
def Pipeline.Send (p : Pipeline) (ctx : Ctx) (timerFired parked : Bool) (value : Int)
    (c : SendCase) : Call Pipeline :=
  match c with
  | .enqueue =>
    if p.input.closed then .fault .sendOnClosed
    else if parked then .returned none p
    else
      match p.input.send value with
      | .done i => .returned none { p with input := i }
      | .blocked => .blocked
      | .fault f => .fault f
  | .ctxDone =>
    if ctx.isDone then .returned ctx.err p else .blocked
  | .timer =>
    if timerFired then .returned (some "timeout ao enviar") p else .blocked

/-- The outcomes that the `select` of `Send` can produce at one instant: one per
ready case, in the order of the cases.  The empty list means that `Send` waits. -/
def Pipeline.sendReady (p : Pipeline) (ctx : Ctx) (timerFired parked : Bool)
    (value : Int) : List (Call Pipeline) :=
  ([SendCase.enqueue, SendCase.ctxDone, SendCase.timer].map
    (p.Send ctx timerFired parked value)).filter (fun r => decide (r ≠ Call.blocked))

/-- A call of `Send` over logical time.  `env k` is the pipeline and the token as
they are `k` ticks after the call, and `parked k` tells whether a receiver is waiting
on the input at that tick; `fuel` is the number of ticks left until the timer of
`time.After` fires.  The call waits while no case is ready and returns the tick at
which its `select` fires and the outcomes possible at that tick. -/
def Pipeline.sendAwait (env : Nat → Pipeline × Ctx) (parked : Nat → Bool) (value : Int) :
    Nat → Nat → Nat × List (Call Pipeline)
  | 0, k => (k, (env k).1.sendReady (env k).2 true (parked k) value)
  | fuel + 1, k =>
    match (env k).1.sendReady (env k).2 false (parked k) value with
    | [] => Pipeline.sendAwait env parked value fuel (k + 1)
    | r :: rs => (k, r :: rs)

/-- A call of `Send` made at tick 0, where one second lasts `second` ticks. -/
def Pipeline.SendWithin (second : Nat) (env : Nat → Pipeline × Ctx) (parked : Nat → Bool)
    (value : Int) : Nat × List (Call Pipeline) :=
  Pipeline.sendAwait env parked value second 0

/-- Where the goroutine of `Process` stands: not spawned, at the outer `select`, at
the inner `select` holding the received `value`, or returned. -/
inductive Stage where
  | notStarted
  | selecting
  | sending (value : Int)
  | exited
  deriving DecidableEq, Repr

/-- Where a caller of `Pipeline.Close` stands. -/
inductive ClosePc where
  | notCalled
  | waiting
  | returned
  deriving DecidableEq, Repr

/-- A pipeline together with its goroutines: the token given to `Process`, the stage,
a consumer ranging over the output (`received` are the values it got, oldest first,
`sawClose` tells that its loop has ended), the caller of `Close`, and `sent`, the
values whose `Send` returned `nil`, oldest first. -/
structure PipeSys where
  p : Pipeline
  ctx : Ctx
  stage : Stage
  sent : List Int
  received : List Int
  sawClose : Bool
  closing : ClosePc
  deriving DecidableEq, Repr

/-- A freshly built pipeline with a live token. -/
def PipeSys.init (p : Pipeline) : PipeSys :=
  { p := p, ctx := Ctx.background, stage := .notStarted, sent := [], received := [],
    sawClose := false, closing := .notCalled }

/-- A receiver is parked on the input: the stage stands at its outer `select` and
finds the input open and empty. -/
def PipeSys.parked (s : PipeSys) : Bool :=
  decide (s.stage = .selecting) && (s.p.input.buf.isEmpty && !s.p.input.closed)

/-- Atomic steps of a program using a pipeline. -/
inductive PipeAction where
  | process
  | send (value : Int)
  | handoff (value : Int)
  | closeInput
  | closeCall
  | closeReturn
  | cancel
  | stageRecv
  | stageEof
  | stageCancel
  | stageSend
  | stageHandoff
  | consume
  | consumeEof
  deriving DecidableEq, Repr

/-- The stage returns: the deferred `close(p.output)` runs. -/
def PipeSys.stageExit (s : PipeSys) : Option PipeSys :=
  match s.p.output.close with
  | .ok o => some { s with p := { s.p with output := o }, stage := .exited }
  | .error _ => none

/-- One atomic step; `none` when the step is not enabled (it blocks) or panics.

* `process`: `Process(ctx)` spawns the stage.
* `send v`: `Send(ctx, v)` returns `nil` through the buffer of the input.
* `handoff v`: `Send(ctx, v)` returns `nil`, the runtime handing `v` to the stage
  parked at its outer `select` (the only way through an unbuffered input).
* `closeInput`: the statement `close(p.input)`, as the benchmark runs it.
* `closeCall`: `Close()` runs `close(p.input)` and parks on `<-p.done`;
  `closeReturn`: that receive completes and `Close()` returns.
* `cancel`: the token is cancelled.
* `stageRecv`, `stageEof`, `stageCancel`: the cases of the outer `select`;
  `stageSend`, `stageHandoff`, `stageCancel`: the cases of the inner `select`, the
  send going through the buffer of the output or straight to the consumer.
* `consume`, `consumeEof`: the consumer receives a value, or sees the closure. -/
def PipeSys.step (s : PipeSys) : PipeAction → Option PipeSys
  | .process =>
    match s.stage with
    | .notStarted => some { s with stage := .selecting }
    | _ => none
  | .send v =>
    match s.p.Send s.ctx false false v .enqueue with
    | .returned none p => some { s with p := p, sent := s.sent ++ [v] }
    | _ => none
  | .handoff v =>
    match s.stage with
    | .selecting =>
      if s.p.input.buf = [] ∧ s.p.input.closed = false then
        some { s with stage := .sending v, sent := s.sent ++ [v] }
      else none
    | _ => none
  | .closeInput =>
    match s.p.input.close with
    | .ok i => some { s with p := { s.p with input := i } }
    | .error _ => none
  | .closeCall =>
    match s.p.input.close with
    | .ok i => some { s with p := { s.p with input := i }, closing := .waiting }
    | .error _ => none
  | .closeReturn =>
    match s.closing with
    | .waiting =>
      match s.p.done.recv with
      | .done (_, d) => some { s with p := { s.p with done := d }, closing := .returned }
      | _ => none
    | _ => none
  | .cancel => some { s with ctx := s.ctx.cancel }
  | .stageRecv =>
    match s.stage with
    | .selecting =>
      match s.p.input.recv with
      | .done (some v, i) => some { s with p := { s.p with input := i }, stage := .sending v }
      | _ => none
    | _ => none
  | .stageEof =>
    match s.stage with
    | .selecting =>
      match s.p.input.recv with
      | .done (none, _) => s.stageExit
      | _ => none
    | _ => none
  | .stageCancel =>
    match s.stage with
    | .selecting => if s.ctx.isDone then s.stageExit else none
    | .sending _ => if s.ctx.isDone then s.stageExit else none
    | _ => none
  | .stageSend =>
    match s.stage with
    | .sending v =>
      match s.p.output.send (transform v) with
      | .done o => some { s with p := { s.p with output := o }, stage := .selecting }
      | _ => none
    | _ => none
  | .stageHandoff =>
    match s.stage with
    | .sending v =>
      if s.p.output.buf = [] ∧ s.p.output.closed = false ∧ s.sawClose = false then
        some { s with received := s.received ++ [transform v], stage := .selecting }
      else none
    | _ => none
  | .consume =>
    if s.sawClose then none
    else
      match s.p.output.recv with
      | .done (some w, o) =>
        some { s with p := { s.p with output := o }, received := s.received ++ [w] }
      | _ => none
  | .consumeEof =>
    if s.sawClose then none
    else
      match s.p.output.recv with
      | .done (none, _) => some { s with sawClose := true }
      | _ => none

/-- A schedule: the atomic steps in the order in which they happen. -/
def PipeSys.run (s : PipeSys) : List PipeAction → Option PipeSys
  | [] => some s
  | a :: as =>
    match s.step a with
    | some s1 => PipeSys.run s1 as
    | none => none

/-- The steps of the stage and of the consumer that a live token allows. -/
def PipeAction.draining : List PipeAction :=
  [.stageRecv, .stageEof, .stageSend, .stageHandoff, .consume, .consumeEof]

/-- The value that the stage holds at its inner `select`, already transformed. -/
def PipeSys.pending (s : PipeSys) : List Int :=
  match s.stage with
  | .sending v => [transform v]
  | _ => []

/-- An upper bound on the number of draining steps still to come. -/
def PipeSys.work (s : PipeSys) : Nat :=
  3 * s.p.input.buf.length
    + (match s.stage with
        | .sending _ => 3
        | .exited => 0
        | _ => 1)
    + s.p.output.buf.length + (if s.sawClose then 0 else 1)

/-- The terminal state of a run: the stage has returned, the output is closed and
drained, and the consumer has seen the closure. -/
def PipeSys.Final (s : PipeSys) : Prop :=
  s.stage = .exited ∧ s.p.output.closed = true ∧ s.p.output.buf = [] ∧ s.sawClose = true

/-- What holds of a pipeline in every state: only the stage closes the output. -/
def PipeSys.Wf (s : PipeSys) : Prop :=
  (s.p.output.closed = true ↔ s.stage = .exited) ∧
  (s.sawClose = true → s.p.output.closed = true ∧ s.p.output.buf = []) ∧
  (s.stage = .exited → (s.p.input.closed = true ∧ s.p.input.buf = []) ∨ s.ctx.isDone = true) ∧
  s.p.done.closed = false ∧ s.p.done.buf = [] ∧ s.closing ≠ .returned

/-- What holds while the token is live: every value sent is, transformed, either
with the consumer, in the output, held by the stage or still to come from the
input, in the order of sending. -/
def PipeSys.Conserved (s : PipeSys) : Prop :=
  s.sent.map transform
    = s.received ++ s.p.output.buf ++ s.pending ++ s.p.input.buf.map transform

/-- The pipeline that `NewPipeline(1)` builds. -/
def demoPipe : Pipeline :=
  { input := { buf := [], cap := 1, closed := false },
    output := { buf := [], cap := 1, closed := false },
    done := { buf := [], cap := 0, closed := false } }

/-- The pipeline that `NewPipeline(0)` builds. -/
def rawPipe : Pipeline :=
  { input := { buf := [], cap := 0, closed := false },
    output := { buf := [], cap := 0, closed := false },
    done := { buf := [], cap := 0, closed := false } }

/-- The pipeline `rawPipe` after `Process` under a live token. -/
def rawSys : PipeSys :=
  { p := rawPipe, ctx := Ctx.background, stage := .selecting, sent := [], received := [],
    sawClose := false, closing := .notCalled }

/-- The pipeline `demoPipe` after `Process`, a `Send` of 3 and the closure of the
input. -/
def demoSys : PipeSys :=
  { p := { demoPipe with input := { buf := [3], cap := 1, closed := true } },
    ctx := Ctx.background, stage := .selecting, sent := [3], received := [],
    sawClose := false, closing := .notCalled }

/-! ## FanOut (channels/bom.go) -/

/-- Struct `FanOut`.  The input channel is shared with the producer; the processing
function is taken as a function of the item. -/
structure FanOut where
  input : Chan Int
  workers : Int
  processor : Int → GoError
  errChan : Chan GoError

/-- Function `NewFanOut(input, workers, processor)`. -/
def NewFanOut (input : Chan Int) (workers : Int) (processor : Int → GoError) :
    Except Fault FanOut :=
  match Chan.make 16 workers with
  | .ok e => .ok { input := input, workers := workers, processor := processor, errChan := e }
  | .error f => .error f

/-- Where the caller of `Run` stands: in its `range` loop over the error channel, or
returned with an error value. -/
inductive RunPc where
  | ranging
  | returned (err : GoError)
  deriving DecidableEq, Repr

/-- A call of `Run` with its goroutines: the token, the counter `wg` of the consumers
inside their loop, whether the goroutine of `wg.Wait(); close(f.errChan)` has run, and
the caller.  The other fields are a log: the items sent on the input (`fed`), the
items handed to the processing function (`processed`), the errors sent on the error
channel (`recorded`), all oldest first, and the number of errors that took the
`default` case (`dropped`). -/
structure FanSys where
  f : FanOut
  ctx : Ctx
  wg : Nat
  closerDone : Bool
  runner : RunPc
  fed : List Int
  processed : List Int
  recorded : List String
  dropped : Nat

/-- Method `FanOut.Run` up to its `range` loop: the loop of `wg.Add(1)` and `go` has
spawned the consumers, and the closing goroutine is spawned. -/
def FanSys.start (f : FanOut) (ctx : Ctx) : FanSys :=
  { f := f, ctx := ctx, wg := f.workers.toNat, closerDone := false, runner := .ranging,
    fed := f.input.buf, processed := [], recorded := [], dropped := 0 }

/-- The inner `select` of a consumer: `f.errChan <- err`, or `default` when the send
cannot proceed.  A send on a closed channel proceeds and panics. -/
def FanSys.record (s : FanSys) (msg : String) : Op FanSys :=
  match s.f.errChan.send (some msg) with
  | .done e => .done { s with f := { s.f with errChan := e }, recorded := s.recorded ++ [msg] }
  | .blocked => .done { s with dropped := s.dropped + 1 }
  | .fault x => .fault x

/-- One iteration of the loop of a consumer, with the case of the outer `select` that
fires: `blocked` when that case is not ready (or no consumer is in its loop).  The
receive, the call of the processing function and the recording of its error are taken
as one atomic step; with several consumers the program may record the errors in an
order other than that of `processed`. -/
def FanSys.workerStep (s : FanSys) (c : SelectCase) : Op FanSys :=
  if s.wg = 0 then .blocked
  else
    match c with
    | .queue =>
      match s.f.input.recv with
      | .done (some value, i) =>
        let s1 := { s with f := { s.f with input := i }, processed := s.processed ++ [value] }
        match s.f.processor value with
        | some msg => s1.record msg
        | none => .done s1
      | .done (none, _) => .done { s with wg := s.wg - 1 }
      | .blocked => .blocked
      | .fault x => .fault x
    | .ctxDone =>
      if s.ctx.isDone then .done { s with wg := s.wg - 1 } else .blocked

/-- The goroutine `wg.Wait(); close(f.errChan)`. -/
def FanSys.closerStep (s : FanSys) : Op FanSys :=
  if s.closerDone then .blocked
  else if s.wg = 0 then
    match s.f.errChan.close with
    | .ok e => .done { s with f := { s.f with errChan := e }, closerDone := true }
    | .error x => .fault x
  else .blocked

/-- One iteration of `for err := range f.errChan` in `Run`: a non-nil error is
returned, a nil one is skipped, and the end of the range returns `nil`. -/
def FanSys.collectStep (s : FanSys) : Op FanSys :=
  match s.runner with
  | .returned _ => .blocked
  | .ranging =>
    match s.f.errChan.recv with
    | .done (some err, e) =>
      match err with
      | some msg => .done { s with f := { s.f with errChan := e }, runner := .returned (some msg) }
      | none => .done { s with f := { s.f with errChan := e } }
    | .done (none, _) => .done { s with runner := .returned none }
    | .blocked => .blocked
    | .fault x => .fault x

/-- Atomic steps of a program running a fan-out. -/
inductive FanAction where
  | feed (value : Int)
  | handoff (value : Int)
  | closeInput
  | cancel
  | worker (c : SelectCase)
  | closer
  | collect
  deriving DecidableEq, Repr

/-- One atomic step; `none` when the step is not enabled (it blocks) or panics.

* `feed v`: the producer sends `v` through the buffer of the input.
* `handoff v`: the producer sends `v` on an empty input, the runtime handing it to a
  consumer parked at its `select` (the only way through an unbuffered input).
* `closeInput`: the producer closes the input.  `cancel`: the token is cancelled.
* `worker c`, `closer`, `collect`: the steps of the goroutines of `Run`. -/
def FanSys.step (s : FanSys) : FanAction → Option FanSys
  | .feed v =>
    match s.f.input.send v with
    | .done i => some { s with f := { s.f with input := i }, fed := s.fed ++ [v] }
    | _ => none
  | .handoff v =>
    if s.f.input.buf = [] ∧ s.f.input.closed = false then
      match FanSys.workerStep
          { s with f := { s.f with input := { s.f.input with buf := [v] } },
                   fed := s.fed ++ [v] } .queue with
      | .done s1 => some s1
      | _ => none
    else none
  | .closeInput =>
    match s.f.input.close with
    | .ok i => some { s with f := { s.f with input := i } }
    | .error _ => none
  | .cancel => some { s with ctx := s.ctx.cancel }
  | .worker c =>
    match s.workerStep c with
    | .done s1 => some s1
    | _ => none
  | .closer =>
    match s.closerStep with
    | .done s1 => some s1
    | _ => none
  | .collect =>
    match s.collectStep with
    | .done s1 => some s1
    | _ => none

/-- A schedule: the atomic steps in the order in which they happen. -/
def FanSys.run (s : FanSys) : List FanAction → Option FanSys
  | [] => some s
  | a :: as =>
    match s.step a with
    | some s1 => FanSys.run s1 as
    | none => none

/-- The errors of the items handed to the processing function, oldest first. -/
def FanSys.failures (s : FanSys) : List String :=
  s.processed.filterMap s.f.processor

/-- The number of calls of the processing function that returned `nil`. -/
def FanSys.successes (s : FanSys) : Nat :=
  (s.processed.filter (fun v => (s.f.processor v).isNone)).length

/-- An upper bound on the number of steps of the goroutines of `Run` still to come
once the input is closed. -/
def FanSys.work (s : FanSys) : Nat :=
  2 * s.f.input.buf.length + s.f.errChan.buf.length + s.wg
    + (if s.closerDone then 0 else 1)
    + (match s.runner with
        | .ranging => 1
        | .returned _ => 0)

/-- What holds of a call of `Run` on a fresh `FanOut` in every state. -/
def FanSys.Wf (s : FanSys) : Prop :=
  s.fed = s.processed ++ s.f.input.buf ∧
  s.f.errChan.closed = s.closerDone ∧
  (s.closerDone = true → s.wg = 0) ∧
  s.f.errChan.cap = s.f.workers.toNat ∧ s.wg ≤ s.f.workers.toNat ∧
  (s.runner = .ranging → s.f.errChan.buf = s.recorded.map some) ∧
  (∀ r, s.runner = .returned r →
    (r = none ∧ s.recorded = [] ∧ s.closerDone = true) ∨
    (∃ msg rest, r = some msg ∧ s.recorded = msg :: rest)) ∧
  s.successes + s.recorded.length + s.dropped = s.processed.length ∧
  s.recorded.head? = s.failures.head? ∧
  (s.ctx.isDone = false → s.wg < s.f.workers.toNat →
    s.f.input.closed = true ∧ s.f.input.buf = [])

/-- The fields of a call of `Run` that exist in the program: the two channels, the
counter of the WaitGroup, the closing goroutine and the caller. -/
def FanSys.real (s : FanSys) : Chan Int × Chan GoError × Nat × Bool × RunPc :=
  (s.f.input, s.f.errChan, s.wg, s.closerDone, s.runner)

/-- A processing function that fails on every item. -/
def failAll : Int → GoError :=
  fun _ => some "e"

/-- A processing function that fails on item 1 only. -/
def failFirst : Int → GoError :=
  fun v => if v = 1 then some "e" else none

/-- The FanOut that `NewFanOut(input, 1, proc)` builds on a closed input of capacity 2
holding the items 1 and 2. -/
def demoFan (proc : Int → GoError) : FanOut :=
  { input := { buf := [1, 2], cap := 2, closed := true }, workers := 1, processor := proc,
    errChan := { buf := [], cap := 1, closed := false } }

/-- The call of `Run` on `demoFan proc`, for a `proc` that fails on item 1 with "e",
after the worker has processed item 1 and `Run` has read the error. -/
def demoFanReturned (proc : Int → GoError) : FanSys :=
  { f := { demoFan proc with input := { buf := [2], cap := 2, closed := true } },
    ctx := Ctx.background, wg := 1, closerDone := false, runner := .returned (some "e"),
    fed := [1, 2], processed := [1], recorded := ["e"], dropped := 0 }

/-- The call of `Run` on `demoFan proc` under a cancelled token, for a `proc` that
fails on item 1 with "e", after the worker has still processed item 1 and `Run` has
read the error. -/
def demoFanCancelled (proc : Int → GoError) : FanSys :=
  { demoFanReturned proc with ctx := { err := some "context canceled" } }

/-- A processing function that never fails. -/
def failNone : Int → GoError :=
  fun _ => none

/-- The call of `Run` on `demoFan failNone` once both items are processed, the worker
has left, the error channel is closed and `Run` has returned `nil`. -/
def demoFanDone : FanSys :=
  { f := { demoFan failNone with
            input := { buf := [], cap := 2, closed := true },
            errChan := { buf := [], cap := 1, closed := true } },
    ctx := Ctx.background, wg := 0, closerDone := true, runner := .returned none,
    fed := [1, 2], processed := [1, 2], recorded := [], dropped := 0 }

/-- The FanOut that `NewFanOut(input, 1, failNone)` builds on an open, empty input of
capacity 1. -/
def idleFan : FanOut :=
  { input := { buf := [], cap := 1, closed := false }, workers := 1, processor := failNone,
    errChan := { buf := [], cap := 1, closed := false } }

/-- The call of `Run` on `idleFan` under a cancelled token, once the worker has left
through `ctx.Done()`, the error channel is closed and `Run` has returned `nil`. -/
def idleFanDone : FanSys :=
  { f := { idleFan with errChan := { buf := [], cap := 1, closed := true } },
    ctx := { err := some "context canceled" }, wg := 0, closerDone := true,
    runner := .returned none, fed := [], processed := [], recorded := [], dropped := 0 }

/-! ## SafeGoroutine (goroutines/bom.go) -/

/-- What a call `f()` of the user work does: it returns an error value, it panics
with a value (kept as `%v` prints it; `recover()` returns it non-nil), or it never
returns. -/
inductive Work where
  | returns (err : GoError)
  | panics (r : String)
  | hangs
  deriving DecidableEq, Repr

/-- The value of `recover()` in the deferred function of the goroutine. -/
def Work.recovered : Work → Option String
  | .panics r => some r
  | _ => none

/-- The variable `err` when the deferred function of the goroutine starts: the
assignment `err = f()` only happens when `f` returns. -/
def Work.assigned : Work → GoError
  | .returns e => e
  | _ => none

/-- The goroutine of `SafeGoroutine`: the value of `err` at the moment the deferred
function runs `close(done)`; `none` when `f` never returns, so that `done` is never
closed. -/
def SafeGoroutine.body (f : Work) : Option GoError :=
  match f with
  | .hangs => none
  | w =>
    match w.recovered with
    | some r => some (some ("panic recuperado: " ++ r))
    | none => some w.assigned

/-- The case of the `select` of `SafeGoroutine` that fires. -/
inductive DoneCase where
  | done
  | ctxDone
  deriving DecidableEq, Repr

/-- Function `SafeGoroutine(ctx, f)` with the case of its `select` that fires;
`blocked` when that case is not ready. -/
def SafeGoroutine (ctx : Ctx) (f : Work) (c : DoneCase) : Op GoError :=
  match c with
  | .done =>
    match SafeGoroutine.body f with
    | some err => .done err
    | none => .blocked
  | .ctxDone =>
    if ctx.isDone then .done ctx.err else .blocked

/-! ## SafeSharedState (concorrencia/bom.go) -/

/-- A Go `map[string]int` that has been made: its entries, with at most one entry
per key. -/
abbrev GoMap := List (String × Int)

/-- Index expression `v, ok := m[key]`. -/
def GoMap.get : GoMap → String → Option Int
  | [], _ => none
  | (k, v) :: rest, key => if k = key then some v else GoMap.get rest key

/-- Builtin `delete(m, key)`. -/
def GoMap.delete : GoMap → String → GoMap
  | [], _ => []
  | (k, v) :: rest, key =>
    if k = key then GoMap.delete rest key else (k, v) :: GoMap.delete rest key

/-- Assignment `m[key] = value`. -/
def GoMap.set (m : GoMap) (key : String) (value : Int) : GoMap :=
  (key, value) :: GoMap.delete m key

/-- Struct `SafeSharedState`; the embedded `RWMutex` is represented by the atomicity
of the methods. -/
structure SafeSharedState where
  data : GoMap
  deriving DecidableEq, Repr

/-- Function `NewSafeSharedState()`. -/
def NewSafeSharedState : SafeSharedState :=
  { data := [] }

/-- Method `SafeSharedState.Update`. -/
def SafeSharedState.Update (s : SafeSharedState) (key : String) (value : Int) :
    SafeSharedState :=
  { s with data := s.data.set key value }

/-- Method `SafeSharedState.Delete`. -/
def SafeSharedState.Delete (s : SafeSharedState) (key : String) : SafeSharedState :=
  { s with data := s.data.delete key }

/-- Method `SafeSharedState.Get`: the pair returned, and the state it leaves. -/
def SafeSharedState.Get (s : SafeSharedState) (key : String) :
    (Int × Bool) × SafeSharedState :=
  match s.data.get key with
  | some val => ((val, true), s)
  | none => ((0, false), s)

/-! ## Context with timeout (context/bom.go) -/

/-- The message of `context.DeadlineExceeded`. -/
def deadlineExceeded : String := "context deadline exceeded"

/-- The token of `context.WithTimeout(parent, timeout)` over logical time, created at
tick 0: `WithTimeout parent timeout k` is the token `k` ticks later.  It is done as
soon as the parent is done or `timeout` ticks have passed, and it keeps the error it
got first. -/
def WithTimeout (parent : Nat → Ctx) (timeout : Nat) : Nat → Ctx
  | 0 =>
    if (parent 0).isDone then parent 0
    else if timeout = 0 then { err := some deadlineExceeded }
    else { err := none }
  | k + 1 =>
    if (WithTimeout parent timeout k).isDone then WithTimeout parent timeout k
    else if (parent (k + 1)).isDone then parent (k + 1)
    else if timeout ≤ k + 1 then { err := some deadlineExceeded }
    else { err := none }

/-- The statement `select { case <-time.After(d): return nil; case <-ctx.Done(): return
ctx.Err() }` entered at tick `k` with `fuel` ticks left until the timer fires: the tick
at which it fires and the values it can return at that tick. -/
def workOrDone (ctx : Nat → Ctx) : Nat → Nat → Nat × List GoError
  | 0, k => (k, none :: (if (ctx k).isDone then [(ctx k).err] else []))
  | fuel + 1, k =>
    if (ctx k).isDone then (k, [(ctx k).err]) else workOrDone ctx fuel (k + 1)

/-- Function `DoWork(ctx)`, called at tick 0, one second lasting `second` ticks. -/
def DoWork (second : Nat) (ctx : Nat → Ctx) : Nat × List GoError :=
  workOrDone ctx (2 * second) 0

/-- Function `TimeoutRespected()`. -/
def TimeoutRespected (second : Nat) : Nat × List GoError :=
  DoWork second (WithTimeout (fun _ => Ctx.background) second)

/-- Function `Parent()`: the result of its call of `DoWork`. -/
def Parent (second : Nat) : Nat × List GoError :=
  DoWork second (WithTimeout (fun _ => Ctx.background) (3 * second))

/-! ## SafeSelect and SafeResource (concorrencia/bom.go) -/

/-- A receive `val := <-ch` as a case of a `select`: the value received when the case
is ready (the zero value on a closed and drained channel), `none` when it is not.  A
sender parked on the channel counts as a buffered value. -/
def recvCase (ch : Chan Int) : Option Int :=
  match ch.recv with
  | .done (some v, _) => some v
  | .done (none, _) => some 0
  | _ => none

/-- Function `SafeSelect(ctx, ch1, ch2)`: the pairs it can return, one per ready case
of its `select`, and the pair of the `default` case when no case is ready.
`timerFired` tells whether the channel of `time.After(time.Second)` is ready; that
channel is made when the `select` is entered. -/
def SafeSelect (ctx : Ctx) (timerFired : Bool) (ch1 ch2 : Chan Int) : List (Int × GoError) :=
  let ready :=
    ((recvCase ch1).map (fun v => (v, none))).toList
      ++ ((recvCase ch2).map (fun v => (v, none))).toList
      ++ (if ctx.isDone then [(0, ctx.err)] else [])
      ++ (if timerFired then [(0, some deadlineExceeded)] else [])
  match ready with
  | [] => [(0, none)]
  | r :: rs => r :: rs

/-- Struct `SafeResource` of the package concorrencia: whether its mutex is held, and
its value. -/
structure SafeResource where
  locked : Bool
  value : Int
  deriving DecidableEq, Repr

/-- The resources in memory, by address. -/
abbrev ResHeap := Nat → SafeResource

/-- Method `mu.Lock()` of the resource at address `a`: waits while the mutex is held. -/
def ResHeap.lock (h : ResHeap) (a : Nat) : Op ResHeap :=
  if (h a).locked then .blocked
  else .done (Function.update h a { h a with locked := true })

/-- Method `mu.Unlock()` of the resource at address `a`. -/
def ResHeap.unlock (h : ResHeap) (a : Nat) : ResHeap :=
  Function.update h a { h a with locked := false }

/-- Method `SafeResource.Update`, `r` and `other` being the addresses of the receiver
and of the argument: `blocked` when one of the two calls of `Lock` never returns. -/
def SafeResource.Update (h : ResHeap) (r other : Nat) : Op (Bool × ResHeap) :=
  let first := if other < r then other else r
  let second := if other < r then r else other
  match h.lock first with
  | .done h1 =>
    match h1.lock second with
    | .done h2 =>
      let h3 : ResHeap := Function.update h2 r
        { h2 r with value := wrapInt64 ((h2 r).value + (h2 other).value) }
      .done (true, ResHeap.unlock (ResHeap.unlock h3 second) first)
    | .blocked => .blocked
    | .fault f => .fault f
  | .blocked => .blocked
  | .fault f => .fault f

/-! ## ProcessUser and ProcessUserData (funcoes) -/

/-- Struct `Address`. -/
structure Address where
  Street : String
  City : String
  State : String
  Country : String
  ZipCode : String
  deriving DecidableEq, Repr

/-- Struct `UserFlags`. -/
structure UserFlags where
  IsActive : Bool
  IsAdmin : Bool
  IsPremium : Bool
  deriving DecidableEq, Repr

/-- Struct `UserData`. -/
structure UserData where
  FirstName : String
  LastName : String
  Email : String
  Phone : String
  Address : Address
  Flags : UserFlags
  deriving DecidableEq, Repr

/-- Struct `ProcessResult`. -/
structure ProcessResult where
  FullName : String
  FullAddress : String
  Age : Int
  IsValid : Bool
  Error : GoError
  deriving DecidableEq, Repr

/-- Function `validateUserData`. -/
def validateUserData (data : UserData) : GoError :=
  if data.FirstName = "" ∨ data.LastName = "" then some "nome inválido" else none

/-- The map `status` of `formatFullName`, as a lookup. -/
def statusOf (flags : UserFlags) (label : String) : Bool :=
  if label = "Ativo" then flags.IsActive
  else if label = "Admin" then flags.IsAdmin
  else if label = "Premium" then flags.IsPremium
  else false

/-- Function `formatFullName`.  `order` is the order in which `range status` visits
the three keys of the map, which Go leaves unspecified and varies from one loop to
the next. -/
def formatFullName (data : UserData) (order : List String) : String :=
  " ".intercalate
    ((data.FirstName ++ " " ++ data.LastName)
      :: ((order.filter (statusOf data.Flags)).map (fun label => "(" ++ label ++ ")")))

/-- Function `formatAddress`. -/
def formatAddress (addr : Address) : String :=
  addr.Street ++ ", " ++ addr.City ++ " - " ++ addr.State ++ ", " ++ addr.Country
    ++ " (" ++ addr.ZipCode ++ ")"

/-- Function `ProcessUser`, with the order of the map iteration of `formatFullName`. -/
def ProcessUser (data : UserData) (age : Int) (order : List String) : ProcessResult :=
  match validateUserData data with
  | some err => { FullName := "", FullAddress := "", Age := 0, IsValid := false, Error := some err }
  | none =>
    { FullName := formatFullName data order, FullAddress := formatAddress data.Address,
      Age := age, IsValid := true, Error := none }

/-- Function `ProcessUserData` of ruim.go. -/
def ProcessUserData (firstName lastName email phone address city state country zipCode : String)
    (age : Int) (isActive isAdmin isPremium : Bool) : String × String × GoError × Bool × Int :=
  if firstName = "" ∨ lastName = "" then ("", "", some "invalid name", false, -1)
  else
    let result0 := firstName ++ " " ++ lastName
    let result1 := if isActive then result0 ++ " (Ativo)" else result0
    let result2 := if isAdmin then result1 ++ " (Admin)" else result1
    let result3 := if isPremium then result2 ++ " (Premium)" else result2
    let fullAddress := address ++ ", " ++ city ++ " - " ++ state ++ ", " ++ country
      ++ " (" ++ zipCode ++ ")"
    (result3, fullAddress, none, true, wrapInt64 (age * 2))

/-- The user of the benchmarks. -/
def johnDoe : UserData :=
  { FirstName := "John", LastName := "Doe", Email := "john@example.com", Phone := "123456789",
    Address := { Street := "Street 1", City := "City", State := "State", Country := "Country",
                 ZipCode := "12345" },
    Flags := { IsActive := true, IsAdmin := true, IsPremium := true } }

/-! ## BufferedPipe (channels/bom.go) -/

/-- Struct `BufferedPipe` with its goroutine `process`, whose input and output are
unbuffered: `received` are the values that `process` received from the input and
`delivered` the values that it sent on the output, oldest first; `outputClosed` tells
that `process` has closed the output and returned. -/
structure BufferedPipe where
  buffer : List Int
  capacity : Int
  received : List Int
  delivered : List Int
  outputClosed : Bool
  deriving DecidableEq, Repr

/-- Function `NewBufferedPipe(capacity)`. -/
def NewBufferedPipe (capacity : Int) : BufferedPipe :=
  { buffer := [], capacity := capacity, received := [], delivered := [], outputClosed := false }

/-- Events of the loop of `process`: a value arrives on the input, the input is seen
closed, or the consumer takes `bp.buffer[0]` from the output. -/
inductive PipeEvent where
  | send (value : Int)
  | close
  | deliver
  deriving DecidableEq, Repr

/-- One iteration of the loop of `process`; `none` when the event cannot happen. -/
def BufferedPipe.process (bp : BufferedPipe) : PipeEvent → Option BufferedPipe
  | .send value =>
    if bp.outputClosed then none
    else if bp.buffer.length = 0 then
      some { bp with buffer := bp.buffer ++ [value], received := bp.received ++ [value] }
    else if (bp.buffer.length : Int) < bp.capacity then
      some { bp with buffer := bp.buffer ++ [value], received := bp.received ++ [value] }
    else some { bp with received := bp.received ++ [value] }
  | .close =>
    if bp.outputClosed then none
    else if bp.buffer.length = 0 then some { bp with outputClosed := true }
    else some { bp with delivered := bp.delivered ++ bp.buffer, outputClosed := true }
  | .deliver =>
    if bp.outputClosed then none
    else
      match bp.buffer with
      | [] => none
      | v :: rest => some { bp with buffer := rest, delivered := bp.delivered ++ [v] }

/-- A sequence of events, oldest first. -/
def BufferedPipe.run (bp : BufferedPipe) : List PipeEvent → Option BufferedPipe
  | [] => some bp
  | e :: es =>
    match bp.process e with
    | some bp1 => BufferedPipe.run bp1 es
    | none => none

/-- Resources whose mutexes are all free, each of value 1. -/
def freeHeap : ResHeap := fun _ => { locked := false, value := 1 }

/-- An unbuffered, open channel with no sender parked on it. -/
def idleChan : Chan Int := { buf := [], cap := 0, closed := false }

/-! ## SafeChannel under its RWMutex (channels/bom.go) -/

/-- Where a call of `SafeChannel.Send` that holds the read lock stands: before the
test `if sc.closed`, before the statement `sc.ch <- value`, or before the deferred
`RUnlock` with the error it will return. -/
inductive SendPc where
  | check (value : Int)
  | send (value : Int)
  | unlock (err : GoError)
  deriving DecidableEq, Repr

/-- Where a call of `SafeChannel.Close` that holds the write lock stands: before the
test `if !sc.closed` (with the assignment `sc.closed = true`), before `close(sc.ch)`,
or before the deferred `Unlock`. -/
inductive CloserPc where
  | check
  | close
  | unlock
  deriving DecidableEq, Repr

/-- One SafeChannel shared by concurrent calls of `Send` and `Close`: the struct, the
state of `sc.mu` (number of read locks held, whether the write lock is held), the
calls in progress that hold a lock, and the errors returned by the calls of `Send`
that have returned. -/
structure SafeChanSys where
  sc : SafeChannel
  readers : Nat
  writer : Bool
  senders : List SendPc
  closers : List CloserPc
  returned : List GoError
  deriving DecidableEq, Repr

/-- The system right after `NewSafeChannel`. -/
def SafeChanSys.init (sc : SafeChannel) : SafeChanSys :=
  { sc := sc, readers := 0, writer := false, senders := [], closers := [], returned := [] }

/-- Steps of the goroutines: a new call of `Send` takes the read lock; the call of
`Send` at position `i` runs its next statement (`handoff` tells that a receiver is
parked on the channel and takes the value directly); a new call of `Close` takes the
write lock; the call of `Close` at position `j` runs its next statement; a consumer
receives from the channel. -/
inductive SafeAct where
  | sendEnter (value : Int)
  | sendStep (i : Nat) (handoff : Bool)
  | closeEnter
  | closeStep (j : Nat)
  | recv
  deriving DecidableEq, Repr

/-- One step of the system: `blocked` when the goroutine has to wait (or there is no
such call), `fault` when the statement panics. -/
def SafeChanSys.step (s : SafeChanSys) : SafeAct → Op SafeChanSys
  | .sendEnter value =>
    if s.writer then .blocked
    else .done { s with readers := s.readers + 1, senders := s.senders ++ [.check value] }
  | .sendStep i handoff =>
    match s.senders[i]? with
    | none => .blocked
    | some (.check value) =>
      if s.sc.closed then
        .done { s with senders := s.senders.set i (.unlock (some "canal fechado")) }
      else .done { s with senders := s.senders.set i (.send value) }
    | some (.send value) =>
      if handoff then
        if s.sc.ch.closed then .fault .sendOnClosed
        else .done { s with senders := s.senders.set i (.unlock none) }
      else
        match s.sc.ch.send value with
        | .done c =>
          .done { s with sc := { s.sc with ch := c }, senders := s.senders.set i (.unlock none) }
        | .blocked => .blocked
        | .fault f => .fault f
    | some (.unlock err) =>
      .done { s with readers := s.readers - 1, senders := s.senders.eraseIdx i,
                     returned := s.returned ++ [err] }
  | .closeEnter =>
    if s.writer || decide (0 < s.readers) then .blocked
    else .done { s with writer := true, closers := s.closers ++ [.check] }
  | .closeStep j =>
    match s.closers[j]? with
    | none => .blocked
    | some .check =>
      if !s.sc.closed then
        .done { s with sc := { s.sc with closed := true }, closers := s.closers.set j .close }
      else .done { s with closers := s.closers.set j .unlock }
    | some .close =>
      match s.sc.ch.close with
      | .ok c => .done { s with sc := { s.sc with ch := c }, closers := s.closers.set j .unlock }
      | .error f => .fault f
    | some .unlock => .done { s with writer := false, closers := s.closers.eraseIdx j }
  | .recv =>
    match s.sc.ch.recv with
    | .done (_, c) => .done { s with sc := { s.sc with ch := c } }
    | .blocked => .blocked
    | .fault f => .fault f

/-- An interleaving, oldest step first; it stops at the first step that blocks or
panics. -/
def SafeChanSys.run (s : SafeChanSys) : List SafeAct → Op SafeChanSys
  | [] => .done s
  | a :: as =>
    match s.step a with
    | .done s1 => SafeChanSys.run s1 as
    | .blocked => .blocked
    | .fault f => .fault f

/-- What the mutex guarantees: the read locks held are those of the calls of `Send`
in progress; while the write lock is held no `Send` is in progress and exactly one
`Close` is; the flag and the channel disagree only between the two statements of that
`Close`; a `Send` that has passed its test has seen the flag unset. -/
def SafeChanSys.Inv (s : SafeChanSys) : Prop :=
  s.readers = s.senders.length
  ∧ (s.writer = false → s.closers = [] ∧ s.sc.ch.closed = s.sc.closed)
  ∧ (s.writer = true → s.senders = []
      ∧ ((s.closers = [.check] ∧ s.sc.ch.closed = s.sc.closed)
        ∨ (s.closers = [.close] ∧ s.sc.closed = true ∧ s.sc.ch.closed = false)
        ∨ (s.closers = [.unlock] ∧ s.sc.ch.closed = s.sc.closed)))
  ∧ (∀ value, SendPc.send value ∈ s.senders → s.sc.closed = false)

/-! ## BatchProcessor (goroutines/bom.go) -/

/-- Struct `BatchProcessor`. -/
structure BatchProcessor where
  batchSize : Int
  pool : WorkerPool
  deriving DecidableEq, Repr

/-- Function `NewBatchProcessor(batchSize, workers)`. -/
def NewBatchProcessor (batchSize workers : Int) : Except Fault BatchProcessor :=
  match NewWorkerPool workers with
  | .ok p => .ok { batchSize := batchSize, pool := p }
  | .error f => .error f

/-- Slice expression `items[i:end]` on a slice whose capacity is its length: `none`
when the bounds are out of range, which panics. -/
def sliceOf (items : List Int) (i e : Int) : Option (List Int) :=
  if 0 ≤ i ∧ i ≤ e ∧ e ≤ (items.length : Int) then
    some ((items.drop i.toNat).take (e.toNat - i.toNat))
  else none

/-- Where a call of `Process` stands: at the test of its loop with the value of `i`,
or returned. -/
inductive ProcessPc where
  | loop (i : Int)
  | returned (err : GoError)
  deriving DecidableEq, Repr

/-- One call of `BatchProcessor.Process(items)` next to the workers of the pool:
`batches` lists the batches of the tasks that `Submit` has accepted in this call,
oldest first. -/
structure BatchSys where
  b : BatchProcessor
  items : List Int
  pc : ProcessPc
  batches : List (List Int)
  deriving DecidableEq, Repr

/-- The call `b.Process(items)` at its start. -/
def BatchProcessor.Process (b : BatchProcessor) (items : List Int) : BatchSys :=
  { b := b, items := items, pc := .loop 0, batches := [] }

/-- Steps of the goroutines: `Process` runs one iteration of its loop (with the case
of the `select` of `Submit` that fires), a worker of the pool runs one iteration of
its loop, another goroutine runs `Stop` up to its wait. -/
inductive BatchAction where
  | iterate (c : SelectCase)
  | worker (c : SelectCase)
  | stop
  deriving DecidableEq, Repr

/-- One step.  The task of the batch number `k` is given the identity `k`; it only
ranges over its batch, so it does not panic. -/
def BatchSys.step (s : BatchSys) : BatchAction → Op BatchSys
  | .iterate c =>
    match s.pc with
    | .returned _ => .blocked
    | .loop i =>
      if i < (s.items.length : Int) then
        let end0 := wrapInt64 (i + s.b.batchSize)
        let end1 := if end0 > (s.items.length : Int) then (s.items.length : Int) else end0
        match sliceOf s.items i end1 with
        | none => .fault .sliceBounds
        | some batch =>
          match s.b.pool.Submit { id := s.batches.length, panics := false } c with
          | .returned none p =>
            .done { s with b := { s.b with pool := p },
                           pc := .loop (wrapInt64 (i + s.b.batchSize)),
                           batches := s.batches ++ [batch] }
          | .returned (some err) p =>
            .done { s with b := { s.b with pool := p }, pc := .returned (some err) }
          | .blocked => .blocked
          | .fault f => .fault f
      else .done { s with pc := .returned none }
  | .worker c =>
    match s.b.pool.workerStep c with
    | .done p => .done { s with b := { s.b with pool := p } }
    | .blocked => .blocked
    | .fault f => .fault f
  | .stop =>
    match s.b.pool.stopBegin with
    | .ok p => .done { s with b := { s.b with pool := p } }
    | .error f => .fault f

/-- A schedule, oldest step first; it stops at the first step that blocks or panics. -/
def BatchSys.run (s : BatchSys) : List BatchAction → Op BatchSys
  | [] => .done s
  | a :: as =>
    match s.step a with
    | .done s1 => BatchSys.run s1 as
    | .blocked => .blocked
    | .fault f => .fault f

/-- The pool is in service: `Stop` has not been called, at least one worker is in
its loop, the queue has a buffer, and no queued task panics. -/
def WorkerPool.InService (p : WorkerPool) : Prop :=
  p.stopping = false ∧ p.ctx.isDone = false ∧ p.tasks.closed = false ∧ 0 < p.wg
    ∧ 0 < p.tasks.cap ∧ ∀ t ∈ p.tasks.buf, t.panics = false

/-- What holds of a call `Process(items)` with batch size `b` in every state: the
batches submitted so far are `items[0:b]`, `items[b:2b]`, ... in this order, the last
of them starts inside the slice, and `i` is `b` times their number. -/
def BatchSys.Cut (items : List Int) (b : Nat) (s : BatchSys) : Prop :=
  s.items = items ∧ s.b.batchSize = (b : Int)
  ∧ s.batches = (List.range s.batches.length).map (fun j => (items.drop (j * b)).take b)
  ∧ (s.batches.length = 0 ∨ (s.batches.length - 1) * b < items.length)
  ∧ (∀ i, s.pc = .loop i → i = ((s.batches.length * b : Nat) : Int))
  ∧ (s.pc = .returned none → items.length ≤ s.batches.length * b)

/-- What holds while nobody calls `Stop`: the pool stays in service and `Process` does
not return an error. -/
def BatchSys.Good (s : BatchSys) : Prop :=
  s.b.pool.InService ∧ ∀ err, s.pc = .returned err → err = none

/-- Steps left to a call of `Process` and to the workers while nobody calls `Stop`. -/
def BatchSys.work (s : BatchSys) : Nat :=
  (match s.pc with
    | .loop i => 2 * (s.items.length - i.toNat + 1)
    | .returned _ => 0)
  + s.b.pool.tasks.buf.length

/-- The processor `NewBatchProcessor(1, 0)`: no worker, an unbuffered queue. -/
def idleBatch : BatchProcessor :=
  { batchSize := 1,
    pool := { workers := 0, tasks := { buf := [], cap := 0, closed := false },
              ctx := Ctx.background, wg := 0, stopping := false, executed := [] } }

/-- The processor `NewBatchProcessor(2, 1)`. -/
def demoBatch : BatchProcessor := { batchSize := 2, pool := demoPool }

/-! ## Theorems -/

/-! ### Go integers -/

theorem wrapInt64_eq (x : Int) (h1 : -(2 ^ 63) ≤ x) (h2 : x < 2 ^ 63) : wrapInt64 x = x := by
  unfold wrapInt64
  have h3 : (x + 2 ^ 63) % 2 ^ 64 = x + 2 ^ 63 :=
    Int.emod_eq_of_lt (by omega) (by omega)
  rw [h3]
  omega

theorem wrapInt64_high (x : Int) (h1 : 2 ^ 63 ≤ x) (h2 : x < 2 ^ 64) :
    wrapInt64 x = x - 2 ^ 64 := by
  unfold wrapInt64
  have h3 : (x + 2 ^ 63) % 2 ^ 64 = x + 2 ^ 63 - 2 ^ 64 := by omega
  rw [h3]
  omega

theorem SafeChannel.apply_closed (sc sc1 : SafeChannel) (op : SafeOp)
    (hc : sc.Consistent) (h : sc.apply op = some sc1) :
    sc1.Consistent ∧ (sc1.closed = true ↔ (sc.closed = true ∨ op = SafeOp.close)) := by
  unfold SafeChannel.Consistent at *
  cases op with
  | send v =>
    simp only [SafeChannel.apply, SafeChannel.Send, Chan.send] at h
    by_cases h1 : sc.closed = true
    · simp [h1] at h; subst h; simp [hc, h1]
    · simp only [h1, hc] at h
      by_cases h2 : sc.ch.hasRoom = true
      · simp [h2] at h; subst h; simpa [hc] using h1
      · simp [h2] at h
  | close =>
    simp only [SafeChannel.apply, SafeChannel.Close, Chan.close] at h
    by_cases h1 : sc.closed = true
    · simp [h1] at h; subst h; simp [hc, h1]
    · simp [h1, hc] at h; subst h; simp
  | recv =>
    simp only [SafeChannel.apply, Chan.recv] at h
    cases hb : sc.ch.buf with
    | nil =>
      simp only [hb] at h
      by_cases h1 : sc.ch.closed = true
      · simp [h1] at h; subst h; simp [hc]
      · simp [h1] at h
    | cons v rest =>
      simp [hb] at h; subst h; simp [hc]

theorem NewSafeChannel_consistent (buffer : Int) (sc : SafeChannel)
    (h : NewSafeChannel buffer = .ok sc) :
    sc.Consistent ∧ sc.closed = false ∧ sc.ch.buf = [] := by
  unfold NewSafeChannel Chan.make at h
  by_cases hb : buffer < 0 ∨ maxAlloc - hchanSize < 8 * buffer
  · simp [hb] at h
  · simp only [hb, if_false] at h
    injection h with h
    subst h
    simp [SafeChannel.Consistent]

theorem SafeChannel.run_closed (ops : List SafeOp) (sc sc1 : SafeChannel)
    (hc : sc.Consistent) (h : sc.run ops = some sc1) :
    sc1.Consistent ∧ (sc1.closed = true ↔ (sc.closed = true ∨ SafeOp.close ∈ ops)) := by
  induction ops generalizing sc with
  | nil =>
    simp only [SafeChannel.run, Option.some.injEq] at h
    subst h
    simp [hc]
  | cons op ops ih =>
    simp only [SafeChannel.run] at h
    cases hs : sc.apply op with
    | none => simp [hs] at h
    | some sc2 =>
      simp only [hs] at h
      obtain ⟨hc2, hiff⟩ := SafeChannel.apply_closed sc sc2 op hc hs
      obtain ⟨hc1, hiff1⟩ := ih sc2 hc2 h
      refine ⟨hc1, ?_⟩
      rw [hiff1, hiff, List.mem_cons]
      constructor
      · rintro ((h1 | h1) | h1)
        · exact Or.inl h1
        · exact Or.inr (Or.inl h1.symm)
        · exact Or.inr (Or.inr h1)
      · rintro (h1 | h1 | h1)
        · exact Or.inl (Or.inl h1)
        · exact Or.inl (Or.inr h1.symm)
        · exact Or.inr h1

/-- C1: on a SafeChannel built by `NewSafeChannel` and used through any history of
completed operations, `Send` returns the error "canal fechado" and leaves the channel
as it is when `Close` occurs in the history; it returns `nil` with the value appended
at the tail of the buffer when `Close` does not occur and the buffer has room; it
never panics; and it returns an error only when `Close` occurs in the history. -/
theorem SafeChannel.Send_fails_iff_closed (buffer : Int) (sc0 sc : SafeChannel)
    (ops : List SafeOp) (value : Int)
    (hnew : NewSafeChannel buffer = .ok sc0) (hrun : sc0.run ops = some sc) :
    (SafeOp.close ∈ ops → sc.Send value = .returned (some "canal fechado") sc) ∧
    (SafeOp.close ∉ ops → sc.ch.hasRoom = true →
      sc.Send value
        = .returned none { sc with ch := { sc.ch with buf := sc.ch.buf ++ [value] } }) ∧
    (∀ f, sc.Send value ≠ .fault f) ∧
    (∀ e sc1, sc.Send value = .returned (some e) sc1 → SafeOp.close ∈ ops) := by
  obtain ⟨hc0, hopen, _⟩ := NewSafeChannel_consistent buffer sc0 hnew
  obtain ⟨hc, hiff⟩ := SafeChannel.run_closed ops sc0 sc hc0 hrun
  simp only [hopen, Bool.false_eq_true, false_or] at hiff
  unfold SafeChannel.Consistent at hc
  refine ⟨?_, ?_, ?_, ?_⟩
  · intro hmem
    have h1 : sc.closed = true := hiff.mpr hmem
    simp [SafeChannel.Send, h1]
  · intro hmem hroom
    have h1 : sc.closed = false := by
      cases h2 : sc.closed with
      | false => rfl
      | true => exact absurd (hiff.mp h2) hmem
    simp [SafeChannel.Send, Chan.send, h1, hc, hroom]
  · intro f
    cases h1 : sc.closed with
    | true => simp [SafeChannel.Send, h1]
    | false =>
      by_cases h2 : sc.ch.hasRoom = true
      · simp [SafeChannel.Send, Chan.send, h1, hc, h2]
      · simp [SafeChannel.Send, Chan.send, h1, hc, h2]
  · intro e sc1 hret
    cases h1 : sc.closed with
    | true => exact hiff.mp h1
    | false =>
      by_cases h2 : sc.ch.hasRoom = true
      · simp [SafeChannel.Send, Chan.send, h1, hc, h2] at hret
      · simp [SafeChannel.Send, Chan.send, h1, hc, h2] at hret

/-- Witness of C1: a channel of capacity 2 after a send and a close. -/
theorem SafeChannel.Send_fails_iff_closed_witness :
    NewSafeChannel 2 = .ok { ch := { buf := [], cap := 2, closed := false }, closed := false } ∧
    SafeChannel.run { ch := { buf := [], cap := 2, closed := false }, closed := false }
        [SafeOp.send 7, SafeOp.close]
      = some { ch := { buf := [7], cap := 2, closed := true }, closed := true } ∧
    SafeChannel.Send { ch := { buf := [7], cap := 2, closed := true }, closed := true } 9
      = .returned (some "canal fechado")
          { ch := { buf := [7], cap := 2, closed := true }, closed := true } :=
  ⟨rfl, by decide,
    (SafeChannel.Send_fails_iff_closed 2
      { ch := { buf := [], cap := 2, closed := false }, closed := false }
      { ch := { buf := [7], cap := 2, closed := true }, closed := true }
      [SafeOp.send 7, SafeOp.close] 9 rfl (by decide)).1 (by decide)⟩

/-- C2: on a SafeChannel built by `NewSafeChannel` and used through any history of
completed operations, `Close` does not panic, a second `Close` does not panic and
leaves exactly the state of the first one, in which the flag is set, the wrapped
channel is closed and its buffer and capacity are untouched; and `Close` on a channel
whose flag is already set changes nothing. -/
theorem SafeChannel.Close_idempotent (buffer : Int) (sc0 sc : SafeChannel)
    (ops : List SafeOp)
    (hnew : NewSafeChannel buffer = .ok sc0) (hrun : sc0.run ops = some sc) :
    ∃ sc1, sc.Close = .ok sc1 ∧ sc1.Close = .ok sc1 ∧
      sc1.closed = true ∧ sc1.ch.closed = true ∧
      sc1.ch.buf = sc.ch.buf ∧ sc1.ch.cap = sc.ch.cap ∧
      (sc.closed = true → sc1 = sc) := by
  obtain ⟨hc0, _, _⟩ := NewSafeChannel_consistent buffer sc0 hnew
  obtain ⟨hc, _⟩ := SafeChannel.run_closed ops sc0 sc hc0 hrun
  unfold SafeChannel.Consistent at hc
  cases h1 : sc.closed with
  | true =>
    refine ⟨sc, ?_, ?_, h1, ?_, rfl, rfl, fun _ => rfl⟩
    · simp [SafeChannel.Close, h1]
    · simp [SafeChannel.Close, h1]
    · rw [hc, h1]
  | false =>
    refine ⟨{ ch := { sc.ch with closed := true }, closed := true }, ?_, ?_, rfl, rfl, rfl, rfl, ?_⟩
    · simp [SafeChannel.Close, Chan.close, h1, hc]
    · simp [SafeChannel.Close]
    · intro h; exact absurd h (by simp)

/-- Witness of C2: closing twice a channel that holds one value. -/
theorem SafeChannel.Close_idempotent_witness :
    ∃ sc1, SafeChannel.Close { ch := { buf := [7], cap := 2, closed := false }, closed := false }
        = .ok sc1 ∧ sc1.Close = .ok sc1 ∧
      sc1.closed = true ∧ sc1.ch.closed = true ∧
      sc1.ch.buf = [7] ∧ sc1.ch.cap = 2 ∧
      ((false : Bool) = true →
        sc1 = { ch := { buf := [7], cap := 2, closed := false }, closed := false }) :=
  SafeChannel.Close_idempotent 2
    { ch := { buf := [], cap := 2, closed := false }, closed := false }
    { ch := { buf := [7], cap := 2, closed := false }, closed := false }
    [SafeOp.send 7] rfl (by decide)

/-! ### WorkerPool -/

theorem PoolSys.step_after_stop (s s1 : PoolSys) (a : PoolAction)
    (hs : s.pool.stopping = true) (h : s.step a = some s1) :
    s1.pool.stopping = true ∧ s1.accepted = s.accepted ∧
    ∃ ran, s.pool.tasks.buf = ran ++ s1.pool.tasks.buf ∧
      s1.pool.executed = s.pool.executed ++ ran := by
  cases a with
  | submit task c =>
    simp only [PoolSys.step, WorkerPool.Submit, hs, if_true] at h
    injection h with h
    subst h
    exact ⟨hs, rfl, [], by simp, by simp⟩
  | worker c =>
    simp only [PoolSys.step, WorkerPool.workerStep] at h
    by_cases hwg : s.pool.wg = 0
    · simp [hwg] at h
    · simp only [hwg, if_false] at h
      cases c with
      | queue =>
        simp only [Chan.recv] at h
        cases hb : s.pool.tasks.buf with
        | nil =>
          simp only [hb] at h
          by_cases hcl : s.pool.tasks.closed = true
          · simp only [hcl, if_true] at h
            injection h with h
            subst h
            exact ⟨hs, rfl, [], by simp [hb], by simp⟩
          · simp [hcl] at h
        | cons t rest =>
          simp only [hb] at h
          by_cases hp : t.panics = true
          · simp [hp] at h
          · simp only [hp] at h
            injection h with h
            subst h
            exact ⟨hs, rfl, [t], by simp, by simp⟩
      | ctxDone =>
        by_cases hd : s.pool.ctx.isDone = true
        · simp only [hd, if_true] at h
          injection h with h
          subst h
          exact ⟨hs, rfl, [], by simp, by simp⟩
        · simp [hd] at h
  | stopBegin =>
    simp only [PoolSys.step, WorkerPool.stopBegin, Chan.close] at h
    by_cases hcl : s.pool.tasks.closed = true
    · simp [hcl] at h
    · simp only [hcl] at h
      injection h with h
      subst h
      exact ⟨rfl, rfl, [], by simp, by simp⟩
  | stopReturn =>
    simp only [PoolSys.step, WorkerPool.stopWait] at h
    by_cases hr : s.stopReturns < s.stopCalls
    · by_cases hwg : s.pool.wg = 0
      · simp only [hr, hwg, if_true] at h
        injection h with h
        subst h
        exact ⟨hs, rfl, [], by simp, by simp⟩
      · simp [hr, hwg] at h
    · simp [hr] at h

theorem PoolSys.run_after_stop (acts : List PoolAction) (s s1 : PoolSys)
    (hs : s.pool.stopping = true) (h : s.run acts = some s1) :
    s1.pool.stopping = true ∧ s1.accepted = s.accepted ∧
    ∃ ran, s.pool.tasks.buf = ran ++ s1.pool.tasks.buf ∧
      s1.pool.executed = s.pool.executed ++ ran := by
  induction acts generalizing s with
  | nil =>
    simp only [PoolSys.run, Option.some.injEq] at h
    subst h
    exact ⟨hs, rfl, [], by simp, by simp⟩
  | cons a acts ih =>
    simp only [PoolSys.run] at h
    cases hst : s.step a with
    | none => simp [hst] at h
    | some s2 =>
      simp only [hst] at h
      obtain ⟨h2, hacc2, ran2, hq2, he2⟩ := PoolSys.step_after_stop s s2 a hs hst
      obtain ⟨h1, hacc1, ran1, hq1, he1⟩ := ih s2 h2 h
      refine ⟨h1, hacc1.trans hacc2, ran2 ++ ran1, ?_, ?_⟩
      · rw [hq2, hq1, List.append_assoc]
      · rw [he1, he2, List.append_assoc]

theorem WorkerPool.stopBegin_stopping (p p1 : WorkerPool) (h : p.stopBegin = .ok p1) :
    p1.stopping = true ∧ p1.tasks.closed = true ∧ p1.ctx.isDone = true := by
  simp only [WorkerPool.stopBegin, Chan.close] at h
  by_cases hcl : p.tasks.closed = true
  · simp [hcl] at h
  · simp only [hcl] at h
    injection h with h
    subst h
    refine ⟨rfl, rfl, ?_⟩
    cases he : p.ctx.err <;> simp [Ctx.cancel, Ctx.isDone, he]

/-- C3: once `Stop` has run its first statements, in every later state reached by
any schedule, `Submit` of any task returns the error "pool está parando" whatever the
`select` would do, the state (hence the queue) is left as it is, the stopping flag is
still set, and the tasks executed since then all come from the queue as it was when
`Stop` was invoked, which has only lost the tasks executed. -/
theorem WorkerPool.Submit_rejected_after_Stop (s0 s1 s : PoolSys) (acts : List PoolAction)
    (task : Task) (c : SelectCase)
    (hstop : s0.step .stopBegin = some s1) (hrun : s1.run acts = some s) :
    s.pool.stopping = true ∧
    s.pool.Submit task c = .returned (some "pool está parando") s.pool ∧
    s.step (.submit task c) = some s ∧
    s.accepted = s1.accepted ∧
    ∃ ran, s1.pool.tasks.buf = ran ++ s.pool.tasks.buf ∧
      s.pool.executed = s1.pool.executed ++ ran := by
  have h1 : s1.pool.stopping = true := by
    simp only [PoolSys.step] at hstop
    cases hb : s0.pool.stopBegin with
    | error f => simp [hb] at hstop
    | ok p1 =>
      simp only [hb, Option.some.injEq] at hstop
      subst hstop
      exact (WorkerPool.stopBegin_stopping s0.pool p1 hb).1
  obtain ⟨h2, hacc, hran⟩ := PoolSys.run_after_stop acts s1 s h1 hrun
  refine ⟨h2, ?_, ?_, hacc, hran⟩
  · simp [WorkerPool.Submit, h2]
  · simp [PoolSys.step, WorkerPool.Submit, h2]

/-- Witness of C3: a pool of one worker holding task 1 is stopped, the worker takes
the task, and task 2 is submitted. -/
theorem WorkerPool.Submit_rejected_after_Stop_witness :
    PoolSys.step
        { pool := { demoPool with tasks := { buf := [⟨1, false⟩], cap := 2, closed := false } },
          accepted := [⟨1, false⟩], stopCalls := 0, stopReturns := 0 }
        .stopBegin
      = some { pool := demoStopping [⟨1, false⟩] 1, accepted := [⟨1, false⟩],
               stopCalls := 1, stopReturns := 0 } ∧
    PoolSys.run
        { pool := demoStopping [⟨1, false⟩] 1, accepted := [⟨1, false⟩],
          stopCalls := 1, stopReturns := 0 }
        [.worker .queue]
      = some { pool := { demoStopping [] 1 with executed := [⟨1, false⟩] },
               accepted := [⟨1, false⟩], stopCalls := 1, stopReturns := 0 } ∧
    WorkerPool.Submit { demoStopping [] 1 with executed := [⟨1, false⟩] } ⟨2, false⟩ .queue
      = .returned (some "pool está parando")
          { demoStopping [] 1 with executed := [⟨1, false⟩] } :=
  ⟨rfl, rfl,
    (WorkerPool.Submit_rejected_after_Stop
      { pool := { demoPool with tasks := { buf := [⟨1, false⟩], cap := 2, closed := false } },
        accepted := [⟨1, false⟩], stopCalls := 0, stopReturns := 0 }
      { pool := demoStopping [⟨1, false⟩] 1, accepted := [⟨1, false⟩],
        stopCalls := 1, stopReturns := 0 }
      { pool := { demoStopping [] 1 with executed := [⟨1, false⟩] },
        accepted := [⟨1, false⟩], stopCalls := 1, stopReturns := 0 }
      [.worker .queue] ⟨2, false⟩ .queue rfl rfl).2.1⟩

theorem WorkerPool.workerStep_closed (q q2 : WorkerPool) (c : SelectCase)
    (hs : q.workerStep c = .done q2) : q2.tasks.closed = q.tasks.closed := by
  simp only [WorkerPool.workerStep] at hs
  by_cases hwg : q.wg = 0
  · simp [hwg] at hs
  · simp only [hwg, if_false] at hs
    cases c with
    | queue =>
      simp only [Chan.recv] at hs
      cases hb : q.tasks.buf with
      | nil =>
        simp only [hb] at hs
        by_cases hcl : q.tasks.closed = true
        · simp only [hcl, if_true, Op.done.injEq] at hs
          rw [← hs]
        · simp [hcl] at hs
      | cons t rest =>
        simp only [hb] at hs
        cases hp : t.panics with
        | true => simp [hp] at hs
        | false =>
          simp [hp] at hs
          rw [← hs]
    | ctxDone =>
      by_cases hd : q.ctx.isDone = true
      · simp only [hd, if_true, Op.done.injEq] at hs
        rw [← hs]
      · simp [hd] at hs

theorem WorkerPool.workersRun_closed (cs : List SelectCase) (q q1 : WorkerPool)
    (hq : q.workersRun cs = .done q1) : q1.tasks.closed = q.tasks.closed := by
  induction cs generalizing q with
  | nil =>
    simp only [WorkerPool.workersRun, Op.done.injEq] at hq
    rw [hq]
  | cons c cs ih =>
    simp only [WorkerPool.workersRun] at hq
    cases hs : q.workerStep c with
    | blocked => simp [hs] at hq
    | fault f => simp [hs] at hq
    | done q2 =>
      simp only [hs] at hq
      rw [ih q2 hq, WorkerPool.workerStep_closed q q2 c hs]

theorem WorkerPool.Stop_closes_queue (p p1 : WorkerPool) (sched : List SelectCase)
    (h : p.Stop sched = .done p1) : p1.tasks.closed = true := by
  simp only [WorkerPool.Stop] at h
  cases hb : p.stopBegin with
  | error f => simp [hb] at h
  | ok p2 =>
    simp only [hb] at h
    cases hw : p2.workersRun sched with
    | blocked => simp [hw] at h
    | fault f => simp [hw] at h
    | done p3 =>
      simp only [hw, WorkerPool.stopWait] at h
      split at h
      · simp only [Op.done.injEq] at h
        rw [← h, WorkerPool.workersRun_closed sched p2 p3 hw]
        exact (WorkerPool.stopBegin_stopping p p2 hb).2.1
      · simp at h

theorem WorkerPool.Stop_after_Stop (p p1 : WorkerPool) (sched sched1 : List SelectCase)
    (h : p.Stop sched = .done p1) : p1.Stop sched1 = .fault .closeOfClosed := by
  have hc := WorkerPool.Stop_closes_queue p p1 sched h
  simp [WorkerPool.Stop, WorkerPool.stopBegin, Chan.close, hc]

/-- C4: on the pool of `NewWorkerPool(1)`, a first `Stop` returns once the worker has
left its loop; a second `Stop` then reaches `close(p.tasks)` on the closed queue and
panics with "close of closed channel". -/
theorem WorkerPool.Stop_twice_panics :
    NewWorkerPool 1 = .ok demoPool ∧
    WorkerPool.Stop demoPool [.ctxDone] = .done (demoStopping [] 0) ∧
    WorkerPool.Stop (demoStopping [] 0) [] = .fault .closeOfClosed ∧
    (PoolSys.init demoPool).run [.stopBegin, .worker .ctxDone, .stopReturn]
      = some { pool := demoStopping [] 0, accepted := [], stopCalls := 1, stopReturns := 1 } ∧
    WorkerPool.stopBegin (demoStopping [] 0) = .error .closeOfClosed ∧
    PoolSys.step
        { pool := demoStopping [] 0, accepted := [], stopCalls := 1, stopReturns := 1 }
        .stopBegin = none :=
  ⟨rfl, rfl, rfl, rfl, rfl, rfl⟩

/-- C5: on the pool of `NewWorkerPool(1)` with a panicking task 1 and a task 2
queued behind it, the iteration of the worker that takes task 1 ends in the panic of
the task: nothing recovers it, the worker has no next iteration and task 2 stays in
the queue. -/
theorem WorkerPool.task_panic_not_recovered :
    (PoolSys.init demoPool).run [.submit ⟨1, true⟩ .queue, .submit ⟨2, false⟩ .queue]
      = some { pool := { demoPool with
                          tasks := { buf := [⟨1, true⟩, ⟨2, false⟩], cap := 2, closed := false } },
               accepted := [⟨1, true⟩, ⟨2, false⟩], stopCalls := 0, stopReturns := 0 } ∧
    WorkerPool.workerStep
        { demoPool with tasks := { buf := [⟨1, true⟩, ⟨2, false⟩], cap := 2, closed := false } }
        .queue = .fault .taskPanic ∧
    PoolSys.step
        { pool := { demoPool with
                      tasks := { buf := [⟨1, true⟩, ⟨2, false⟩], cap := 2, closed := false } },
          accepted := [⟨1, true⟩, ⟨2, false⟩], stopCalls := 0, stopReturns := 0 }
        (.worker .queue) = none :=
  ⟨rfl, rfl, rfl⟩

theorem NewWorkerPool_inv (w : Int) (p : WorkerPool) (h : NewWorkerPool w = .ok p) :
    PoolSys.Inv w.toNat (PoolSys.init p) := by
  unfold NewWorkerPool Chan.make at h
  by_cases hw : wrapInt64 (w * 2) < 0 ∨ maxAlloc - hchanSize < 8 * wrapInt64 (w * 2)
  · simp [hw] at h
  · simp only [hw, if_false] at h
    injection h with h
    subst h
    simp [PoolSys.Inv, PoolSys.init, WorkerPool.Start, Ctx.background, Ctx.isDone]

theorem PoolSys.step_inv (w : Nat) (s s1 : PoolSys) (a : PoolAction)
    (hinv : s.Inv w) (h : s.step a = some s1) : s1.Inv w := by
  obtain ⟨hacc, hret, hlive⟩ := hinv
  cases a with
  | submit task c =>
    simp only [PoolSys.step, WorkerPool.Submit] at h
    by_cases hs : s.pool.stopping = true
    · simp only [hs, if_true] at h
      injection h with h
      subst h
      exact ⟨hacc, hret, hlive⟩
    · simp only [hs, if_false] at h
      cases c with
      | queue =>
        simp only [Chan.send] at h
        by_cases hcl : s.pool.tasks.closed = true
        · simp [hcl] at h
        · by_cases hroom : s.pool.tasks.hasRoom = true
          · simp only [hcl, hroom, if_true] at h
            injection h with h
            subst h
            have hl := hlive (by simpa using hs)
            exact ⟨by simp [hacc], hret, fun _ => ⟨hl.1, hl.2.1, rfl⟩⟩
          · simp [hcl, hroom] at h
      | ctxDone =>
        by_cases hd : s.pool.ctx.isDone = true
        · have hne : s.pool.ctx.err ≠ none := by
            intro he
            simp [Ctx.isDone, he] at hd
          cases he : s.pool.ctx.err with
          | none => exact absurd he hne
          | some e =>
            simp [hd, he] at h
            subst h
            exact ⟨hacc, hret, hlive⟩
        · simp [hd] at h
  | worker c =>
    simp only [PoolSys.step, WorkerPool.workerStep] at h
    by_cases hwg : s.pool.wg = 0
    · simp [hwg] at h
    · have hnr : ¬ 0 < s.stopReturns := fun h0 => hwg (hret h0)
      simp only [hwg, if_false] at h
      cases c with
      | queue =>
        simp only [Chan.recv] at h
        cases hb : s.pool.tasks.buf with
        | nil =>
          simp only [hb] at h
          by_cases hcl : s.pool.tasks.closed = true
          · simp only [hcl, if_true] at h
            injection h with h
            subst h
            refine ⟨hacc, fun h0 => absurd h0 hnr, ?_⟩
            intro hst
            have := (hlive hst).2.2
            simp [hcl] at this
          · simp [hcl] at h
        | cons t rest =>
          simp only [hb] at h
          by_cases hp : t.panics = true
          · simp [hp] at h
          · simp only [hp] at h
            injection h with h
            subst h
            refine ⟨?_, fun h0 => absurd h0 hnr, hlive⟩
            simp [hacc, hb]
      | ctxDone =>
        by_cases hd : s.pool.ctx.isDone = true
        · simp only [hd, if_true] at h
          injection h with h
          subst h
          refine ⟨hacc, fun h0 => absurd h0 hnr, ?_⟩
          intro hst
          have := (hlive hst).2.1
          simp [hd] at this
        · simp [hd] at h
  | stopBegin =>
    simp only [PoolSys.step, WorkerPool.stopBegin, Chan.close] at h
    by_cases hcl : s.pool.tasks.closed = true
    · simp [hcl] at h
    · simp only [hcl] at h
      injection h with h
      subst h
      refine ⟨hacc, hret, ?_⟩
      intro hst
      simp at hst
  | stopReturn =>
    simp only [PoolSys.step, WorkerPool.stopWait] at h
    by_cases hr : s.stopReturns < s.stopCalls
    · by_cases hwg : s.pool.wg = 0
      · simp only [hr, hwg, if_true] at h
        injection h with h
        subst h
        exact ⟨hacc, fun _ => hwg, hlive⟩
      · simp [hr, hwg] at h
    · simp [hr] at h

theorem PoolSys.run_inv (w : Nat) (acts : List PoolAction) (s s1 : PoolSys)
    (hinv : s.Inv w) (h : s.run acts = some s1) : s1.Inv w := by
  induction acts generalizing s with
  | nil =>
    simp only [PoolSys.run, Option.some.injEq] at h
    subst h
    exact hinv
  | cons a acts ih =>
    simp only [PoolSys.run] at h
    cases hst : s.step a with
    | none => simp [hst] at h
    | some s2 =>
      simp only [hst] at h
      exact ih s2 (PoolSys.step_inv w s s2 a hinv hst) h

theorem PoolSys.drain (q : List Task) (s : PoolSys) (hq : s.pool.tasks.buf = q)
    (hwg : s.pool.wg ≠ 0) (hp : ∀ t ∈ q, t.panics = false) :
    s.run (List.replicate q.length (.worker .queue))
      = some { s with pool := { s.pool with tasks := { s.pool.tasks with buf := [] },
                                             executed := s.pool.executed ++ q } } := by
  induction q generalizing s with
  | nil =>
    simp only [List.length_nil, List.replicate_zero, PoolSys.run, List.append_nil]
    rw [← hq]
  | cons t rest ih =>
    have hpt : t.panics = false := hp t (List.mem_cons_self t rest)
    have hstep : s.step (.worker .queue)
        = some { s with pool := { s.pool with tasks := { s.pool.tasks with buf := rest },
                                               executed := s.pool.executed ++ [t] } } := by
      simp [PoolSys.step, WorkerPool.workerStep, Chan.recv, hwg, hq, hpt]
    have h2 := ih
      { s with pool := { s.pool with tasks := { s.pool.tasks with buf := rest },
                                     executed := s.pool.executed ++ [t] } }
      rfl hwg (fun u hu => hp u (List.mem_cons_of_mem t hu))
    simp only [List.length_cons, List.replicate_succ, PoolSys.run, hstep]
    simpa using h2

/-- C6, counterexample: on the pool of `NewWorkerPool(1)`, `Submit` of task 1 returns
`nil`; `Stop` then cancels the token and closes the queue, the worker takes the
`ctx.Done()` case and leaves, and `Stop` returns: the pool is stopped while the
accepted task 1 is still in the queue and has not been executed. -/
theorem WorkerPool.Stop_strands_accepted_task :
    NewWorkerPool 1 = .ok demoPool ∧
    WorkerPool.Submit demoPool ⟨1, false⟩ .queue
      = .returned none
          { demoPool with tasks := { buf := [⟨1, false⟩], cap := 2, closed := false } } ∧
    (PoolSys.init demoPool).run
        [.submit ⟨1, false⟩ .queue, .stopBegin, .worker .ctxDone, .stopReturn]
      = some { pool := demoStopping [⟨1, false⟩] 0, accepted := [⟨1, false⟩],
               stopCalls := 1, stopReturns := 1 } ∧
    PoolSys.stopped
        { pool := demoStopping [⟨1, false⟩] 0, accepted := [⟨1, false⟩],
          stopCalls := 1, stopReturns := 1 } = true ∧
    (demoStopping [⟨1, false⟩] 0).tasks.buf = [⟨1, false⟩] ∧
    (demoStopping [⟨1, false⟩] 0).executed = [] :=
  ⟨rfl, rfl, rfl, rfl, rfl, rfl⟩

/-- C6, amended: for a pool of `w > 0` workers built by `NewWorkerPool` and any
schedule, every `Submit` that returns either returns `nil` with the task appended at
the tail of the queue or returns an error and changes nothing; the accepted tasks are
at every moment the executed tasks followed by the queued ones, in the order of
acceptance; once a `Stop` has returned no worker is left in its loop; and while `Stop`
has not been invoked, if no queued task panics the workers can drain the queue, after
which every accepted task has been executed. -/
theorem WorkerPool.accepted_tasks_accounted (w : Int) (p : WorkerPool)
    (acts : List PoolAction) (s : PoolSys)
    (hw : 0 < w) (hnew : NewWorkerPool w = .ok p)
    (hrun : (PoolSys.init p).run acts = some s) :
    (∀ task c err p1, s.pool.Submit task c = .returned err p1 →
      (err = none ∧ p1 = { s.pool with
          tasks := { s.pool.tasks with buf := s.pool.tasks.buf ++ [task] } }) ∨
      (err ≠ none ∧ p1 = s.pool)) ∧
    s.accepted = s.pool.executed ++ s.pool.tasks.buf ∧
    (s.stopped = true → s.pool.wg = 0) ∧
    (s.pool.stopping = false → (∀ t ∈ s.pool.tasks.buf, t.panics = false) →
      ∃ s1, s.run (List.replicate s.pool.tasks.buf.length (.worker .queue)) = some s1 ∧
        s1.pool.executed = s.accepted ∧ s1.pool.tasks.buf = [] ∧
        s1.accepted = s.accepted) := by
  have hinv := PoolSys.run_inv w.toNat acts _ s (NewWorkerPool_inv w p hnew) hrun
  obtain ⟨hacc, hret, hlive⟩ := hinv
  refine ⟨?_, hacc, ?_, ?_⟩
  · intro task c err p1 hsub
    cases hs : s.pool.stopping with
    | true =>
      simp only [WorkerPool.Submit, hs, if_true, Call.returned.injEq] at hsub
      exact Or.inr ⟨by rw [← hsub.1]; simp, hsub.2.symm⟩
    | false =>
      cases c with
      | queue =>
        cases hcl : s.pool.tasks.closed with
        | true => simp [WorkerPool.Submit, Chan.send, hs, hcl] at hsub
        | false =>
          cases hroom : s.pool.tasks.hasRoom with
          | true =>
            simp [WorkerPool.Submit, Chan.send, hs, hcl, hroom] at hsub
            refine Or.inl ⟨hsub.1.symm, ?_⟩
            rw [← hsub.2]
            simp [hs, hcl]
          | false => simp [WorkerPool.Submit, Chan.send, hs, hcl, hroom] at hsub
      | ctxDone =>
        cases hd : s.pool.ctx.isDone with
        | true =>
          simp [WorkerPool.Submit, hs, hd] at hsub
          refine Or.inr ⟨?_, hsub.2.symm⟩
          rw [← hsub.1]
          intro he
          simp [Ctx.isDone, he] at hd
        | false => simp [WorkerPool.Submit, hs, hd] at hsub
  · intro hst
    apply hret
    simpa [PoolSys.stopped] using hst
  · intro hst hp
    have hwg : s.pool.wg ≠ 0 := by
      rw [(hlive hst).1]
      omega
    refine ⟨_, PoolSys.drain s.pool.tasks.buf s rfl hwg hp, ?_, rfl, rfl⟩
    exact hacc.symm

/-- Witness of C6 as amended: the pool of `NewWorkerPool(1)` after one accepted task. -/
theorem WorkerPool.accepted_tasks_accounted_witness :
    (0 : Int) < 1 ∧ NewWorkerPool 1 = .ok demoPool ∧
    (PoolSys.init demoPool).run [.submit ⟨1, false⟩ .queue]
      = some { pool := { demoPool with
                          tasks := { buf := [⟨1, false⟩], cap := 2, closed := false } },
               accepted := [⟨1, false⟩], stopCalls := 0, stopReturns := 0 } ∧
    [(⟨1, false⟩ : Task)] = [] ++ [⟨1, false⟩] :=
  ⟨by decide, rfl, rfl,
    (WorkerPool.accepted_tasks_accounted 1 demoPool [.submit ⟨1, false⟩ .queue]
      { pool := { demoPool with
                    tasks := { buf := [⟨1, false⟩], cap := 2, closed := false } },
        accepted := [⟨1, false⟩], stopCalls := 0, stopReturns := 0 }
      (by decide) rfl rfl).2.1⟩

/-! ### Pipeline -/

theorem PipeSys.step_process (s s1 : PipeSys) :
    s.step .process = some s1 ↔
      s.stage = .notStarted ∧ s1 = { s with stage := .selecting } := by
  rcases s with ⟨p, ctx, stage, sent, received, sawClose, closing⟩
  cases stage <;> simp [PipeSys.step, eq_comm]

theorem PipeSys.step_send (s s1 : PipeSys) (v : Int) :
    s.step (.send v) = some s1 ↔
      s.p.input.closed = false ∧ s.p.input.buf.length < s.p.input.cap ∧
      s1 = { s with p := { s.p with input := { s.p.input with buf := s.p.input.buf ++ [v] } },
                    sent := s.sent ++ [v] } := by
  rcases s with ⟨⟨⟨ib, ic, icl⟩, o, d⟩, ctx, stage, sent, received, sawClose, closing⟩
  by_cases hr : ib.length < ic <;> cases icl <;>
    simp [PipeSys.step, Pipeline.Send, Chan.send, Chan.hasRoom, hr, eq_comm]

theorem PipeSys.step_handoff (s s1 : PipeSys) (v : Int) :
    s.step (.handoff v) = some s1 ↔
      s.stage = .selecting ∧ s.p.input.buf = [] ∧ s.p.input.closed = false ∧
      s1 = { s with stage := .sending v, sent := s.sent ++ [v] } := by
  rcases s with ⟨⟨⟨ib, ic, icl⟩, o, d⟩, ctx, stage, sent, received, sawClose, closing⟩
  cases stage <;> cases ib <;> cases icl <;> simp [PipeSys.step, eq_comm]

theorem PipeSys.step_closeInput (s s1 : PipeSys) :
    s.step .closeInput = some s1 ↔
      s.p.input.closed = false ∧
      s1 = { s with p := { s.p with input := { s.p.input with closed := true } } } := by
  rcases s with ⟨⟨⟨ib, ic, icl⟩, o, d⟩, ctx, stage, sent, received, sawClose, closing⟩
  cases icl <;> simp [PipeSys.step, Chan.close, eq_comm]

theorem PipeSys.step_closeCall (s s1 : PipeSys) :
    s.step .closeCall = some s1 ↔
      s.p.input.closed = false ∧
      s1 = { s with p := { s.p with input := { s.p.input with closed := true } },
                    closing := .waiting } := by
  rcases s with ⟨⟨⟨ib, ic, icl⟩, o, d⟩, ctx, stage, sent, received, sawClose, closing⟩
  cases icl <;> simp [PipeSys.step, Chan.close, eq_comm]

theorem PipeSys.step_closeReturn (s s1 : PipeSys) (h : s.step .closeReturn = some s1) :
    s.closing = .waiting ∧ (s.p.done.buf ≠ [] ∨ s.p.done.closed = true) := by
  rcases s with ⟨⟨i, o, ⟨db, dc, dcl⟩⟩, ctx, stage, sent, received, sawClose, closing⟩
  cases closing <;> cases db <;> cases dcl <;> simp [PipeSys.step, Chan.recv] at h ⊢

theorem PipeSys.step_stageRecv (s s1 : PipeSys) :
    s.step .stageRecv = some s1 ↔
      ∃ v rest, s.stage = .selecting ∧ s.p.input.buf = v :: rest ∧
        s1 = { s with p := { s.p with input := { s.p.input with buf := rest } },
                      stage := .sending v } := by
  rcases s with ⟨⟨⟨ib, ic, icl⟩, o, d⟩, ctx, stage, sent, received, sawClose, closing⟩
  cases stage <;> cases ib <;> cases icl <;> simp [PipeSys.step, Chan.recv, eq_comm] <;>
    exact ⟨fun h => ⟨_, _, ⟨rfl, rfl⟩, h⟩, fun ⟨_, _, ⟨h1, h2⟩, h⟩ => by subst h1 h2; exact h⟩

theorem PipeSys.step_stageEof (s s1 : PipeSys) :
    s.step .stageEof = some s1 ↔
      s.stage = .selecting ∧ s.p.input.buf = [] ∧ s.p.input.closed = true ∧
      s.p.output.closed = false ∧
      s1 = { s with p := { s.p with output := { s.p.output with closed := true } },
                    stage := .exited } := by
  rcases s with ⟨⟨⟨ib, ic, icl⟩, ⟨ob, oc, ocl⟩, d⟩, ctx, stage, sent, received, sawClose,
    closing⟩
  cases stage <;> cases ib <;> cases icl <;> cases ocl <;>
    simp [PipeSys.step, PipeSys.stageExit, Chan.recv, Chan.close, eq_comm]

theorem PipeSys.step_stageCancel (s s1 : PipeSys) :
    s.step .stageCancel = some s1 ↔
      (s.stage = .selecting ∨ ∃ v, s.stage = .sending v) ∧ s.ctx.isDone = true ∧
      s.p.output.closed = false ∧
      s1 = { s with p := { s.p with output := { s.p.output with closed := true } },
                    stage := .exited } := by
  rcases s with ⟨⟨i, ⟨ob, oc, ocl⟩, d⟩, ctx, stage, sent, received, sawClose, closing⟩
  cases stage <;> cases hd : ctx.isDone <;> cases ocl <;>
    simp [PipeSys.step, PipeSys.stageExit, Chan.close, hd, eq_comm]

theorem PipeSys.step_stageSend (s s1 : PipeSys) :
    s.step .stageSend = some s1 ↔
      ∃ v, s.stage = .sending v ∧ s.p.output.closed = false ∧
        s.p.output.buf.length < s.p.output.cap ∧
        s1 = { s with p := { s.p with output :=
                                { s.p.output with buf := s.p.output.buf ++ [transform v] } },
                      stage := .selecting } := by
  rcases s with ⟨⟨i, ⟨ob, oc, ocl⟩, d⟩, ctx, stage, sent, received, sawClose, closing⟩
  by_cases hr : ob.length < oc <;> cases stage <;> cases ocl <;>
    simp [PipeSys.step, Chan.send, Chan.hasRoom, hr, eq_comm]

theorem PipeSys.step_stageHandoff (s s1 : PipeSys) :
    s.step .stageHandoff = some s1 ↔
      ∃ v, s.stage = .sending v ∧ s.p.output.buf = [] ∧ s.p.output.closed = false ∧
        s.sawClose = false ∧
        s1 = { s with received := s.received ++ [transform v], stage := .selecting } := by
  rcases s with ⟨⟨i, ⟨ob, oc, ocl⟩, d⟩, ctx, stage, sent, received, sawClose, closing⟩
  cases stage <;> cases ob <;> cases ocl <;> cases sawClose <;>
    simp [PipeSys.step, eq_comm]

theorem PipeSys.step_consume (s s1 : PipeSys) :
    s.step .consume = some s1 ↔
      ∃ w rest, s.sawClose = false ∧ s.p.output.buf = w :: rest ∧
        s1 = { s with p := { s.p with output := { s.p.output with buf := rest } },
                      received := s.received ++ [w] } := by
  rcases s with ⟨⟨i, ⟨ob, oc, ocl⟩, d⟩, ctx, stage, sent, received, sawClose, closing⟩
  cases ob <;> cases ocl <;> cases sawClose <;>
    simp [PipeSys.step, Chan.recv, eq_comm] <;>
    exact ⟨fun h => ⟨_, _, ⟨rfl, rfl⟩, h⟩, fun ⟨_, _, ⟨h1, h2⟩, h⟩ => by subst h1 h2; exact h⟩

theorem PipeSys.step_consumeEof (s s1 : PipeSys) :
    s.step .consumeEof = some s1 ↔
      s.sawClose = false ∧ s.p.output.buf = [] ∧ s.p.output.closed = true ∧
      s1 = { s with sawClose := true } := by
  rcases s with ⟨⟨i, ⟨ob, oc, ocl⟩, d⟩, ctx, stage, sent, received, sawClose, closing⟩
  cases ob <;> cases ocl <;> cases sawClose <;>
    simp [PipeSys.step, Chan.recv, eq_comm]

theorem Ctx.cancel_isDone (c : Ctx) : c.cancel.isDone = true := by
  cases he : c.err <;> simp [Ctx.cancel, Ctx.isDone, he]

theorem PipeSys.step_cancel (s s1 : PipeSys) :
    s.step .cancel = some s1 ↔ s1 = { s with ctx := s.ctx.cancel } := by
  simp [PipeSys.step, eq_comm]

theorem PipeSys.step_wf (s s1 : PipeSys) (a : PipeAction)
    (hwf : s.Wf) (h : s.step a = some s1) : s1.Wf := by
  rcases s with ⟨⟨⟨ib, ic, icl⟩, ⟨ob, oc, ocl⟩, ⟨db, dc, dcl⟩⟩, ctx, stage, sent, received,
    sawClose, closing⟩
  unfold PipeSys.Wf at hwf ⊢
  cases ocl <;> cases sawClose <;> simp only at hwf <;> cases a with
  | process =>
    obtain ⟨hst, rfl⟩ := (PipeSys.step_process _ s1).mp h
    simp_all
  | send v =>
    obtain ⟨h1, h2, rfl⟩ := (PipeSys.step_send _ s1 v).mp h
    simp_all
  | handoff v =>
    obtain ⟨h1, h2, h3, rfl⟩ := (PipeSys.step_handoff _ s1 v).mp h
    simp_all
  | closeInput =>
    obtain ⟨h1, rfl⟩ := (PipeSys.step_closeInput _ s1).mp h
    simp_all
  | closeCall =>
    obtain ⟨h1, rfl⟩ := (PipeSys.step_closeCall _ s1).mp h
    simp_all
  | closeReturn =>
    obtain ⟨_, h1 | h1⟩ := PipeSys.step_closeReturn _ s1 h
    · exact absurd hwf.2.2.2.2.1 h1
    · rw [hwf.2.2.2.1] at h1
      exact absurd h1 (by simp)
  | cancel =>
    have h1 := (PipeSys.step_cancel _ s1).mp h
    subst h1
    simp_all [Ctx.cancel_isDone]
  | stageRecv =>
    obtain ⟨v, rest, h1, h2, rfl⟩ := (PipeSys.step_stageRecv _ s1).mp h
    simp_all
  | stageEof =>
    obtain ⟨h1, h2, h3, h4, rfl⟩ := (PipeSys.step_stageEof _ s1).mp h
    simp_all
  | stageCancel =>
    obtain ⟨h1, h2, h3, rfl⟩ := (PipeSys.step_stageCancel _ s1).mp h
    simp_all
  | stageSend =>
    obtain ⟨v, h1, h2, h3, rfl⟩ := (PipeSys.step_stageSend _ s1).mp h
    simp_all
  | stageHandoff =>
    obtain ⟨v, h1, h2, h3, h4, rfl⟩ := (PipeSys.step_stageHandoff _ s1).mp h
    simp_all
  | consume =>
    obtain ⟨w, rest, h1, h2, rfl⟩ := (PipeSys.step_consume _ s1).mp h
    simp_all
  | consumeEof =>
    obtain ⟨h1, h2, h3, rfl⟩ := (PipeSys.step_consumeEof _ s1).mp h
    simp_all

theorem PipeSys.step_conserved (s s1 : PipeSys) (a : PipeAction)
    (hwf : s.Wf) (hc : s.Conserved) (hlive : s1.ctx.isDone = false)
    (h : s.step a = some s1) : s1.Conserved ∧ s.ctx.isDone = false := by
  rcases s with ⟨⟨⟨ib, ic, icl⟩, ⟨ob, oc, ocl⟩, ⟨db, dc, dcl⟩⟩, ctx, stage, sent, received,
    sawClose, closing⟩
  unfold PipeSys.Conserved at hc ⊢
  simp only [PipeSys.pending] at hc ⊢
  cases a with
  | process =>
    obtain ⟨hst, rfl⟩ := (PipeSys.step_process _ s1).mp h
    simp_all
  | send v =>
    obtain ⟨h1, h2, rfl⟩ := (PipeSys.step_send _ s1 v).mp h
    simp_all
  | handoff v =>
    obtain ⟨h1, h2, h3, rfl⟩ := (PipeSys.step_handoff _ s1 v).mp h
    simp_all
  | closeInput =>
    obtain ⟨h1, rfl⟩ := (PipeSys.step_closeInput _ s1).mp h
    simp_all
  | closeCall =>
    obtain ⟨h1, rfl⟩ := (PipeSys.step_closeCall _ s1).mp h
    simp_all
  | closeReturn =>
    obtain ⟨_, h1 | h1⟩ := PipeSys.step_closeReturn _ s1 h
    · exact absurd hwf.2.2.2.2.1 h1
    · rw [hwf.2.2.2.1] at h1
      exact absurd h1 (by simp)
  | cancel =>
    have h1 := (PipeSys.step_cancel _ s1).mp h
    subst h1
    simp [Ctx.cancel_isDone] at hlive
  | stageRecv =>
    obtain ⟨v, rest, h1, h2, rfl⟩ := (PipeSys.step_stageRecv _ s1).mp h
    simp_all
  | stageEof =>
    obtain ⟨h1, h2, h3, h4, rfl⟩ := (PipeSys.step_stageEof _ s1).mp h
    simp_all
  | stageCancel =>
    obtain ⟨h1, h2, h3, rfl⟩ := (PipeSys.step_stageCancel _ s1).mp h
    simp_all
  | stageSend =>
    obtain ⟨v, h1, h2, h3, rfl⟩ := (PipeSys.step_stageSend _ s1).mp h
    simp_all
  | stageHandoff =>
    obtain ⟨v, h1, h2, h3, h4, rfl⟩ := (PipeSys.step_stageHandoff _ s1).mp h
    simp_all
  | consume =>
    obtain ⟨w, rest, h1, h2, rfl⟩ := (PipeSys.step_consume _ s1).mp h
    simp_all
  | consumeEof =>
    obtain ⟨h1, h2, h3, rfl⟩ := (PipeSys.step_consumeEof _ s1).mp h
    simp_all

theorem PipeSys.step_drain (s s1 : PipeSys) (a : PipeAction)
    (hwf : s.Wf) (hclosed : s.p.input.closed = true) (hst : s.stage ≠ .notStarted)
    (hlive : s1.ctx.isDone = false) (h : s.step a = some s1) :
    a ∈ PipeAction.draining ∧ s1.work < s.work ∧ s1.sent = s.sent ∧
      s1.p.input.closed = true ∧ s1.stage ≠ .notStarted := by
  rcases s with ⟨⟨⟨ib, ic, icl⟩, ⟨ob, oc, ocl⟩, ⟨db, dc, dcl⟩⟩, ctx, stage, sent, received,
    sawClose, closing⟩
  simp only at hclosed hst
  subst hclosed
  cases a with
  | process =>
    obtain ⟨h1, rfl⟩ := (PipeSys.step_process _ s1).mp h
    exact absurd h1 hst
  | send v =>
    obtain ⟨h1, h2, rfl⟩ := (PipeSys.step_send _ s1 v).mp h
    simp at h1
  | handoff v =>
    obtain ⟨h1, h2, h3, rfl⟩ := (PipeSys.step_handoff _ s1 v).mp h
    simp at h3
  | closeInput =>
    obtain ⟨h1, rfl⟩ := (PipeSys.step_closeInput _ s1).mp h
    simp at h1
  | closeCall =>
    obtain ⟨h1, rfl⟩ := (PipeSys.step_closeCall _ s1).mp h
    simp at h1
  | closeReturn =>
    obtain ⟨_, h1 | h1⟩ := PipeSys.step_closeReturn _ s1 h
    · exact absurd hwf.2.2.2.2.1 h1
    · rw [hwf.2.2.2.1] at h1
      exact absurd h1 (by simp)
  | cancel =>
    have h1 := (PipeSys.step_cancel _ s1).mp h
    subst h1
    simp [Ctx.cancel_isDone] at hlive
  | stageCancel =>
    obtain ⟨h1, h2, h3, rfl⟩ := (PipeSys.step_stageCancel _ s1).mp h
    simp_all
  | stageRecv =>
    obtain ⟨v, rest, h1, h2, rfl⟩ := (PipeSys.step_stageRecv _ s1).mp h
    simp only at h1 h2
    subst h1 h2
    simp [PipeAction.draining, PipeSys.work]
    omega
  | stageEof =>
    obtain ⟨h1, h2, h3, h4, rfl⟩ := (PipeSys.step_stageEof _ s1).mp h
    simp only at h1 h2
    subst h1 h2
    simp [PipeAction.draining, PipeSys.work]
  | stageSend =>
    obtain ⟨v, h1, h2, h3, rfl⟩ := (PipeSys.step_stageSend _ s1).mp h
    simp only at h1
    subst h1
    simp [PipeAction.draining, PipeSys.work]
    omega
  | stageHandoff =>
    obtain ⟨v, h1, h2, h3, h4, rfl⟩ := (PipeSys.step_stageHandoff _ s1).mp h
    simp only at h1 h2
    subst h1 h2
    simp [PipeAction.draining, PipeSys.work]
  | consume =>
    obtain ⟨w, rest, h1, h2, rfl⟩ := (PipeSys.step_consume _ s1).mp h
    simp only at h1 h2
    subst h1 h2
    simp [PipeAction.draining, PipeSys.work]
    exact hst
  | consumeEof =>
    obtain ⟨h1, h2, h3, rfl⟩ := (PipeSys.step_consumeEof _ s1).mp h
    simp only at h1 h2
    subst h1 h2
    simp [PipeAction.draining, PipeSys.work]
    exact hst

theorem PipeSys.step_live (s s1 : PipeSys) (a : PipeAction) (hwf : s.Wf)
    (hlive : s1.ctx.isDone = false) (h : s.step a = some s1) : s.ctx.isDone = false := by
  cases a with
  | process =>
    obtain ⟨_, rfl⟩ := (PipeSys.step_process _ s1).mp h
    exact hlive
  | send v =>
    obtain ⟨_, _, rfl⟩ := (PipeSys.step_send _ s1 v).mp h
    exact hlive
  | handoff v =>
    obtain ⟨_, _, _, rfl⟩ := (PipeSys.step_handoff _ s1 v).mp h
    exact hlive
  | closeInput =>
    obtain ⟨_, rfl⟩ := (PipeSys.step_closeInput _ s1).mp h
    exact hlive
  | closeCall =>
    obtain ⟨_, rfl⟩ := (PipeSys.step_closeCall _ s1).mp h
    exact hlive
  | closeReturn =>
    obtain ⟨_, h1 | h1⟩ := PipeSys.step_closeReturn _ s1 h
    · exact absurd hwf.2.2.2.2.1 h1
    · rw [hwf.2.2.2.1] at h1
      exact absurd h1 (by simp)
  | cancel =>
    have h1 := (PipeSys.step_cancel _ s1).mp h
    subst h1
    simp [Ctx.cancel_isDone] at hlive
  | stageRecv =>
    obtain ⟨_, _, _, _, rfl⟩ := (PipeSys.step_stageRecv _ s1).mp h
    exact hlive
  | stageEof =>
    obtain ⟨_, _, _, _, rfl⟩ := (PipeSys.step_stageEof _ s1).mp h
    exact hlive
  | stageCancel =>
    obtain ⟨_, _, _, rfl⟩ := (PipeSys.step_stageCancel _ s1).mp h
    exact hlive
  | stageSend =>
    obtain ⟨_, _, _, _, rfl⟩ := (PipeSys.step_stageSend _ s1).mp h
    exact hlive
  | stageHandoff =>
    obtain ⟨_, _, _, _, _, rfl⟩ := (PipeSys.step_stageHandoff _ s1).mp h
    exact hlive
  | consume =>
    obtain ⟨_, _, _, _, rfl⟩ := (PipeSys.step_consume _ s1).mp h
    exact hlive
  | consumeEof =>
    obtain ⟨_, _, _, rfl⟩ := (PipeSys.step_consumeEof _ s1).mp h
    exact hlive

theorem PipeSys.run_wf (acts : List PipeAction) (s s1 : PipeSys)
    (hwf : s.Wf) (h : s.run acts = some s1) : s1.Wf := by
  induction acts generalizing s with
  | nil =>
    simp only [PipeSys.run, Option.some.injEq] at h
    subst h
    exact hwf
  | cons a acts ih =>
    simp only [PipeSys.run] at h
    cases hst : s.step a with
    | none => simp [hst] at h
    | some s2 =>
      simp only [hst] at h
      exact ih s2 (PipeSys.step_wf s s2 a hwf hst) h

theorem PipeSys.run_live (acts : List PipeAction) (s s1 : PipeSys) (hwf : s.Wf)
    (hlive : s1.ctx.isDone = false) (h : s.run acts = some s1) : s.ctx.isDone = false := by
  induction acts generalizing s with
  | nil =>
    simp only [PipeSys.run, Option.some.injEq] at h
    subst h
    exact hlive
  | cons a acts ih =>
    simp only [PipeSys.run] at h
    cases hst : s.step a with
    | none => simp [hst] at h
    | some s2 =>
      simp only [hst] at h
      have hwf2 := PipeSys.step_wf s s2 a hwf hst
      exact PipeSys.step_live s s2 a hwf (ih s2 hwf2 h) hst

theorem PipeSys.run_conserved (acts : List PipeAction) (s s1 : PipeSys) (hwf : s.Wf)
    (hc : s.Conserved) (hlive : s1.ctx.isDone = false) (h : s.run acts = some s1) :
    s1.Conserved := by
  induction acts generalizing s with
  | nil =>
    simp only [PipeSys.run, Option.some.injEq] at h
    subst h
    exact hc
  | cons a acts ih =>
    simp only [PipeSys.run] at h
    cases hst : s.step a with
    | none => simp [hst] at h
    | some s2 =>
      simp only [hst] at h
      have hwf2 := PipeSys.step_wf s s2 a hwf hst
      have hlive2 := PipeSys.run_live acts s2 s1 hwf2 hlive h
      exact ih s2 hwf2 (PipeSys.step_conserved s s2 a hwf hc hlive2 hst).1 h

theorem PipeSys.run_drain (sched : List PipeAction) (s s1 : PipeSys)
    (hwf : s.Wf) (hclosed : s.p.input.closed = true) (hst : s.stage ≠ .notStarted)
    (hlive : s1.ctx.isDone = false) (h : s.run sched = some s1) :
    (∀ a ∈ sched, a ∈ PipeAction.draining) ∧ sched.length + s1.work ≤ s.work ∧
      s1.sent = s.sent ∧ s1.p.input.closed = true ∧ s1.stage ≠ .notStarted := by
  induction sched generalizing s with
  | nil =>
    simp only [PipeSys.run, Option.some.injEq] at h
    subst h
    simp [hclosed, hst]
  | cons a sched ih =>
    simp only [PipeSys.run] at h
    cases hs2 : s.step a with
    | none => simp [hs2] at h
    | some s2 =>
      simp only [hs2] at h
      have hwf2 := PipeSys.step_wf s s2 a hwf hs2
      have hlive2 := PipeSys.run_live sched s2 s1 hwf2 hlive h
      obtain ⟨ha, hw, hsent, hcl2, hst2⟩ := PipeSys.step_drain s s2 a hwf hclosed hst hlive2 hs2
      obtain ⟨hall, hlen, hsent1, hcl1, hst1⟩ := ih s2 hwf2 hcl2 hst2 h
      refine ⟨?_, ?_, hsent1.trans hsent, hcl1, hst1⟩
      · intro b hb
        rcases List.mem_cons.mp hb with rfl | hb
        · exact ha
        · exact hall b hb
      · simp only [List.length_cons]
        omega

theorem NewPipeline_init (bufferSize : Int) (p : Pipeline)
    (h : NewPipeline bufferSize = .ok p) :
    (PipeSys.init p).Wf ∧ (PipeSys.init p).Conserved ∧ p.input.closed = false := by
  have hd : (Chan.make 0 0 : Except Fault (Chan Unit))
      = .ok { buf := [], cap := 0, closed := false } := rfl
  unfold NewPipeline at h
  rw [hd] at h
  unfold Chan.make at h
  by_cases hb : bufferSize < 0 ∨ maxAlloc - hchanSize < 8 * bufferSize
  · simp [hb] at h
  · simp only [hb, if_false] at h
    simp at h
    subst h
    simp [PipeSys.Wf, PipeSys.Conserved, PipeSys.init, PipeSys.pending, Ctx.background,
      Ctx.isDone]

theorem PipeSys.stuck_final (s : PipeSys) (hwf : s.Wf) (hlive : s.ctx.isDone = false)
    (hclosed : s.p.input.closed = true) (hst : s.stage ≠ .notStarted)
    (hstuck : ∀ a ∈ PipeAction.draining, s.step a = none) :
    s.Final ∧ s.p.input.buf = [] ∧ s.pending = [] := by
  have h1 := hstuck .stageRecv (by simp [PipeAction.draining])
  have h2 := hstuck .stageEof (by simp [PipeAction.draining])
  have h3 := hstuck .stageSend (by simp [PipeAction.draining])
  have h4 := hstuck .stageHandoff (by simp [PipeAction.draining])
  have h5 := hstuck .consume (by simp [PipeAction.draining])
  have h6 := hstuck .consumeEof (by simp [PipeAction.draining])
  clear hstuck
  rcases s with ⟨⟨⟨ib, ic, icl⟩, ⟨ob, oc, ocl⟩, ⟨db, dc, dcl⟩⟩, ctx, stage, sent, received,
    sawClose, closing⟩
  simp only at hclosed hst hlive
  subst hclosed
  unfold PipeSys.Wf at hwf
  unfold PipeSys.Final
  cases stage <;> cases ib <;> cases ob <;> cases ocl <;> cases sawClose <;>
    simp [PipeSys.step, PipeSys.stageExit, PipeSys.pending, Chan.recv, Chan.send, Chan.close,
      Chan.hasRoom, hlive] at h1 h2 h3 h4 h5 h6 hwf hst ⊢

theorem PipeSys.step_draining_ctx (s s2 : PipeSys) (a : PipeAction)
    (ha : a ∈ PipeAction.draining) (hs2 : s.step a = some s2) : s2.ctx = s.ctx := by
  simp only [PipeAction.draining, List.mem_cons, List.mem_singleton,
    List.not_mem_nil, or_false] at ha
  rcases ha with rfl | rfl | rfl | rfl | rfl | rfl
  · obtain ⟨_, _, _, _, rfl⟩ := (PipeSys.step_stageRecv _ s2).mp hs2; rfl
  · obtain ⟨_, _, _, _, rfl⟩ := (PipeSys.step_stageEof _ s2).mp hs2; rfl
  · obtain ⟨_, _, _, _, rfl⟩ := (PipeSys.step_stageSend _ s2).mp hs2; rfl
  · obtain ⟨_, _, _, _, _, rfl⟩ := (PipeSys.step_stageHandoff _ s2).mp hs2; rfl
  · obtain ⟨_, _, _, _, rfl⟩ := (PipeSys.step_consume _ s2).mp hs2; rfl
  · obtain ⟨_, _, _, rfl⟩ := (PipeSys.step_consumeEof _ s2).mp hs2; rfl

theorem PipeSys.exists_drain (n : Nat) (s : PipeSys) (hn : s.work ≤ n)
    (hwf : s.Wf) (hlive : s.ctx.isDone = false)
    (hclosed : s.p.input.closed = true) (hst : s.stage ≠ .notStarted) :
    ∃ sched s1, s.run sched = some s1 ∧ s1.ctx.isDone = false ∧
      ∀ a ∈ PipeAction.draining, s1.step a = none := by
  induction n generalizing s with
  | zero =>
    refine ⟨[], s, rfl, hlive, ?_⟩
    intro a ha
    cases hs2 : s.step a with
    | none => rfl
    | some s2 =>
      have hctx : s2.ctx = s.ctx := PipeSys.step_draining_ctx s s2 a ha hs2
      have := (PipeSys.step_drain s s2 a hwf hclosed hst (by rw [hctx]; exact hlive) hs2).2.1
      omega
  | succ n ih =>
    by_cases hstuck : ∀ a ∈ PipeAction.draining, s.step a = none
    · exact ⟨[], s, rfl, hlive, hstuck⟩
    · push_neg at hstuck
      obtain ⟨a, ha, hne⟩ := hstuck
      cases hs2 : s.step a with
      | none => exact absurd hs2 hne
      | some s2 =>
        have hctx : s2.ctx = s.ctx := PipeSys.step_draining_ctx s s2 a ha hs2
        have hlive2 : s2.ctx.isDone = false := by rw [hctx]; exact hlive
        obtain ⟨_, hw, _, hcl2, hst2⟩ := PipeSys.step_drain s s2 a hwf hclosed hst hlive2 hs2
        obtain ⟨sched, s1, hrun, hl1, hstuck1⟩ :=
          ih s2 (by omega) (PipeSys.step_wf s s2 a hwf hs2) hlive2 hcl2 hst2
        refine ⟨a :: sched, s1, ?_, hl1, hstuck1⟩
        simp [PipeSys.run, hs2, hrun]

theorem transform_small (v : Int) (h1 : -(2 ^ 62) ≤ v) (h2 : v < 2 ^ 62) :
    transform v = 2 * v := by
  unfold transform
  rw [wrapInt64_eq (v * 2) (by omega) (by omega)]
  omega

theorem map_transform_small (xs : List Int)
    (h : ∀ v ∈ xs, -(2 ^ 62) ≤ v ∧ v < 2 ^ 62) :
    xs.map transform = xs.map (fun v => 2 * v) := by
  apply List.map_congr_left
  intro v hv
  exact transform_small v (h v hv).1 (h v hv).2

/-- C7, counterexample: on the pipeline of `NewPipeline(1)` with `Process` started
under a live token, the value 2^62 is sent and the input is closed; the consumer
receives the single value -2^63, the Go product `value * 2` having wrapped around,
and not 2 * 2^62 = 2^63; the output is then closed. -/
theorem Pipeline.round_trip_wraps :
    NewPipeline 1 = .ok demoPipe ∧
    ((PipeSys.init demoPipe).run
        [.process, .send 4611686018427387904, .closeInput, .stageRecv, .stageSend,
         .consume, .stageEof, .consumeEof]).map
        (fun s => (s.ctx.isDone, s.sent, s.received, s.p.output.closed, s.sawClose))
      = some (false, [4611686018427387904], [-9223372036854775808], true, true) ∧
    ([-9223372036854775808] : List Int)
      ≠ [4611686018427387904].map (fun v => 2 * v) := by
  refine ⟨rfl, by decide, by decide⟩

/-- C7, amended: take a pipeline built by `NewPipeline` and any schedule that started
`Process`, sent the values `s.sent` with `Send` returning `nil`, and closed the input,
the token being live.  From then on, as long as the token stays live, only the stage
and the consumer can step; the number of steps is bounded; what the consumer has
received is always an initial part of the list of the Go products `v * 2` (the
product wrapped to 64 bits) of the values of `s.sent`, in order; when no step is left
the consumer has received exactly that list, the output is closed and drained, and
the consumer has seen the closure; such a state is reached; and when every value
sent lies in `[-2^62, 2^62)` that list is the list of the numbers `2 * v`. -/
theorem Pipeline.round_trip (bufferSize : Int) (p : Pipeline) (acts : List PipeAction)
    (s : PipeSys) (hnew : NewPipeline bufferSize = .ok p)
    (hrun : (PipeSys.init p).run acts = some s) (hlive : s.ctx.isDone = false)
    (hclosed : s.p.input.closed = true) (hstarted : s.stage ≠ .notStarted) :
    (∀ sched s1, s.run sched = some s1 → s1.ctx.isDone = false →
      (∀ a ∈ sched, a ∈ PipeAction.draining) ∧ sched.length + s1.work ≤ s.work ∧
      s1.sent = s.sent ∧ s1.received <+: s.sent.map (fun v => wrapInt64 (v * 2)) ∧
      ((∀ a ∈ PipeAction.draining, s1.step a = none) →
        s1.received = s.sent.map (fun v => wrapInt64 (v * 2)) ∧
        s1.p.output.closed = true ∧ s1.p.output.buf = [] ∧ s1.sawClose = true)) ∧
    (∃ sched s1, s.run sched = some s1 ∧ s1.ctx.isDone = false ∧
      s1.received = s.sent.map (fun v => wrapInt64 (v * 2)) ∧ s1.p.output.closed = true ∧
      s1.p.output.buf = [] ∧ s1.sawClose = true) ∧
    ((∀ v ∈ s.sent, -(2 ^ 62) ≤ v ∧ v < 2 ^ 62) →
      s.sent.map (fun v => wrapInt64 (v * 2)) = s.sent.map (fun v => 2 * v)) := by
  have hfun : (fun v => wrapInt64 (v * 2)) = transform := rfl
  rw [hfun]
  obtain ⟨hwf0, hc0, _⟩ := NewPipeline_init bufferSize p hnew
  have hwf := PipeSys.run_wf acts _ s hwf0 hrun
  have hc := PipeSys.run_conserved acts _ s hwf0 hc0 hlive hrun
  have key : ∀ sched s1, s.run sched = some s1 → s1.ctx.isDone = false →
      (∀ a ∈ sched, a ∈ PipeAction.draining) ∧ sched.length + s1.work ≤ s.work ∧
      s1.sent = s.sent ∧ s1.received <+: s.sent.map transform ∧
      ((∀ a ∈ PipeAction.draining, s1.step a = none) →
        s1.received = s.sent.map transform ∧ s1.p.output.closed = true ∧
        s1.p.output.buf = [] ∧ s1.sawClose = true) := by
    intro sched s1 hr hl1
    obtain ⟨hall, hlen, hsent, hcl1, hst1⟩ :=
      PipeSys.run_drain sched s s1 hwf hclosed hstarted hl1 hr
    have hwf1 := PipeSys.run_wf sched s s1 hwf hr
    have hc1 := PipeSys.run_conserved sched s s1 hwf hc hl1 hr
    unfold PipeSys.Conserved at hc1
    rw [hsent] at hc1
    refine ⟨hall, hlen, hsent, ?_, ?_⟩
    · rw [hc1, List.append_assoc, List.append_assoc]
      exact List.prefix_append _ _
    · intro hstuck
      obtain ⟨hfin, hib, hpend⟩ := PipeSys.stuck_final s1 hwf1 hl1 hcl1 hst1 hstuck
      obtain ⟨_, hoc, hob, hsaw⟩ := hfin
      refine ⟨?_, hoc, hob, hsaw⟩
      rw [hc1, hob, hib, hpend]
      simp
  refine ⟨key, ?_, map_transform_small s.sent⟩
  obtain ⟨sched, s1, hr, hl1, hstuck⟩ :=
    PipeSys.exists_drain s.work s (Nat.le_refl _) hwf hlive hclosed hstarted
  obtain ⟨_, _, _, _, hfin⟩ := key sched s1 hr hl1
  exact ⟨sched, s1, hr, hl1, hfin hstuck⟩

/-- Witness of C7 as amended: `NewPipeline(1)`, `Process`, `Send` of 3, closure of
the input: the consumer receives the list [6] and sees the closure. -/
theorem Pipeline.round_trip_witness :
    NewPipeline 1 = .ok demoPipe ∧
    (PipeSys.init demoPipe).run [.process, .send 3, .closeInput] = some demoSys ∧
    demoSys.ctx.isDone = false ∧ demoSys.p.input.closed = true ∧
    demoSys.stage ≠ .notStarted ∧ demoSys.sent = [3] ∧
    (∃ sched s1, demoSys.run sched = some s1 ∧ s1.ctx.isDone = false ∧
      s1.received = [6] ∧ s1.p.output.closed = true ∧
      s1.p.output.buf = [] ∧ s1.sawClose = true) ∧
    (demoSys.run [.stageRecv, .stageSend, .consume, .stageEof, .consumeEof]).map
        (fun s => (s.received, s.p.output.closed, s.sawClose))
      = some ([6], true, true) := by
  refine ⟨rfl, rfl, rfl, rfl, by decide, rfl, ?_, by decide⟩
  obtain ⟨sched, s1, h1, h2, h3, h4⟩ :=
    (Pipeline.round_trip 1 demoPipe [.process, .send 3, .closeInput] demoSys
      rfl rfl rfl rfl (by decide)).2.1
  exact ⟨sched, s1, h1, h2, h3.trans (by decide), h4⟩

/-- C8: for a pipeline built by `NewPipeline` and any schedule, a caller of `Close`
is never past its `<-p.done`: nothing sends on or closes `p.done`, so the receive is
never enabled and the state in which `Close` has returned is not reached. -/
theorem Pipeline.Close_never_returns (bufferSize : Int) (p : Pipeline)
    (acts : List PipeAction) (s : PipeSys) (hnew : NewPipeline bufferSize = .ok p)
    (hrun : (PipeSys.init p).run acts = some s) :
    s.closing ≠ .returned ∧ s.p.done.recv = .blocked ∧ s.step .closeReturn = none := by
  obtain ⟨hwf0, _, _⟩ := NewPipeline_init bufferSize p hnew
  have hwf := PipeSys.run_wf acts _ s hwf0 hrun
  obtain ⟨_, _, _, hdc, hdb, hcl⟩ := hwf
  refine ⟨hcl, ?_, ?_⟩
  · simp [Chan.recv, hdc, hdb]
  · cases hs : s.step .closeReturn with
    | none => rfl
    | some s1 =>
      obtain ⟨_, h1 | h1⟩ := PipeSys.step_closeReturn s s1 hs
      · exact absurd hdb h1
      · rw [hdc] at h1
        exact absurd h1 (by simp)

/-- Witness of C8: `NewPipeline(1)`, `Process`, `Close()`, then the stage sees the
closed input and closes the output, and the consumer sees the closure: the caller of
`Close` is still waiting. -/
theorem Pipeline.Close_never_returns_witness :
    NewPipeline 1 = .ok demoPipe ∧
    (PipeSys.init demoPipe).run [.process, .closeCall, .stageEof, .consumeEof]
      = some { p := { input := { buf := [], cap := 1, closed := true },
                      output := { buf := [], cap := 1, closed := true },
                      done := { buf := [], cap := 0, closed := false } },
               ctx := Ctx.background, stage := .exited, sent := [], received := [],
               sawClose := true, closing := .waiting } ∧
    PipeSys.step
        { p := { input := { buf := [], cap := 1, closed := true },
                 output := { buf := [], cap := 1, closed := true },
                 done := { buf := [], cap := 0, closed := false } },
          ctx := Ctx.background, stage := .exited, sent := [], received := [],
          sawClose := true, closing := .waiting }
        .closeReturn = none :=
  ⟨rfl, rfl,
    (Pipeline.Close_never_returns 1 demoPipe [.process, .closeCall, .stageEof, .consumeEof]
      { p := { input := { buf := [], cap := 1, closed := true },
               output := { buf := [], cap := 1, closed := true },
               done := { buf := [], cap := 0, closed := false } },
        ctx := Ctx.background, stage := .exited, sent := [], received := [],
        sawClose := true, closing := .waiting }
      rfl rfl).2.2⟩

/-- C9, counterexample: on the pipeline of `NewPipeline(1)` with `Process` started,
once the token is cancelled the state has a cancelled token and an open output. -/
theorem Pipeline.cancelled_output_still_open :
    NewPipeline 1 = .ok demoPipe ∧
    (PipeSys.init demoPipe).run [.process, .cancel]
      = some { p := demoPipe, ctx := { err := some "context canceled" }, stage := .selecting,
               sent := [], received := [], sawClose := false, closing := .notCalled } ∧
    Ctx.isDone { err := some "context canceled" } = true ∧
    demoPipe.output.closed = false :=
  ⟨rfl, rfl, rfl, rfl⟩

/-- C9, amended: for a pipeline built by `NewPipeline` and any schedule, the output is
closed only if the input is closed and drained or the token is cancelled, and exactly
when the stage has returned; conversely a stage standing at one of its `select`s under
a cancelled token, or at its outer `select` on a closed and drained input, has its
returning step enabled, and that step closes the output. -/
theorem Pipeline.output_closed_only_if (bufferSize : Int) (p : Pipeline)
    (acts : List PipeAction) (s : PipeSys) (hnew : NewPipeline bufferSize = .ok p)
    (hrun : (PipeSys.init p).run acts = some s) :
    (s.p.output.closed = true →
      (s.p.input.closed = true ∧ s.p.input.buf = []) ∨ s.ctx.isDone = true) ∧
    (s.p.output.closed = true ↔ s.stage = .exited) ∧
    (s.ctx.isDone = true → (s.stage = .selecting ∨ ∃ v, s.stage = .sending v) →
      ∃ s1, s.step .stageCancel = some s1 ∧ s1.p.output.closed = true) ∧
    (s.p.input.closed = true → s.p.input.buf = [] → s.stage = .selecting →
      ∃ s1, s.step .stageEof = some s1 ∧ s1.p.output.closed = true) := by
  obtain ⟨hwf0, _, _⟩ := NewPipeline_init bufferSize p hnew
  have hwf := PipeSys.run_wf acts _ s hwf0 hrun
  obtain ⟨hout, _, hex, _, _, _⟩ := hwf
  have hopen : s.stage ≠ .exited → s.p.output.closed = false := by
    intro hne
    cases hoc : s.p.output.closed with
    | false => rfl
    | true => exact absurd (hout.mp hoc) hne
  refine ⟨fun hoc => hex (hout.mp hoc), hout, ?_, ?_⟩
  · intro hd hst
    have hne : s.stage ≠ .exited := by
      rcases hst with h | ⟨v, h⟩ <;> simp [h]
    exact ⟨_, (PipeSys.step_stageCancel s _).mpr ⟨hst, hd, hopen hne, rfl⟩, rfl⟩
  · intro hic hib hst
    have hne : s.stage ≠ .exited := by simp [hst]
    exact ⟨_, (PipeSys.step_stageEof s _).mpr ⟨hst, hib, hic, hopen hne, rfl⟩, rfl⟩

/-- Witness of C9 as amended: the state `demoSys`, whose input is closed but holds a
value. -/
theorem Pipeline.output_closed_only_if_witness :
    NewPipeline 1 = .ok demoPipe ∧
    (PipeSys.init demoPipe).run [.process, .send 3, .closeInput] = some demoSys ∧
    (demoSys.p.output.closed = true ↔ demoSys.stage = .exited) :=
  ⟨rfl, rfl,
    (Pipeline.output_closed_only_if 1 demoPipe [.process, .send 3, .closeInput] demoSys
      rfl rfl).2.1⟩

theorem Pipeline.sendReady_room (p : Pipeline) (ctx : Ctx) (value : Int)
    (hopen : p.input.closed = false) (hroom : p.input.hasRoom = true)
    (hlive : ctx.isDone = false) :
    p.sendReady ctx false false value
      = [.returned none { p with input := { p.input with buf := p.input.buf ++ [value] } }] := by
  simp [Pipeline.sendReady, Pipeline.Send, Chan.send, hopen, hroom, hlive]

theorem Pipeline.sendReady_parked (p : Pipeline) (ctx : Ctx) (value : Int)
    (hopen : p.input.closed = false) (hlive : ctx.isDone = false) :
    p.sendReady ctx false true value = [.returned none p] := by
  simp [Pipeline.sendReady, Pipeline.Send, hopen, hlive]

theorem Pipeline.sendReady_full (p : Pipeline) (ctx : Ctx) (value : Int) (fired : Bool)
    (hopen : p.input.closed = false) (hfull : p.input.hasRoom = false)
    (hlive : ctx.isDone = false) :
    p.sendReady ctx fired false value
      = if fired then [.returned (some "timeout ao enviar") p] else [] := by
  cases fired <;>
    simp [Pipeline.sendReady, Pipeline.Send, Chan.send, hopen, hfull, hlive]

theorem Pipeline.sendReady_fired (p : Pipeline) (ctx : Ctx) (parked : Bool) (value : Int) :
    p.sendReady ctx true parked value ≠ [] := by
  intro h
  have hmem : Call.returned (some "timeout ao enviar") p
      ∈ p.sendReady ctx true parked value := by
    simp [Pipeline.sendReady, Pipeline.Send]
  rw [h] at hmem
  exact absurd hmem (List.not_mem_nil _)

theorem Pipeline.sendAwait_bound (env : Nat → Pipeline × Ctx) (parked : Nat → Bool)
    (value : Int) (fuel k : Nat) :
    (Pipeline.sendAwait env parked value fuel k).1 ≤ k + fuel ∧
      (Pipeline.sendAwait env parked value fuel k).2 ≠ [] := by
  induction fuel generalizing k with
  | zero =>
    simp only [Pipeline.sendAwait]
    exact ⟨Nat.le_refl _, Pipeline.sendReady_fired _ _ _ _⟩
  | succ fuel ih =>
    simp only [Pipeline.sendAwait]
    cases hr : (env k).1.sendReady (env k).2 false (parked k) value with
    | nil =>
      simp only
      obtain ⟨h1, h2⟩ := ih (k + 1)
      exact ⟨by omega, h2⟩
    | cons r rs =>
      simp only
      exact ⟨by omega, by simp⟩

theorem Pipeline.sendAwait_full (env : Nat → Pipeline × Ctx) (parked : Nat → Bool)
    (value : Int) (fuel k : Nat)
    (hfull : ∀ j, k ≤ j → j ≤ k + fuel →
      (env j).1.input.closed = false ∧ (env j).1.input.hasRoom = false ∧
        parked j = false ∧ (env j).2.isDone = false) :
    Pipeline.sendAwait env parked value fuel k
      = (k + fuel, [.returned (some "timeout ao enviar") (env (k + fuel)).1]) := by
  induction fuel generalizing k with
  | zero =>
    obtain ⟨h1, h2, hp, h3⟩ := hfull k (Nat.le_refl _) (by omega)
    simp only [Pipeline.sendAwait, Nat.add_zero, hp]
    rw [Pipeline.sendReady_full _ _ value true h1 h2 h3]
    simp
  | succ fuel ih =>
    obtain ⟨h1, h2, hp, h3⟩ := hfull k (Nat.le_refl _) (by omega)
    simp only [Pipeline.sendAwait, hp]
    rw [Pipeline.sendReady_full _ _ value false h1 h2 h3]
    simp only [Bool.false_eq_true, if_false]
    rw [ih (k + 1) (fun j hj1 hj2 => hfull j (by omega) (by omega))]
    have : k + 1 + fuel = k + (fuel + 1) := by omega
    rw [this]

theorem PipeSys.parked_handoff (s : PipeSys) (value : Int) (hp : s.parked = true) :
    s.step (.handoff value)
      = some { s with stage := .sending value, sent := s.sent ++ [value] } := by
  simp only [PipeSys.parked, Bool.and_eq_true, decide_eq_true_eq, List.isEmpty_iff,
    Bool.not_eq_true'] at hp
  obtain ⟨hst, hbuf, hcl⟩ := hp
  simp [PipeSys.step, hst, hbuf, hcl]

/-- C10, counterexample: on a pipeline whose input has been closed and has room, under
a live token and before the timer, the only ready case of the `select` of `Send` is the
send, and it panics with "send on closed channel": `Send` does not return `nil`. -/
theorem Pipeline.Send_on_closed_input_panics :
    Pipeline.sendReady { demoPipe with input := { buf := [], cap := 1, closed := true } }
        Ctx.background false false 5 = [.fault .sendOnClosed] ∧
    Chan.hasRoom ({ buf := [], cap := 1, closed := true } : Chan Int) = true ∧
    Pipeline.SendWithin 1
        (fun _ => ({ demoPipe with input := { buf := [], cap := 1, closed := true } },
                   Ctx.background)) (fun _ => false) 5
      = (0, [.fault .sendOnClosed]) := by
  refine ⟨by decide, by decide, by decide⟩

/-- C10, amended: take a call of `Send` at tick 0, one second lasting `second > 0`
ticks, `env k` being the pipeline and the token `k` ticks later and `parked k` telling
whether a receiver is waiting on the input then.  If at tick 0 the input is open, no
receiver is waiting, the buffer has room and the token is live, the call returns `nil`
at tick 0 with the value appended to the input buffer.  If at tick 0 the input is open,
a receiver is waiting and the token is live, the call returns `nil` at tick 0, the
value going to the receiver and the buffer staying as it is.  If the input stays open
and full, with no receiver waiting and the token live up to tick `second`, the call
returns the error "timeout ao enviar" at tick `second` and leaves the pipeline as it
is.  In every case the `select` of the call fires at a tick not later than `second`.
A receiver waits on the input when the stage stands at its outer `select` on an open,
empty input; the hand-over then moves the value into the stage. -/
theorem Pipeline.Send_outcome (second : Nat) (env : Nat → Pipeline × Ctx)
    (parked : Nat → Bool) (value : Int) (hsec : 0 < second) :
    ((env 0).1.input.closed = false → parked 0 = false → (env 0).1.input.hasRoom = true →
      (env 0).2.isDone = false →
      Pipeline.SendWithin second env parked value
        = (0, [.returned none
                { (env 0).1 with
                  input := { (env 0).1.input with buf := (env 0).1.input.buf ++ [value] } }])) ∧
    ((env 0).1.input.closed = false → parked 0 = true → (env 0).2.isDone = false →
      Pipeline.SendWithin second env parked value = (0, [.returned none (env 0).1])) ∧
    ((∀ k, k ≤ second →
        (env k).1.input.closed = false ∧ (env k).1.input.hasRoom = false ∧
          parked k = false ∧ (env k).2.isDone = false) →
      Pipeline.SendWithin second env parked value
        = (second, [.returned (some "timeout ao enviar") (env second).1])) ∧
    (Pipeline.SendWithin second env parked value).1 ≤ second ∧
    (Pipeline.SendWithin second env parked value).2 ≠ [] ∧
    (∀ s : PipeSys, s.parked = true →
      s.step (.handoff value)
        = some { s with stage := .sending value, sent := s.sent ++ [value] }) := by
  refine ⟨?_, ?_, ?_, ?_, ?_, fun s hp => PipeSys.parked_handoff s value hp⟩
  · intro hopen hpark hroom hlive
    obtain ⟨n, rfl⟩ : ∃ n, second = n + 1 := ⟨second - 1, by omega⟩
    simp only [Pipeline.SendWithin, Pipeline.sendAwait, hpark]
    rw [Pipeline.sendReady_room _ _ value hopen hroom hlive]
  · intro hopen hpark hlive
    obtain ⟨n, rfl⟩ : ∃ n, second = n + 1 := ⟨second - 1, by omega⟩
    simp only [Pipeline.SendWithin, Pipeline.sendAwait, hpark]
    rw [Pipeline.sendReady_parked _ _ value hopen hlive]
  · intro hfull
    have := Pipeline.sendAwait_full env parked value second 0
      (fun j _ hj => hfull j (by omega))
    simpa [Pipeline.SendWithin] using this
  · have := (Pipeline.sendAwait_bound env parked value second 0).1
    simpa [Pipeline.SendWithin] using this
  · exact (Pipeline.sendAwait_bound env parked value second 0).2

/-- Witness of C10 as amended, a second of 2 ticks and a live token: the pipeline of
`NewPipeline(1)` with no receiver waiting takes the value into its buffer; the
pipeline of `NewPipeline(0)` with the stage waiting hands the value to the stage; the
pipeline of `NewPipeline(0)` with no receiver waiting times out at tick 2. -/
theorem Pipeline.Send_outcome_witness :
    0 < 2 ∧
    Pipeline.SendWithin 2 (fun _ => (demoPipe, Ctx.background)) (fun _ => false) 5
      = (0, [.returned none
              { demoPipe with input := { buf := [5], cap := 1, closed := false } }]) ∧
    NewPipeline 0 = .ok rawPipe ∧
    (PipeSys.init rawPipe).run [.process] = some rawSys ∧
    rawSys.parked = true ∧
    Pipeline.SendWithin 2 (fun _ => (rawSys.p, Ctx.background)) (fun _ => rawSys.parked) 5
      = (0, [.returned none rawPipe]) ∧
    rawSys.step (.handoff 5) = some { rawSys with stage := .sending 5, sent := [5] } ∧
    Pipeline.SendWithin 2 (fun _ => (rawPipe, Ctx.background)) (fun _ => false) 5
      = (2, [.returned (some "timeout ao enviar") rawPipe]) :=
  ⟨by decide,
    (Pipeline.Send_outcome 2 (fun _ => (demoPipe, Ctx.background)) (fun _ => false) 5
      (by decide)).1 rfl rfl rfl rfl,
    rfl, rfl, rfl,
    (Pipeline.Send_outcome 2 (fun _ => (rawSys.p, Ctx.background)) (fun _ => rawSys.parked) 5
      (by decide)).2.1 rfl rfl rfl,
    (Pipeline.Send_outcome 2 (fun _ => (rawSys.p, Ctx.background)) (fun _ => rawSys.parked) 5
      (by decide)).2.2.2.2.2 rawSys rfl,
    (Pipeline.Send_outcome 2 (fun _ => (rawPipe, Ctx.background)) (fun _ => false) 5
      (by decide)).2.2.1 (fun _ _ => ⟨rfl, rfl, rfl, rfl⟩)⟩

/-! ### Cancelled token in Send -/

/-- C15, counterexample: on the pipeline of `NewPipeline(1)`, whose input has room,
under a token that is already cancelled, the send case of the `select` of `Send` is
ready as well as the `ctx.Done()` case; when it fires `Send` enqueues the value and
returns `nil`. -/
theorem Pipeline.Send_cancelled_may_enqueue :
    NewPipeline 1 = .ok demoPipe ∧
    Ctx.isDone { err := some "context canceled" } = true ∧
    Pipeline.Send demoPipe { err := some "context canceled" } false false 5 .enqueue
      = .returned none { demoPipe with input := { buf := [5], cap := 1, closed := false } } ∧
    Pipeline.sendReady demoPipe { err := some "context canceled" } false false 5
      = [.returned none { demoPipe with input := { buf := [5], cap := 1, closed := false } },
         .returned (some "context canceled") demoPipe] := by
  refine ⟨rfl, rfl, rfl, by decide⟩

/-- C15, amended: for a pipeline whose input is open, any value and a token that is
already cancelled when `Send` is called (one second lasting `second > 0` ticks,
`parked 0` telling whether a receiver is waiting on the input), the `select` of `Send`
fires at tick 0; the error of the token with the pipeline unchanged is always one of
the outcomes; every other outcome is `nil`, either with the value handed to the
waiting receiver or, when no receiver waits and the buffer has room, with the value
appended, and in both of these cases `nil` is an outcome; when the buffer is full and
no receiver waits the only outcome is the error of the token; the token has an error;
and the timer case, which returns "timeout ao enviar", is not ready. -/
theorem Pipeline.Send_cancelled (second : Nat) (env : Nat → Pipeline × Ctx)
    (parked : Nat → Bool) (value : Int)
    (hsec : 0 < second) (hopen : (env 0).1.input.closed = false)
    (hdone : (env 0).2.isDone = true) :
    (Pipeline.SendWithin second env parked value).1 = 0 ∧
    Call.returned (env 0).2.err (env 0).1 ∈ (Pipeline.SendWithin second env parked value).2 ∧
    (∀ r ∈ (Pipeline.SendWithin second env parked value).2,
      r = .returned (env 0).2.err (env 0).1 ∨
      (parked 0 = true ∧ r = .returned none (env 0).1) ∨
      (parked 0 = false ∧ (env 0).1.input.hasRoom = true ∧
        r = .returned none
          { (env 0).1 with
            input := { (env 0).1.input with buf := (env 0).1.input.buf ++ [value] } })) ∧
    (parked 0 = true →
      Call.returned none (env 0).1 ∈ (Pipeline.SendWithin second env parked value).2) ∧
    (parked 0 = false → (env 0).1.input.hasRoom = true →
      Call.returned none
          { (env 0).1 with
            input := { (env 0).1.input with buf := (env 0).1.input.buf ++ [value] } }
        ∈ (Pipeline.SendWithin second env parked value).2) ∧
    (parked 0 = false → (env 0).1.input.hasRoom = false →
      (Pipeline.SendWithin second env parked value).2
        = [.returned (env 0).2.err (env 0).1]) ∧
    (env 0).2.err ≠ none ∧
    (env 0).1.Send (env 0).2 false (parked 0) value .timer = .blocked := by
  obtain ⟨n, rfl⟩ : ∃ n, second = n + 1 := ⟨second - 1, by omega⟩
  have herr : (env 0).2.err ≠ none := by
    intro he
    simp [Ctx.isDone, he] at hdone
  cases hpark : parked 0 with
  | true =>
    have hr : (env 0).1.sendReady (env 0).2 false true value
        = [.returned none (env 0).1, .returned (env 0).2.err (env 0).1] := by
      simp [Pipeline.sendReady, Pipeline.Send, hopen, hdone]
    have hw : Pipeline.SendWithin (n + 1) env parked value
        = (0, [.returned none (env 0).1, .returned (env 0).2.err (env 0).1]) := by
      simp only [Pipeline.SendWithin, Pipeline.sendAwait, hpark, hr]
    rw [hw]
    refine ⟨rfl, by simp, ?_, fun _ => by simp, fun h => by simp at h,
      fun h => by simp at h, herr, ?_⟩
    · intro r hrm
      simp only [List.mem_cons, List.mem_singleton, List.not_mem_nil, or_false] at hrm
      rcases hrm with rfl | rfl
      · exact Or.inr (Or.inl ⟨rfl, rfl⟩)
      · exact Or.inl rfl
    · simp [Pipeline.Send]
  | false =>
    cases hroom : (env 0).1.input.hasRoom with
    | true =>
      have hr : (env 0).1.sendReady (env 0).2 false false value
          = [.returned none
              { (env 0).1 with
                input := { (env 0).1.input with buf := (env 0).1.input.buf ++ [value] } },
             .returned (env 0).2.err (env 0).1] := by
        simp [Pipeline.sendReady, Pipeline.Send, Chan.send, hopen, hroom, hdone]
      have hw : Pipeline.SendWithin (n + 1) env parked value
          = (0, [.returned none
                  { (env 0).1 with
                    input := { (env 0).1.input with buf := (env 0).1.input.buf ++ [value] } },
                 .returned (env 0).2.err (env 0).1]) := by
        simp only [Pipeline.SendWithin, Pipeline.sendAwait, hpark, hr]
      rw [hw]
      refine ⟨rfl, by simp, ?_, fun h => by simp at h, fun _ _ => by simp,
        fun _ h => by simp at h, herr, ?_⟩
      · intro r hrm
        simp only [List.mem_cons, List.mem_singleton, List.not_mem_nil, or_false] at hrm
        rcases hrm with rfl | rfl
        · exact Or.inr (Or.inr ⟨rfl, rfl, rfl⟩)
        · exact Or.inl rfl
      · simp [Pipeline.Send]
    | false =>
      have hr : (env 0).1.sendReady (env 0).2 false false value
          = [.returned (env 0).2.err (env 0).1] := by
        simp [Pipeline.sendReady, Pipeline.Send, Chan.send, hopen, hroom, hdone]
      have hw : Pipeline.SendWithin (n + 1) env parked value
          = (0, [.returned (env 0).2.err (env 0).1]) := by
        simp only [Pipeline.SendWithin, Pipeline.sendAwait, hpark, hr]
      rw [hw]
      refine ⟨rfl, by simp, ?_, fun h => by simp at h, fun _ h => by simp at h,
        fun _ _ => rfl, herr, ?_⟩
      · intro r hrm
        simp only [List.mem_singleton] at hrm
        exact Or.inl hrm
      · simp [Pipeline.Send]

/-- Witness of C15 as amended, a second of 2 ticks and a cancelled token: the
pipeline of `NewPipeline(1)` with a full input and no receiver waiting gives the error
of the token; the pipeline of `NewPipeline(0)` with the stage waiting can also hand
the value over and return `nil`. -/
theorem Pipeline.Send_cancelled_witness :
    0 < 2 ∧
    Pipeline.SendWithin 2
        (fun _ => ({ demoPipe with input := { buf := [3], cap := 1, closed := false } },
                   { err := some "context canceled" })) (fun _ => false) 5
      = (0, [.returned (some "context canceled")
              { demoPipe with input := { buf := [3], cap := 1, closed := false } }]) ∧
    rawSys.parked = true ∧
    Call.returned none rawPipe
      ∈ (Pipeline.SendWithin 2 (fun _ => (rawSys.p, { err := some "context canceled" }))
          (fun _ => rawSys.parked) 5).2 ∧
    Pipeline.SendWithin 2 (fun _ => (rawSys.p, { err := some "context canceled" }))
        (fun _ => rawSys.parked) 5
      = (0, [.returned none rawPipe, .returned (some "context canceled") rawPipe]) :=
  ⟨by decide, by
    have h := Pipeline.Send_cancelled 2
      (fun _ => ({ demoPipe with input := { buf := [3], cap := 1, closed := false } },
                 { err := some "context canceled" })) (fun _ => false) 5 (by decide) rfl rfl
    exact Prod.ext h.1 (h.2.2.2.2.2.1 rfl rfl),
    rfl,
    (Pipeline.Send_cancelled 2 (fun _ => (rawSys.p, { err := some "context canceled" }))
      (fun _ => rawSys.parked) 5 (by decide) rfl rfl).2.2.2.1 rfl,
    by decide⟩

/-! ### SafeGoroutine -/

/-- C18: under a context that is not cancelled only the `done` case of the `select`
of `SafeGoroutine` can fire; if `f` panics with `r` the call returns the error
"panic recuperado: r", if `f` returns `e` the call returns exactly `e`, and in no
case does the call end in a panic. -/
theorem SafeGoroutine_recovers (ctx : Ctx) (f : Work) (hlive : ctx.isDone = false) :
    SafeGoroutine ctx f .ctxDone = .blocked ∧
    (∀ r, f = .panics r →
      SafeGoroutine ctx f .done = .done (some ("panic recuperado: " ++ r))) ∧
    (∀ e, f = .returns e → SafeGoroutine ctx f .done = .done e) ∧
    (∀ c x, SafeGoroutine ctx f c ≠ .fault x) := by
  refine ⟨by simp [SafeGoroutine, hlive], ?_, ?_, ?_⟩
  · intro r hf
    subst hf
    simp [SafeGoroutine, SafeGoroutine.body, Work.recovered]
  · intro e hf
    subst hf
    simp [SafeGoroutine, SafeGoroutine.body, Work.recovered, Work.assigned]
  · intro c x
    cases c with
    | done =>
      cases f <;> simp [SafeGoroutine, SafeGoroutine.body, Work.recovered, Work.assigned]
    | ctxDone => simp [SafeGoroutine, hlive]

/-- Witness of C18: work that panics with "boom" under `context.Background()`. -/
theorem SafeGoroutine_recovers_witness :
    Ctx.isDone Ctx.background = false ∧
    SafeGoroutine Ctx.background (.panics "boom") .done
      = .done (some ("panic recuperado: " ++ "boom")) :=
  ⟨rfl, (SafeGoroutine_recovers Ctx.background (.panics "boom") rfl).2.1 "boom" rfl⟩

/-! ### SafeSharedState -/

theorem GoMap.get_delete (m : GoMap) (k k2 : String) :
    (GoMap.delete m k).get k2 = if k2 = k then none else m.get k2 := by
  induction m with
  | nil => simp [GoMap.delete, GoMap.get]
  | cons e rest ih =>
    obtain ⟨a, v⟩ := e
    by_cases hak : a = k
    · subst hak
      simp only [GoMap.delete, if_true, ih, GoMap.get]
      by_cases h2 : k2 = a
      · simp [h2]
      · have : ¬ a = k2 := fun h => h2 h.symm
        simp [h2, this]
    · simp only [GoMap.delete, hak, if_false, GoMap.get, ih]
      by_cases h2 : k2 = k
      · subst h2
        simp [hak]
      · simp [h2]

/-- C19: for every state of the map, `Get(k2)` after `Update(k, v)` returns `(v, true)`
when `k2 = k` and what `Get(k2)` returned before otherwise; `Get(k2)` after
`Delete(k)` returns `(0, false)` when `k2 = k` and what `Get(k2)` returned before
otherwise; and `Get` leaves the state as it is. -/
theorem SafeSharedState.Get_after (s : SafeSharedState) (k k2 : String) (v : Int) :
    ((s.Update k v).Get k2).1 = (if k2 = k then (v, true) else (s.Get k2).1) ∧
    ((s.Delete k).Get k2).1 = (if k2 = k then (0, false) else (s.Get k2).1) ∧
    (s.Get k2).2 = s := by
  refine ⟨?_, ?_, ?_⟩
  · by_cases h : k2 = k
    · subst h
      simp [SafeSharedState.Get, SafeSharedState.Update, GoMap.set, GoMap.get]
    · have h1 : ¬ k = k2 := fun h1 => h h1.symm
      simp only [SafeSharedState.Get, SafeSharedState.Update, GoMap.set, GoMap.get, h1, h,
        if_false, GoMap.get_delete]
      cases s.data.get k2 <;> rfl
  · by_cases h : k2 = k
    · subst h
      simp [SafeSharedState.Get, SafeSharedState.Delete, GoMap.get_delete]
    · simp only [SafeSharedState.Get, SafeSharedState.Delete, GoMap.get_delete, h, if_false]
      cases s.data.get k2 <;> rfl
  · simp only [SafeSharedState.Get]
    cases s.data.get k2 <;> rfl

/-! ### Order of the task queue -/

/-- C20: for a pool built by `NewWorkerPool` and any schedule, the tasks that the
workers have taken from the queue are, in the order of taking, an initial part of the
tasks accepted by `Submit` in the order of acceptance: the task taken in position `i`
is the task accepted in position `i`, and a worker that takes a task takes the oldest
accepted task not yet taken. -/
theorem WorkerPool.queue_fifo (w : Int) (p : WorkerPool) (acts : List PoolAction)
    (s : PoolSys) (hnew : NewWorkerPool w = .ok p)
    (hrun : (PoolSys.init p).run acts = some s) :
    s.pool.executed <+: s.accepted ∧
    (∀ i, i < s.pool.executed.length → s.pool.executed[i]? = s.accepted[i]?) ∧
    (∀ s1, s.step (.worker .queue) = some s1 →
      s1.pool.executed = s.pool.executed ∨
      ∃ t, s.accepted[s.pool.executed.length]? = some t ∧
        s1.pool.executed = s.pool.executed ++ [t]) := by
  have hinv := PoolSys.run_inv w.toNat acts _ s (NewWorkerPool_inv w p hnew) hrun
  obtain ⟨hacc, _, _⟩ := hinv
  refine ⟨?_, ?_, ?_⟩
  · rw [hacc]
    exact List.prefix_append _ _
  · intro i hi
    rw [hacc, List.getElem?_append_left hi]
  · intro s1 hstep
    simp only [PoolSys.step, WorkerPool.workerStep] at hstep
    by_cases hwg : s.pool.wg = 0
    · simp [hwg] at hstep
    · simp only [hwg, if_false, Chan.recv] at hstep
      cases hb : s.pool.tasks.buf with
      | nil =>
        simp only [hb] at hstep
        by_cases hcl : s.pool.tasks.closed = true
        · simp only [hcl, if_true, Option.some.injEq] at hstep
          subst hstep
          exact Or.inl rfl
        · simp [hcl] at hstep
      | cons t rest =>
        simp only [hb] at hstep
        cases hp : t.panics with
        | true => simp [hp] at hstep
        | false =>
          simp [hp] at hstep
          subst hstep
          refine Or.inr ⟨t, ?_, rfl⟩
          rw [hacc, hb, List.getElem?_append_right (Nat.le_refl _)]
          simp

/-- Witness of C20: the pool of `NewWorkerPool(1)` after two accepted tasks, the first
of which has been taken. -/
theorem WorkerPool.queue_fifo_witness :
    NewWorkerPool 1 = .ok demoPool ∧
    (PoolSys.init demoPool).run
        [.submit ⟨1, false⟩ .queue, .submit ⟨2, false⟩ .queue, .worker .queue]
      = some { pool := { demoPool with
                          tasks := { buf := [⟨2, false⟩], cap := 2, closed := false },
                          executed := [⟨1, false⟩] },
               accepted := [⟨1, false⟩, ⟨2, false⟩], stopCalls := 0, stopReturns := 0 } ∧
    [(⟨1, false⟩ : Task)] <+: [⟨1, false⟩, ⟨2, false⟩] :=
  ⟨rfl, rfl,
    (WorkerPool.queue_fifo 1 demoPool
      [.submit ⟨1, false⟩ .queue, .submit ⟨2, false⟩ .queue, .worker .queue]
      { pool := { demoPool with
                    tasks := { buf := [⟨2, false⟩], cap := 2, closed := false },
                    executed := [⟨1, false⟩] },
        accepted := [⟨1, false⟩, ⟨2, false⟩], stopCalls := 0, stopReturns := 0 }
      rfl rfl).1⟩

/-! ### FanOut -/

theorem FanSys.workerStep_queue (s s1 : FanSys) (h : s.workerStep .queue = .done s1) :
    s.wg ≠ 0 ∧
    ((s.f.input.buf = [] ∧ s.f.input.closed = true ∧ s1 = { s with wg := s.wg - 1 }) ∨
     ∃ v rest, s.f.input.buf = v :: rest ∧
      ((s.f.processor v = none ∧
        s1 = { s with f := { s.f with input := { s.f.input with buf := rest } },
                      processed := s.processed ++ [v] }) ∨
       ∃ msg, s.f.processor v = some msg ∧ s.f.errChan.closed = false ∧
        ((s.f.errChan.buf.length < s.f.errChan.cap ∧
          s1 = { s with f := { s.f with
                                input := { s.f.input with buf := rest },
                                errChan := { s.f.errChan with
                                              buf := s.f.errChan.buf ++ [some msg] } },
                        processed := s.processed ++ [v],
                        recorded := s.recorded ++ [msg] }) ∨
         (¬ s.f.errChan.buf.length < s.f.errChan.cap ∧
          s1 = { s with f := { s.f with input := { s.f.input with buf := rest } },
                        processed := s.processed ++ [v],
                        dropped := s.dropped + 1 })))) := by
  rcases s with ⟨⟨⟨ib, ic, icl⟩, w, proc, ⟨eb, ec, ecl⟩⟩, ctx, wg, cd, runner, fed, processed,
    recorded, dropped⟩
  simp only [FanSys.workerStep] at h
  by_cases hwg : wg = 0
  · simp [hwg] at h
  · refine ⟨hwg, ?_⟩
    simp only [hwg, if_false, Chan.recv] at h
    cases ib with
    | nil =>
      cases icl <;> simp at h
      exact Or.inl ⟨rfl, rfl, h.symm⟩
    | cons v rest =>
      refine Or.inr ⟨v, rest, rfl, ?_⟩
      simp only at h
      cases hp : proc v with
      | none =>
        simp only [hp, Op.done.injEq] at h
        exact Or.inl ⟨hp, h.symm⟩
      | some msg =>
        simp only [hp, FanSys.record, Chan.send, Chan.hasRoom] at h
        refine Or.inr ⟨msg, hp, ?_⟩
        cases ecl with
        | true => simp at h
        | false =>
          refine ⟨rfl, ?_⟩
          by_cases hr : eb.length < ec
          · simp [hr] at h
            exact Or.inl ⟨hr, h.symm⟩
          · simp [hr] at h
            exact Or.inr ⟨hr, h.symm⟩

theorem FanSys.workerStep_wf (s s1 : FanSys) (c : SelectCase) (hwf : s.Wf)
    (h : s.workerStep c = .done s1) : s1.Wf := by
  obtain ⟨hfed, hcl, hcd, hcap, hle, hrng, hret, hacct, hhead, hlive⟩ := hwf
  cases c with
  | ctxDone =>
    simp only [FanSys.workerStep] at h
    by_cases hwg : s.wg = 0
    · simp [hwg] at h
    · simp only [hwg, if_false] at h
      cases hd : s.ctx.isDone with
      | false => simp [hd] at h
      | true =>
        simp only [hd, if_true, Op.done.injEq] at h
        subst h
        refine ⟨hfed, hcl, ?_, hcap, ?_, hrng, hret, hacct, hhead, ?_⟩
        · intro h1
          exact absurd (hcd h1) hwg
        · simp only
          omega
        · intro h1
          simp [hd] at h1
  | queue =>
    obtain ⟨hwg, h1⟩ := FanSys.workerStep_queue s s1 h
    have hopen : s.closerDone = false := by
      cases h2 : s.closerDone with
      | false => rfl
      | true => exact absurd (hcd h2) hwg
    rcases h1 with ⟨hb, hic, rfl⟩ | ⟨v, rest, hb, h1⟩
    · refine ⟨hfed, hcl, ?_, hcap, ?_, hrng, hret, hacct, hhead, ?_⟩
      · intro h1
        simp [hopen] at h1
      · simp only
        omega
      · intro _ _
        exact ⟨hic, hb⟩
    · have hlive1 : s.ctx.isDone = false → s.wg < s.f.workers.toNat →
          s.f.input.closed = true ∧ rest = [] := by
        intro h2 h3
        have := (hlive h2 h3).2
        rw [hb] at this
        exact absurd this (by simp)
      have hfed1 : s.fed = (s.processed ++ [v]) ++ rest := by
        rw [hfed, hb]
        simp
      rcases h1 with ⟨hp, rfl⟩ | ⟨msg, hp, hecl, ⟨hroom, rfl⟩ | ⟨hfull, rfl⟩⟩
      · refine ⟨hfed1, hcl, hcd, hcap, hle, hrng, hret, ?_, ?_, hlive1⟩
        · simp only [FanSys.successes, List.filter_append, List.length_append] at hacct ⊢
          simp only [List.filter_cons, hp, Option.isNone_none, if_true, List.filter_nil,
            List.length_cons, List.length_nil]
          omega
        · simp only [FanSys.failures, List.filterMap_append] at hhead ⊢
          simp [hp, hhead]
      · refine ⟨hfed1, hcl, hcd, hcap, hle, ?_, ?_, ?_, ?_, hlive1⟩
        · intro hr
          simp only [List.map_append, List.map_cons, List.map_nil]
          rw [hrng hr]
        · intro r hr
          rcases hret r hr with ⟨_, _, h3⟩ | ⟨m, rs, h2, h3⟩
          · rw [hopen] at h3
            exact absurd h3 (by simp)
          · exact Or.inr ⟨m, rs ++ [msg], h2, by simp [h3]⟩
        · simp only [FanSys.successes, List.filter_append, List.length_append] at hacct ⊢
          simp only [List.filter_cons, hp, Option.isNone_some, List.filter_nil,
            List.length_cons, List.length_nil]
          simp only [Bool.false_eq_true, if_false, List.length_nil]
          omega
        · simp only [FanSys.failures, List.filterMap_append] at hhead ⊢
          cases hrec : s.recorded with
          | nil =>
            rw [hrec] at hhead
            have hf : List.filterMap s.f.processor s.processed = [] := by
              cases hfl : List.filterMap s.f.processor s.processed with
              | nil => rfl
              | cons a l => rw [hfl] at hhead; simp at hhead
            simp [hf, hp]
          | cons a l =>
            rw [hrec] at hhead
            cases hfl : List.filterMap s.f.processor s.processed with
            | nil => rw [hfl] at hhead; simp at hhead
            | cons b l2 =>
              rw [hfl] at hhead
              simpa using hhead
      · have hne : s.recorded ≠ [] := by
          intro hrec
          cases hrun : s.runner with
          | ranging =>
            have hbuf := hrng hrun
            rw [hrec] at hbuf
            apply hfull
            rw [hbuf, hcap]
            simp only [List.map_nil, List.length_nil]
            omega
          | returned r =>
            rcases hret r hrun with ⟨_, _, h3⟩ | ⟨m, rs, _, h3⟩
            · rw [hopen] at h3
              exact absurd h3 (by simp)
            · rw [hrec] at h3
              exact absurd h3 (by simp)
        refine ⟨hfed1, hcl, hcd, hcap, hle, hrng, hret, ?_, ?_, hlive1⟩
        · simp only [FanSys.successes, List.filter_append, List.length_append] at hacct ⊢
          simp only [List.filter_cons, hp, Option.isNone_some, List.filter_nil,
            List.length_cons, List.length_nil]
          simp only [Bool.false_eq_true, if_false, List.length_nil]
          omega
        · simp only [FanSys.failures, List.filterMap_append] at hhead ⊢
          cases hrec : s.recorded with
          | nil => exact absurd hrec hne
          | cons a l =>
            rw [hrec] at hhead
            cases hfl : List.filterMap s.f.processor s.processed with
            | nil => rw [hfl] at hhead; simp at hhead
            | cons b l2 =>
              rw [hfl] at hhead
              simpa using hhead

theorem FanSys.collectStep_cases (s s1 : FanSys) (h : s.collectStep = .done s1) :
    s.runner = .ranging ∧
    ((s.f.errChan.buf = [] ∧ s.f.errChan.closed = true ∧
        s1 = { s with runner := .returned none }) ∨
     ∃ err rest, s.f.errChan.buf = err :: rest ∧
      ((∃ msg, err = some msg ∧
          s1 = { s with f := { s.f with errChan := { s.f.errChan with buf := rest } },
                        runner := .returned (some msg) }) ∨
       (err = none ∧
          s1 = { s with f := { s.f with errChan := { s.f.errChan with buf := rest } } }))) := by
  rcases s with ⟨⟨i, w, proc, ⟨eb, ec, ecl⟩⟩, ctx, wg, cd, runner, fed, processed,
    recorded, dropped⟩
  simp only [FanSys.collectStep] at h
  cases runner with
  | returned r => simp at h
  | ranging =>
    refine ⟨rfl, ?_⟩
    simp only [Chan.recv] at h
    cases eb with
    | nil =>
      cases ecl <;> simp at h
      exact Or.inl ⟨rfl, rfl, h.symm⟩
    | cons err rest =>
      refine Or.inr ⟨err, rest, rfl, ?_⟩
      cases err with
      | none =>
        simp only [Op.done.injEq] at h
        exact Or.inr ⟨rfl, h.symm⟩
      | some msg =>
        simp only [Op.done.injEq] at h
        exact Or.inl ⟨msg, rfl, h.symm⟩

theorem FanSys.closerStep_cases (s s1 : FanSys) (h : s.closerStep = .done s1) :
    s.closerDone = false ∧ s.wg = 0 ∧ s.f.errChan.closed = false ∧
    s1 = { s with f := { s.f with errChan := { s.f.errChan with closed := true } },
                  closerDone := true } := by
  rcases s with ⟨⟨i, w, proc, ⟨eb, ec, ecl⟩⟩, ctx, wg, cd, runner, fed, processed,
    recorded, dropped⟩
  simp only [FanSys.closerStep, Chan.close] at h
  cases cd with
  | true => simp at h
  | false =>
    by_cases hwg : wg = 0
    · subst hwg
      cases ecl with
      | true => simp at h
      | false =>
        simp at h
        exact ⟨rfl, rfl, rfl, h.symm⟩
    · simp [hwg] at h

theorem FanSys.fanStep_wf (s s1 : FanSys) (a : FanAction) (hwf : s.Wf)
    (h : s.step a = some s1) : s1.Wf := by
  cases a with
  | worker c =>
    simp only [FanSys.step] at h
    cases hw : s.workerStep c with
    | done s2 =>
      simp only [hw, Option.some.injEq] at h
      subst h
      exact FanSys.workerStep_wf s s2 c hwf hw
    | blocked => simp [hw] at h
    | fault x => simp [hw] at h
  | handoff v =>
    simp only [FanSys.step] at h
    split at h
    · rename_i hg
      obtain ⟨hfed, hcl, hcd, hcap, hle, hrng, hret, hacct, hhead, hlive⟩ := hwf
      have hwf2 : FanSys.Wf
          { s with f := { s.f with input := { s.f.input with buf := [v] } },
                   fed := s.fed ++ [v] } := by
        refine ⟨?_, hcl, hcd, hcap, hle, hrng, hret, hacct, hhead, ?_⟩
        · simp only
          rw [hfed, hg.1]
          simp
        · intro h2 h3
          have := (hlive h2 h3).1
          rw [hg.2] at this
          exact absurd this (by simp)
      split at h
      · rename_i s2 hw
        simp only [Option.some.injEq] at h
        subst h
        exact FanSys.workerStep_wf _ s2 .queue hwf2 hw
      · simp at h
    · simp at h
  | feed v =>
    obtain ⟨hfed, hcl, hcd, hcap, hle, hrng, hret, hacct, hhead, hlive⟩ := hwf
    simp only [FanSys.step, Chan.send] at h
    cases hic : s.f.input.closed with
    | true => simp [hic] at h
    | false =>
      cases hroom : s.f.input.hasRoom with
      | false => simp [hic, hroom] at h
      | true =>
        simp [hic, hroom] at h
        subst h
        refine ⟨?_, hcl, hcd, hcap, hle, hrng, hret, hacct, hhead, ?_⟩
        · simp only
          rw [hfed]
          simp
        · intro h2 h3
          have := (hlive h2 h3).1
          rw [hic] at this
          exact absurd this (by simp)
  | closeInput =>
    obtain ⟨hfed, hcl, hcd, hcap, hle, hrng, hret, hacct, hhead, hlive⟩ := hwf
    simp only [FanSys.step, Chan.close] at h
    cases hic : s.f.input.closed with
    | true => simp [hic] at h
    | false =>
      simp [hic] at h
      subst h
      refine ⟨hfed, hcl, hcd, hcap, hle, hrng, hret, hacct, hhead, ?_⟩
      intro h2 h3
      have := (hlive h2 h3).1
      rw [hic] at this
      exact absurd this (by simp)
  | cancel =>
    obtain ⟨hfed, hcl, hcd, hcap, hle, hrng, hret, hacct, hhead, hlive⟩ := hwf
    simp only [FanSys.step, Option.some.injEq] at h
    subst h
    refine ⟨hfed, hcl, hcd, hcap, hle, hrng, hret, hacct, hhead, ?_⟩
    intro h2
    simp [Ctx.cancel_isDone] at h2
  | closer =>
    obtain ⟨hfed, hcl, hcd, hcap, hle, hrng, hret, hacct, hhead, hlive⟩ := hwf
    simp only [FanSys.step] at h
    cases hw : s.closerStep with
    | done s2 =>
      simp only [hw, Option.some.injEq] at h
      subst h
      obtain ⟨h1, h2, h3, rfl⟩ := FanSys.closerStep_cases s s2 hw
      refine ⟨hfed, rfl, fun _ => h2, hcap, hle, hrng, ?_, hacct, hhead, hlive⟩
      intro r hr
      rcases hret r hr with ⟨_, _, h4⟩ | h4
      · rw [h1] at h4
        exact absurd h4 (by simp)
      · exact Or.inr h4
    | blocked => simp [hw] at h
    | fault x => simp [hw] at h
  | collect =>
    obtain ⟨hfed, hcl, hcd, hcap, hle, hrng, hret, hacct, hhead, hlive⟩ := hwf
    simp only [FanSys.step] at h
    cases hw : s.collectStep with
    | done s2 =>
      simp only [hw, Option.some.injEq] at h
      subst h
      obtain ⟨hr, h1⟩ := FanSys.collectStep_cases s s2 hw
      have hbuf := hrng hr
      rcases h1 with ⟨hb, hc, rfl⟩ | ⟨err, rest, hb, ⟨msg, rfl, rfl⟩ | ⟨rfl, rfl⟩⟩
      · refine ⟨hfed, hcl, hcd, hcap, hle, ?_, ?_, hacct, hhead, hlive⟩
        · intro h2
          simp at h2
        · intro r h2
          simp only [RunPc.returned.injEq] at h2
          subst h2
          refine Or.inl ⟨rfl, ?_, ?_⟩
          · rw [hb] at hbuf
            cases hrec : s.recorded with
            | nil => rfl
            | cons a l => rw [hrec] at hbuf; simp at hbuf
          · rw [← hcl]
            exact hc
      · refine ⟨hfed, hcl, hcd, hcap, hle, ?_, ?_, hacct, hhead, hlive⟩
        · intro h2
          simp at h2
        · intro r h2
          simp only [RunPc.returned.injEq] at h2
          subst h2
          rw [hb] at hbuf
          cases hrec : s.recorded with
          | nil => rw [hrec] at hbuf; simp at hbuf
          | cons a l =>
            rw [hrec] at hbuf
            simp only [List.map_cons, List.cons.injEq, Option.some.injEq] at hbuf
            exact Or.inr ⟨a, l, by rw [hbuf.1], rfl⟩
      · rw [hb] at hbuf
        cases hrec : s.recorded with
        | nil => rw [hrec] at hbuf; simp at hbuf
        | cons a l => rw [hrec] at hbuf; simp at hbuf
    | blocked => simp [hw] at h
    | fault x => simp [hw] at h

theorem FanSys.start_wf (input : Chan Int) (w : Int) (proc : Int → GoError) (f : FanOut)
    (ctx : Ctx) (h : NewFanOut input w proc = .ok f) :
    (FanSys.start f ctx).Wf ∧ f.processor = proc ∧ f.workers = w := by
  unfold NewFanOut Chan.make at h
  by_cases hw : w < 0 ∨ maxAlloc - hchanSize < 16 * w
  · simp [hw] at h
  · simp only [hw, if_false] at h
    injection h with h
    subst h
    refine ⟨?_, rfl, rfl⟩
    simp [FanSys.Wf, FanSys.start, FanSys.successes, FanSys.failures]

theorem FanSys.fanRun_wf (acts : List FanAction) (s s1 : FanSys) (hwf : s.Wf)
    (h : s.run acts = some s1) : s1.Wf := by
  induction acts generalizing s with
  | nil =>
    simp only [FanSys.run, Option.some.injEq] at h
    subst h
    exact hwf
  | cons a acts ih =>
    simp only [FanSys.run] at h
    cases hst : s.step a with
    | none => simp [hst] at h
    | some s2 =>
      simp only [hst] at h
      exact ih s2 (FanSys.fanStep_wf s s2 a hwf hst) h

theorem FanSys.workerStep_frame (s s1 : FanSys) (c : SelectCase)
    (h : s.workerStep c = .done s1) :
    s1.ctx = s.ctx ∧ s1.f.processor = s.f.processor ∧ s1.f.workers = s.f.workers ∧
    s1.f.input.closed = s.f.input.closed ∧ s1.fed = s.fed ∧ s1.runner = s.runner ∧
    s1.closerDone = s.closerDone := by
  cases c with
  | ctxDone =>
    simp only [FanSys.workerStep] at h
    split at h
    · simp at h
    · split at h
      · simp only [Op.done.injEq] at h
        subst h
        simp
      · simp at h
  | queue =>
    obtain ⟨_, h1⟩ := FanSys.workerStep_queue s s1 h
    rcases h1 with ⟨_, _, rfl⟩ | ⟨v, rest, _, ⟨_, rfl⟩ | ⟨msg, _, _, ⟨_, rfl⟩ | ⟨_, rfl⟩⟩⟩ <;>
      simp

theorem FanSys.step_frame (s s1 : FanSys) (a : FanAction) (h : s.step a = some s1) :
    s1.f.processor = s.f.processor ∧ s1.f.workers = s.f.workers ∧
    (s1.ctx = s.ctx ∨ s1.ctx = s.ctx.cancel) := by
  cases a with
  | worker c =>
    simp only [FanSys.step] at h
    split at h
    · rename_i s2 hw
      simp only [Option.some.injEq] at h
      subst h
      obtain ⟨h1, h2, h3, _⟩ := FanSys.workerStep_frame s s2 c hw
      exact ⟨h2, h3, Or.inl h1⟩
    · simp at h
  | handoff v =>
    simp only [FanSys.step] at h
    split at h
    · split at h
      · rename_i s2 hw
        simp only [Option.some.injEq] at h
        subst h
        obtain ⟨h1, h2, h3, _⟩ := FanSys.workerStep_frame _ s2 .queue hw
        exact ⟨h2, h3, Or.inl h1⟩
      · simp at h
    · simp at h
  | feed v =>
    simp only [FanSys.step] at h
    split at h
    · simp only [Option.some.injEq] at h
      subst h
      simp
    · simp at h
  | closeInput =>
    simp only [FanSys.step] at h
    split at h
    · simp only [Option.some.injEq] at h
      subst h
      simp
    · simp at h
  | cancel =>
    simp only [FanSys.step, Option.some.injEq] at h
    subst h
    simp
  | closer =>
    simp only [FanSys.step] at h
    split at h
    · rename_i s2 hw
      simp only [Option.some.injEq] at h
      subst h
      obtain ⟨_, _, _, rfl⟩ := FanSys.closerStep_cases s s2 hw
      simp
    · simp at h
  | collect =>
    simp only [FanSys.step] at h
    split at h
    · rename_i s2 hw
      simp only [Option.some.injEq] at h
      subst h
      obtain ⟨_, h1⟩ := FanSys.collectStep_cases s s2 hw
      rcases h1 with ⟨_, _, rfl⟩ | ⟨err, rest, _, ⟨msg, _, rfl⟩ | ⟨_, rfl⟩⟩ <;> simp
    · simp at h

theorem FanSys.fanStep_live (s s1 : FanSys) (a : FanAction)
    (hlive : s1.ctx.isDone = false) (h : s.step a = some s1) :
    s.ctx.isDone = false ∧ s1.ctx = s.ctx := by
  rcases (FanSys.step_frame s s1 a h).2.2 with h1 | h1
  · rw [h1] at hlive
    exact ⟨hlive, h1⟩
  · rw [h1, Ctx.cancel_isDone] at hlive
    exact absurd hlive (by simp)

theorem FanSys.run_frame (acts : List FanAction) (s s1 : FanSys)
    (hlive : s1.ctx.isDone = false) (h : s.run acts = some s1) :
    s1.f.processor = s.f.processor ∧ s1.f.workers = s.f.workers ∧
    s.ctx.isDone = false := by
  induction acts generalizing s with
  | nil =>
    simp only [FanSys.run, Option.some.injEq] at h
    subst h
    exact ⟨rfl, rfl, hlive⟩
  | cons a acts ih =>
    simp only [FanSys.run] at h
    cases hst : s.step a with
    | none => simp [hst] at h
    | some s2 =>
      simp only [hst] at h
      obtain ⟨h1, h2, h3⟩ := ih s2 h
      obtain ⟨h4, h5, _⟩ := FanSys.step_frame s s2 a hst
      exact ⟨h1.trans h4, h2.trans h5, (FanSys.fanStep_live s s2 a h3 hst).1⟩

theorem FanSys.workerStep_work (s s1 : FanSys) (h : s.workerStep .queue = .done s1) :
    s1.work < s.work := by
  obtain ⟨hwg, h1⟩ := FanSys.workerStep_queue s s1 h
  rcases h1 with ⟨_, _, rfl⟩ | ⟨v, rest, hb, h2⟩
  · simp only [FanSys.work]
    omega
  · rcases h2 with ⟨_, rfl⟩ | ⟨msg, _, _, ⟨_, rfl⟩ | ⟨_, rfl⟩⟩ <;>
      simp only [FanSys.work, hb, List.length_cons, List.length_append, List.length_nil] <;>
      omega

theorem FanSys.fanStep_drain (s s1 : FanSys) (a : FanAction)
    (hclosed : s.f.input.closed = true) (hlive : s1.ctx.isDone = false)
    (h : s.step a = some s1) :
    s1.work < s.work ∧ s1.f.input.closed = true ∧ s1.fed = s.fed := by
  have hl := (FanSys.fanStep_live s s1 a hlive h).1
  cases a with
  | worker c =>
    simp only [FanSys.step] at h
    split at h
    · rename_i s2 hw
      simp only [Option.some.injEq] at h
      subst h
      obtain ⟨_, _, _, h4, h5, _⟩ := FanSys.workerStep_frame s s2 c hw
      refine ⟨?_, by rw [h4, hclosed], h5⟩
      cases c with
      | queue => exact FanSys.workerStep_work s s2 hw
      | ctxDone =>
        simp only [FanSys.workerStep] at hw
        split at hw
        · simp at hw
        · simp [hl] at hw
    · simp at h
  | handoff v =>
    simp only [FanSys.step] at h
    split at h
    · rename_i hg
      rw [hclosed] at hg
      exact absurd hg.2 (by simp)
    · simp at h
  | feed v =>
    simp [FanSys.step, Chan.send, hclosed] at h
  | closeInput =>
    simp [FanSys.step, Chan.close, hclosed] at h
  | cancel =>
    simp only [FanSys.step, Option.some.injEq] at h
    subst h
    simp [Ctx.cancel_isDone] at hlive
  | closer =>
    simp only [FanSys.step] at h
    split at h
    · rename_i s2 hw
      simp only [Option.some.injEq] at h
      subst h
      obtain ⟨h1, _, _, rfl⟩ := FanSys.closerStep_cases s s2 hw
      refine ⟨?_, hclosed, rfl⟩
      simp only [FanSys.work, h1]
      simp
    · simp at h
  | collect =>
    simp only [FanSys.step] at h
    split at h
    · rename_i s2 hw
      simp only [Option.some.injEq] at h
      subst h
      obtain ⟨hr, h1⟩ := FanSys.collectStep_cases s s2 hw
      rcases h1 with ⟨_, _, rfl⟩ | ⟨err, rest, hb, ⟨msg, _, rfl⟩ | ⟨_, rfl⟩⟩
      · refine ⟨?_, hclosed, rfl⟩
        simp only [FanSys.work, hr]
        omega
      · refine ⟨?_, hclosed, rfl⟩
        simp only [FanSys.work, hr, hb, List.length_cons]
        omega
      · refine ⟨?_, hclosed, rfl⟩
        simp only [FanSys.work, hr, hb, List.length_cons]
        omega
    · simp at h

theorem FanSys.fanRun_drain (sched : List FanAction) (s s1 : FanSys)
    (hclosed : s.f.input.closed = true) (hlive : s1.ctx.isDone = false)
    (h : s.run sched = some s1) :
    sched.length + s1.work ≤ s.work ∧ s1.f.input.closed = true ∧ s1.fed = s.fed := by
  induction sched generalizing s with
  | nil =>
    simp only [FanSys.run, Option.some.injEq] at h
    subst h
    simp [hclosed]
  | cons a sched ih =>
    simp only [FanSys.run] at h
    cases hs2 : s.step a with
    | none => simp [hs2] at h
    | some s2 =>
      simp only [hs2] at h
      have hl2 := (FanSys.run_frame sched s2 s1 hlive h).2.2
      obtain ⟨hw, hc2, hf2⟩ := FanSys.fanStep_drain s s2 a hclosed hl2 hs2
      obtain ⟨hlen, hc1, hf1⟩ := ih s2 hc2 h
      refine ⟨?_, hc1, hf1.trans hf2⟩
      simp only [List.length_cons]
      omega

theorem FanSys.progress (s : FanSys) (hwf : s.Wf) (hclosed : s.f.input.closed = true)
    (hr : s.runner = .ranging) :
    (s.step (.worker .queue)).isSome = true ∨ (s.step .closer).isSome = true ∨
      (s.step .collect).isSome = true := by
  obtain ⟨_, hcl, hcd, _⟩ := hwf
  rcases s with ⟨⟨⟨ib, ic, icl⟩, w, proc, ⟨eb, ec, ecl⟩⟩, ctx, wg, cd, runner, fed, processed,
    recorded, dropped⟩
  simp only at hclosed hr hcl hcd
  subst hclosed hr hcl
  by_cases hwg : wg = 0
  · subst hwg
    cases ecl with
    | false =>
      refine Or.inr (Or.inl ?_)
      simp [FanSys.step, FanSys.closerStep, Chan.close]
    | true =>
      refine Or.inr (Or.inr ?_)
      cases eb with
      | nil => simp [FanSys.step, FanSys.collectStep, Chan.recv]
      | cons err rest =>
        cases err <;> simp [FanSys.step, FanSys.collectStep, Chan.recv]
  · have hecl : ecl = false := by
      cases ecl with
      | false => rfl
      | true => exact absurd (hcd rfl) hwg
    subst hecl
    refine Or.inl ?_
    cases ib with
    | nil => simp [FanSys.step, FanSys.workerStep, Chan.recv, hwg]
    | cons v rest =>
      cases hp : proc v with
      | none => simp [FanSys.step, FanSys.workerStep, Chan.recv, hwg, hp]
      | some msg =>
        by_cases hroom : eb.length < ec <;>
          simp [FanSys.step, FanSys.workerStep, FanSys.record, Chan.recv, Chan.send,
            Chan.hasRoom, hwg, hp, hroom]

theorem FanSys.exists_return (n : Nat) (s : FanSys) (hn : s.work ≤ n) (hwf : s.Wf)
    (hclosed : s.f.input.closed = true) (hlive : s.ctx.isDone = false) :
    ∃ sched s1 r, s.run sched = some s1 ∧ s1.ctx.isDone = false ∧
      s1.runner = .returned r := by
  induction n generalizing s with
  | zero =>
    cases hr : s.runner with
    | returned r => exact ⟨[], s, r, rfl, hlive, hr⟩
    | ranging =>
      simp only [FanSys.work, hr] at hn
      omega
  | succ n ih =>
    cases hr : s.runner with
    | returned r => exact ⟨[], s, r, rfl, hlive, hr⟩
    | ranging =>
      have key : ∀ a, (a = .worker .queue ∨ a = .closer ∨ a = .collect) →
          (s.step a).isSome = true →
          ∃ sched s1 r, s.run sched = some s1 ∧ s1.ctx.isDone = false ∧
            s1.runner = .returned r := by
        intro a ha hsome
        cases hs2 : s.step a with
        | none => simp [hs2] at hsome
        | some s2 =>
          have hctx : s2.ctx = s.ctx := by
            rcases (FanSys.step_frame s s2 a hs2).2.2 with h1 | h1
            · exact h1
            · rcases ha with rfl | rfl | rfl
              · simp only [FanSys.step] at hs2
                split at hs2
                · rename_i s3 hw
                  simp only [Option.some.injEq] at hs2
                  subst hs2
                  exact (FanSys.workerStep_frame s _ .queue hw).1
                · simp at hs2
              · simp only [FanSys.step] at hs2
                split at hs2
                · rename_i s3 hw
                  simp only [Option.some.injEq] at hs2
                  subst hs2
                  obtain ⟨_, _, _, rfl⟩ := FanSys.closerStep_cases s _ hw
                  rfl
                · simp at hs2
              · simp only [FanSys.step] at hs2
                split at hs2
                · rename_i s3 hw
                  simp only [Option.some.injEq] at hs2
                  subst hs2
                  obtain ⟨_, h2⟩ := FanSys.collectStep_cases s _ hw
                  rcases h2 with ⟨_, _, rfl⟩ | ⟨err, rest, _, ⟨msg, _, rfl⟩ | ⟨_, rfl⟩⟩ <;> rfl
                · simp at hs2
          have hl2 : s2.ctx.isDone = false := by rw [hctx]; exact hlive
          obtain ⟨hw, hc2, _⟩ := FanSys.fanStep_drain s s2 a hclosed hl2 hs2
          obtain ⟨sched, s1, r, hrun, hl1, hr1⟩ :=
            ih s2 (by omega) (FanSys.fanStep_wf s s2 a hwf hs2) hc2 hl2
          exact ⟨a :: sched, s1, r, by simp [FanSys.run, hs2, hrun], hl1, hr1⟩
      rcases FanSys.progress s hwf hclosed hr with h1 | h1 | h1
      · exact key _ (Or.inl rfl) h1
      · exact key _ (Or.inr (Or.inl rfl)) h1
      · exact key _ (Or.inr (Or.inr rfl)) h1

theorem FanSys.nil_iff (s : FanSys) (hwf : s.Wf) (r : GoError)
    (hr : s.runner = .returned r) :
    r = none ↔ ∀ v ∈ s.processed, s.f.processor v = none := by
  obtain ⟨_, _, _, _, _, _, hret, _, hhead, _⟩ := hwf
  have hfail : s.failures = [] ↔ ∀ v ∈ s.processed, s.f.processor v = none := by
    simp [FanSys.failures, List.filterMap_eq_nil_iff]
  rw [← hfail]
  constructor
  · intro hnil
    subst hnil
    rcases hret none hr with ⟨_, hrec, _⟩ | ⟨m, rs, h2, _⟩
    · rw [hrec] at hhead
      cases hf : s.failures with
      | nil => rfl
      | cons a l => rw [hf] at hhead; simp at hhead
    · simp at h2
  · intro hf
    rcases hret r hr with ⟨h1, _, _⟩ | ⟨m, rs, _, hrec⟩
    · exact h1
    · rw [hrec, hf] at hhead
      simp at hhead

theorem FanSys.nil_complete (s : FanSys) (hwf : s.Wf) (hw : 1 ≤ s.f.workers)
    (hlive : s.ctx.isDone = false) (hr : s.runner = .returned none) :
    s.f.input.closed = true ∧ s.f.input.buf = [] ∧ s.processed = s.fed ∧ s.wg = 0 ∧
      s.f.errChan.closed = true := by
  obtain ⟨hfed, hcl, hcd, _, _, _, hret, _, _, hlv⟩ := hwf
  have hdone : s.closerDone = true := by
    rcases hret none hr with ⟨_, _, h3⟩ | ⟨m, rs, h2, _⟩
    · exact h3
    · simp at h2
  have hwg := hcd hdone
  obtain ⟨h1, h2⟩ := hlv hlive (by omega)
  refine ⟨h1, h2, ?_, hwg, by rw [hcl, hdone]⟩
  rw [hfed, h2]
  simp

theorem FanSys.err_first (s : FanSys) (hwf : s.Wf) (msg : String)
    (hr : s.runner = .returned (some msg)) :
    s.recorded.head? = some msg ∧ (s.fed.filterMap s.f.processor).head? = some msg := by
  obtain ⟨hfed, _, _, _, _, _, hret, _, hhead, _⟩ := hwf
  have hrec : s.recorded.head? = some msg := by
    rcases hret (some msg) hr with ⟨h1, _, _⟩ | ⟨m, rs, h2, h3⟩
    · simp at h1
    · simp only [Option.some.injEq] at h2
      rw [h3, h2]
      rfl
  refine ⟨hrec, ?_⟩
  rw [hrec] at hhead
  rw [hfed, List.filterMap_append]
  simp only [FanSys.failures] at hhead
  cases hf : List.filterMap s.f.processor s.processed with
  | nil => rw [hf] at hhead; simp at hhead
  | cons a l =>
    rw [hf] at hhead
    simpa using hhead.symm

/-- C11: take a FanOut built by `NewFanOut` with at least one worker, a call of `Run`
and any schedule, the token being live.  If `Run` has returned `r`, then `r` is `nil`
exactly when the processing function returned `nil` for every item handed to it, and
exactly when it returns `nil` for every item sent on the input; a `nil` return means that the input is closed and drained and every item sent has been
processed; a non-nil return is the first error recorded in the error channel and,
with a single worker, the error of the earliest failing item in input order.  Once
the input is closed and while the token stays live, the steps are bounded, a step is
enabled as long as `Run` has not returned, and `Run` returns. -/
theorem FanOut.Run_first_error (input : Chan Int) (w : Int) (proc : Int → GoError)
    (f : FanOut) (ctx : Ctx) (acts : List FanAction) (s : FanSys)
    (hw : 1 ≤ w) (hnew : NewFanOut input w proc = .ok f)
    (hrun : (FanSys.start f ctx).run acts = some s) (hlive : s.ctx.isDone = false) :
    (∀ r, s.runner = .returned r →
      (r = none ↔ ∀ v ∈ s.processed, proc v = none) ∧
      (r = none ↔ ∀ v ∈ s.fed, proc v = none) ∧
      (r = none →
        s.f.input.closed = true ∧ s.f.input.buf = [] ∧ s.processed = s.fed ∧ s.wg = 0) ∧
      (∀ msg, r = some msg →
        s.recorded.head? = some msg ∧
        (w = 1 → (s.fed.filterMap proc).head? = some msg))) ∧
    (s.f.input.closed = true →
      (∀ sched s1, s.run sched = some s1 → s1.ctx.isDone = false →
        sched.length + s1.work ≤ s.work ∧ s1.fed = s.fed) ∧
      (s.runner = .ranging →
        (s.step (.worker .queue)).isSome = true ∨ (s.step .closer).isSome = true ∨
          (s.step .collect).isSome = true) ∧
      ∃ sched s1 r, s.run sched = some s1 ∧ s1.ctx.isDone = false ∧
        s1.runner = .returned r) := by
  obtain ⟨hwf0, hp0, hw0⟩ := FanSys.start_wf input w proc f ctx hnew
  have hwf := FanSys.fanRun_wf acts _ s hwf0 hrun
  obtain ⟨hp1, hw1, _⟩ := FanSys.run_frame acts _ s hlive hrun
  have hproc : s.f.processor = proc := by rw [hp1]; exact hp0
  have hwk : s.f.workers = w := by rw [hw1]; exact hw0
  refine ⟨?_, ?_⟩
  · intro r hr
    have hiff : r = none ↔ ∀ v ∈ s.processed, proc v = none := by
      rw [← hproc]
      exact FanSys.nil_iff s hwf r hr
    refine ⟨hiff, ?_, ?_, ?_⟩
    · constructor
      · intro hnil
        have hall := hiff.mp hnil
        subst hnil
        obtain ⟨_, _, h3, _⟩ :=
          FanSys.nil_complete s hwf (by rw [hwk]; exact hw) hlive hr
        rw [← h3]
        exact hall
      · intro hall
        apply hiff.mpr
        intro v hv
        apply hall
        rw [hwf.1]
        exact List.mem_append_left _ hv
    · intro hnil
      subst hnil
      obtain ⟨h1, h2, h3, h4, _⟩ := FanSys.nil_complete s hwf (by rw [hwk]; exact hw) hlive hr
      exact ⟨h1, h2, h3, h4⟩
    · intro msg hmsg
      subst hmsg
      obtain ⟨h1, h2⟩ := FanSys.err_first s hwf msg hr
      rw [hproc] at h2
      exact ⟨h1, fun _ => h2⟩
  · intro hclosed
    refine ⟨?_, ?_, ?_⟩
    · intro sched s1 hr hl1
      obtain ⟨h1, _, h3⟩ := FanSys.fanRun_drain sched s s1 hclosed hl1 hr
      exact ⟨h1, h3⟩
    · intro hr
      exact FanSys.progress s hwf hclosed hr
    · exact FanSys.exists_return s.work s (Nat.le_refl _) hwf hclosed hlive

/-- Witness of C11: one worker on a closed input holding 1 and 2, the processing
function failing on every item; the worker processes 1 and `Run` reads the error. -/
theorem FanOut.Run_first_error_witness :
    (1 : Int) ≤ 1 ∧
    NewFanOut { buf := [1, 2], cap := 2, closed := true } 1 failAll = .ok (demoFan failAll) ∧
    (FanSys.start (demoFan failAll) Ctx.background).run [.worker .queue, .collect]
      = some (demoFanReturned failAll) ∧
    (demoFanReturned failAll).ctx.isDone = false ∧
    (demoFanReturned failAll).runner = .returned (some "e") ∧
    (demoFanReturned failAll).recorded.head? = some "e" :=
  ⟨by decide, rfl, rfl, rfl, rfl,
    (((FanOut.Run_first_error { buf := [1, 2], cap := 2, closed := true } 1 failAll
      (demoFan failAll) Ctx.background [.worker .queue, .collect] (demoFanReturned failAll)
      (by decide) rfl rfl rfl).1 (some "e") rfl).2.2.2 "e" rfl).1⟩

/-- C12: take a FanOut built by `NewFanOut` with at least one worker and a processing
function that never fails, a call of `Run` and any schedule, the token being live.
The items handed to the processing function are at every moment an initial part of the
items sent, each handed once; no error is recorded or dropped; if `Run` has returned,
it returned `nil`, the input is closed and drained and the items processed are exactly
the items sent.  Once the input is closed, the steps are bounded and `Run` returns
`nil` with every item sent processed exactly once. -/
theorem FanOut.Run_each_item_once (input : Chan Int) (w : Int) (proc : Int → GoError)
    (f : FanOut) (ctx : Ctx) (acts : List FanAction) (s : FanSys)
    (hw : 1 ≤ w) (hproc : ∀ v, proc v = none) (hnew : NewFanOut input w proc = .ok f)
    (hrun : (FanSys.start f ctx).run acts = some s) (hlive : s.ctx.isDone = false) :
    s.fed = s.processed ++ s.f.input.buf ∧
    s.successes = s.processed.length ∧ s.recorded = [] ∧ s.dropped = 0 ∧
    (∀ r, s.runner = .returned r →
      r = none ∧ s.processed = s.fed ∧ s.f.input.closed = true ∧ s.f.input.buf = []) ∧
    (s.f.input.closed = true →
      (∀ sched s1, s.run sched = some s1 → s1.ctx.isDone = false →
        sched.length + s1.work ≤ s.work) ∧
      ∃ sched s1, s.run sched = some s1 ∧ s1.ctx.isDone = false ∧
        s1.runner = .returned none ∧ s1.processed = s.fed ∧
        s1.successes = s.fed.length) := by
  obtain ⟨hwf0, hp0, hw0⟩ := FanSys.start_wf input w proc f ctx hnew
  have facts : ∀ t : FanSys, t.Wf → t.f.processor = proc → t.f.workers = w →
      t.ctx.isDone = false →
      t.successes = t.processed.length ∧ t.recorded = [] ∧ t.dropped = 0 ∧
      (∀ r, t.runner = .returned r →
        r = none ∧ t.processed = t.fed ∧ t.f.input.closed = true ∧ t.f.input.buf = []) := by
    intro t htwf htp htw htl
    have hall : ∀ v ∈ t.processed, t.f.processor v = none := by
      intro v _
      rw [htp]
      exact hproc v
    have hsucc : t.successes = t.processed.length := by
      simp only [FanSys.successes]
      rw [List.filter_eq_self.mpr]
      intro v hv
      rw [hall v hv]
      rfl
    have hfail : t.failures = [] := by
      simp only [FanSys.failures, List.filterMap_eq_nil_iff]
      exact hall
    have hacct := htwf.2.2.2.2.2.2.2.1
    have hhead := htwf.2.2.2.2.2.2.2.2.1
    have hrec : t.recorded = [] := by
      rw [hfail] at hhead
      cases hrc : t.recorded with
      | nil => rfl
      | cons a l => rw [hrc] at hhead; simp at hhead
    refine ⟨hsucc, hrec, ?_, ?_⟩
    · rw [hsucc, hrec] at hacct
      simp only [List.length_nil] at hacct
      omega
    · intro r hr
      have hnil : r = none := (FanSys.nil_iff t htwf r hr).mpr hall
      subst hnil
      obtain ⟨h1, h2, h3, _⟩ :=
        FanSys.nil_complete t htwf (by rw [htw]; exact hw) htl hr
      exact ⟨rfl, h3, h1, h2⟩
  have hwf := FanSys.fanRun_wf acts _ s hwf0 hrun
  obtain ⟨hp1, hw1, _⟩ := FanSys.run_frame acts _ s hlive hrun
  have hsp : s.f.processor = proc := by rw [hp1]; exact hp0
  have hsw : s.f.workers = w := by rw [hw1]; exact hw0
  obtain ⟨h1, h2, h3, h4⟩ := facts s hwf hsp hsw hlive
  refine ⟨hwf.1, h1, h2, h3, h4, ?_⟩
  intro hclosed
  refine ⟨fun sched s1 hr hl1 => (FanSys.fanRun_drain sched s s1 hclosed hl1 hr).1, ?_⟩
  obtain ⟨sched, s1, r, hr1, hl1, hret1⟩ :=
    FanSys.exists_return s.work s (Nat.le_refl _) hwf hclosed hlive
  have hwf1 := FanSys.fanRun_wf sched s s1 hwf hr1
  obtain ⟨hp2, hw2, _⟩ := FanSys.run_frame sched s s1 hl1 hr1
  obtain ⟨_, _, hfed1⟩ := FanSys.fanRun_drain sched s s1 hclosed hl1 hr1
  obtain ⟨g1, _, _, g4⟩ :=
    facts s1 hwf1 (by rw [hp2]; exact hsp) (by rw [hw2]; exact hsw) hl1
  obtain ⟨rfl, g5, _, _⟩ := g4 r hret1
  refine ⟨sched, s1, hr1, hl1, hret1, by rw [g5, hfed1], ?_⟩
  rw [g1, g5, hfed1]

/-- Witness of C12: one worker on a closed input holding 1 and 2, with a processing
function that never fails, run to the return of `Run`. -/
theorem FanOut.Run_each_item_once_witness :
    (1 : Int) ≤ 1 ∧ (∀ v, failNone v = none) ∧
    NewFanOut { buf := [1, 2], cap := 2, closed := true } 1 failNone = .ok (demoFan failNone) ∧
    (FanSys.start (demoFan failNone) Ctx.background).run
        [.worker .queue, .worker .queue, .worker .queue, .closer, .collect]
      = some demoFanDone ∧
    demoFanDone.ctx.isDone = false ∧
    demoFanDone.successes = demoFanDone.processed.length :=
  ⟨by decide, fun _ => rfl, rfl, rfl, rfl,
    (FanOut.Run_each_item_once { buf := [1, 2], cap := 2, closed := true } 1 failNone
      (demoFan failNone) Ctx.background
      [.worker .queue, .worker .queue, .worker .queue, .closer, .collect] demoFanDone
      (by decide) (fun _ => rfl) rfl rfl rfl).2.1⟩

/-- C13, counterexample: one worker (error buffer of capacity 1) on an input holding 1
and 2, the processing function failing on both, `Run` not having read yet: two items
have been dispatched, no call succeeded, one error is recorded in the error channel
and the other took the `default` case. -/
theorem FanOut.dropped_error_not_counted :
    NewFanOut { buf := [1, 2], cap := 2, closed := true } 1 failAll = .ok (demoFan failAll) ∧
    ((FanSys.start (demoFan failAll) Ctx.background).run
        [.worker .queue, .worker .queue]).map
        (fun s => (s.successes, s.recorded, s.f.errChan.buf, s.dropped, s.processed))
      = some (0, ["e"], [some "e"], 1, [1, 2]) ∧
    ((FanSys.start (demoFan failAll) Ctx.background).run
        [.worker .queue, .worker .queue]).map
        (fun s => (s.successes + s.recorded.length, s.processed.length))
      = some (1, 2) := by
  refine ⟨rfl, by decide, by decide⟩

/-- C13, amended: for a FanOut built by `NewFanOut`, a call of `Run` and any schedule,
cancelled or not, the number of calls of the processing function that returned `nil`,
plus the number of errors recorded in the error channel, plus the number of errors
dropped because the error buffer was full, equals the number of items handed to the
processing function. -/
theorem FanOut.Run_accounting (input : Chan Int) (w : Int) (proc : Int → GoError)
    (f : FanOut) (ctx : Ctx) (acts : List FanAction) (s : FanSys)
    (hnew : NewFanOut input w proc = .ok f)
    (hrun : (FanSys.start f ctx).run acts = some s) :
    s.successes + s.recorded.length + s.dropped = s.processed.length ∧
    s.fed = s.processed ++ s.f.input.buf := by
  obtain ⟨hwf0, _, _⟩ := FanSys.start_wf input w proc f ctx hnew
  have hwf := FanSys.fanRun_wf acts _ s hwf0 hrun
  exact ⟨hwf.2.2.2.2.2.2.2.1, hwf.1⟩

/-- Witness of C13 as amended: the state of `demoFanReturned`. -/
theorem FanOut.Run_accounting_witness :
    NewFanOut { buf := [1, 2], cap := 2, closed := true } 1 failAll = .ok (demoFan failAll) ∧
    (FanSys.start (demoFan failAll) Ctx.background).run [.worker .queue, .collect]
      = some (demoFanReturned failAll) ∧
    (demoFanReturned failAll).successes + (demoFanReturned failAll).recorded.length
        + (demoFanReturned failAll).dropped
      = (demoFanReturned failAll).processed.length :=
  ⟨rfl, rfl,
    (FanOut.Run_accounting { buf := [1, 2], cap := 2, closed := true } 1 failAll
      (demoFan failAll) Ctx.background [.worker .queue, .collect] (demoFanReturned failAll)
      rfl rfl).1⟩

theorem FanSys.run_proc (acts : List FanAction) (s s1 : FanSys)
    (h : s.run acts = some s1) : s1.f.processor = s.f.processor := by
  induction acts generalizing s with
  | nil =>
    simp only [FanSys.run, Option.some.injEq] at h
    subst h
    rfl
  | cons a acts ih =>
    simp only [FanSys.run] at h
    cases hst : s.step a with
    | none => simp [hst] at h
    | some s2 =>
      simp only [hst] at h
      exact (ih s2 h).trans (FanSys.step_frame s s2 a hst).1

theorem FanSys.run_append (xs ys : List FanAction) (s s1 s2 : FanSys)
    (h1 : s.run xs = some s1) (h2 : s1.run ys = some s2) :
    s.run (xs ++ ys) = some s2 := by
  induction xs generalizing s with
  | nil =>
    simp only [FanSys.run, Option.some.injEq] at h1
    subst h1
    exact h2
  | cons a xs ih =>
    simp only [FanSys.run] at h1
    cases hst : s.step a with
    | none => simp [hst] at h1
    | some s3 =>
      simp only [hst] at h1
      simp only [List.cons_append, FanSys.run, hst]
      exact ih s3 h1

theorem FanSys.cancelled_workers_leave (n : Nat) (s : FanSys) (hn : s.wg = n)
    (hdone : s.ctx.isDone = true) :
    s.run (List.replicate n (.worker .ctxDone)) = some { s with wg := 0 } := by
  induction n generalizing s with
  | zero =>
    simp only [List.replicate_zero, FanSys.run]
    rw [← hn]
  | succ n ih =>
    have hstep : s.step (.worker .ctxDone) = some { s with wg := n } := by
      simp [FanSys.step, FanSys.workerStep, hn, hdone]
    simp only [List.replicate_succ, FanSys.run, hstep]
    exact ih { s with wg := n } rfl hdone

theorem FanSys.cancelled_return (s : FanSys) (hwf : s.Wf) (hdone : s.ctx.isDone = true) :
    ∃ sched s1 r, s.run sched = some s1 ∧ s1.runner = .returned r := by
  cases hr : s.runner with
  | returned r => exact ⟨[], s, r, rfl, hr⟩
  | ranging =>
    have h1 := FanSys.cancelled_workers_leave s.wg s rfl hdone
    have hwf1 := FanSys.fanRun_wf _ s _ hwf h1
    have key : ∀ t : FanSys, t.Wf → t.wg = 0 → t.closerDone = true →
        t.runner = .ranging → ∃ t1 r, t.step .collect = some t1 ∧ t1.runner = .returned r := by
      intro t htwf htwg htcd htr
      obtain ⟨_, hcl, _, _, _, hrng, _⟩ := htwf
      have hbuf := hrng htr
      rw [htcd] at hcl
      cases hrec : t.recorded with
      | nil =>
        rw [hrec] at hbuf
        exact ⟨{ t with runner := .returned none }, none,
          by simp [FanSys.step, FanSys.collectStep, Chan.recv, htr, hbuf, hcl], rfl⟩
      | cons msg rest =>
        rw [hrec] at hbuf
        exact ⟨{ t with f := { t.f with errChan := { t.f.errChan with buf := rest.map some } },
                        runner := .returned (some msg) }, some msg,
          by simp [FanSys.step, FanSys.collectStep, Chan.recv, htr, hbuf], rfl⟩
    cases hcd : s.closerDone with
    | true =>
      obtain ⟨t1, r, hc, hret⟩ := key { s with wg := 0 } hwf1 rfl hcd hr
      refine ⟨List.replicate s.wg (.worker .ctxDone) ++ [.collect], t1, r, ?_, hret⟩
      exact FanSys.run_append _ _ s _ t1 h1 (by simp [FanSys.run, hc])
    | false =>
      have hecl : s.f.errChan.closed = false := by rw [hwf.2.1, hcd]
      have h2 : FanSys.step { s with wg := 0 } .closer
          = some { s with wg := 0,
                          f := { s.f with errChan := { s.f.errChan with closed := true } },
                          closerDone := true } := by
        simp [FanSys.step, FanSys.closerStep, Chan.close, hcd, hecl]
      have hwf2 := FanSys.fanStep_wf _ _ .closer hwf1 h2
      obtain ⟨t1, r, hc, hret⟩ := key _ hwf2 rfl rfl hr
      refine ⟨List.replicate s.wg (.worker .ctxDone) ++ [.closer, .collect], t1, r, ?_, hret⟩
      exact FanSys.run_append _ _ s _ t1 h1 (by simp [FanSys.run, h2, hc])

/-- C14, counterexample: one worker on an open, empty input under a token that is
already cancelled: the worker leaves through `ctx.Done()`, the error channel is closed
and `Run` returns `nil`. -/
theorem FanOut.Run_cancelled_returns_nil :
    NewFanOut { buf := [], cap := 1, closed := false } 1 failNone = .ok idleFan ∧
    Ctx.isDone { err := some "context canceled" } = true ∧
    (FanSys.start idleFan { err := some "context canceled" }).run
        [.worker .ctxDone, .closer, .collect] = some idleFanDone ∧
    idleFanDone.runner = .returned none :=
  ⟨rfl, rfl, rfl, rfl⟩

/-- C14, amended: for a FanOut built by `NewFanOut` and a token that is already
cancelled when `Run` is called, under any schedule: if `Run` has returned, it returned
`nil` exactly when no item that a consumer processed made the processing function
fail, and otherwise it returned the first error recorded in the error channel, which
is the error of the processing function for an item that a consumer still processed,
never a value coming from the token; with a processing function that never fails it
returned `nil`; and from every state `Run` can return: the consumers leave through
`ctx.Done()`, the error channel is closed and the `range` loop ends. -/
theorem FanOut.Run_cancelled (input : Chan Int) (w : Int) (proc : Int → GoError)
    (f : FanOut) (ctx : Ctx) (acts : List FanAction) (s : FanSys)
    (hnew : NewFanOut input w proc = .ok f) (hdone : ctx.isDone = true)
    (hrun : (FanSys.start f ctx).run acts = some s) :
    s.ctx.isDone = true ∧
    (∀ r, s.runner = .returned r →
      (r = none ↔ ∀ v ∈ s.processed, proc v = none) ∧
      (∀ msg, r = some msg →
        s.recorded.head? = some msg ∧ ∃ v ∈ s.processed, proc v = some msg)) ∧
    ((∀ v, proc v = none) → ∀ r, s.runner = .returned r → r = none) ∧
    (∃ sched s1 r, s.run sched = some s1 ∧ s1.runner = .returned r) := by
  obtain ⟨hwf0, hp0, _⟩ := FanSys.start_wf input w proc f ctx hnew
  have hwf := FanSys.fanRun_wf acts _ s hwf0 hrun
  have hproc : s.f.processor = proc := by
    rw [FanSys.run_proc acts _ s hrun]
    exact hp0
  have hd : s.ctx.isDone = true := by
    cases h : s.ctx.isDone with
    | true => rfl
    | false =>
      have := (FanSys.run_frame acts _ s h hrun).2.2
      simp only [FanSys.start] at this
      rw [hdone] at this
      exact absurd this (by simp)
  have hres : ∀ r, s.runner = .returned r →
      (r = none ↔ ∀ v ∈ s.processed, proc v = none) ∧
      (∀ msg, r = some msg →
        s.recorded.head? = some msg ∧ ∃ v ∈ s.processed, proc v = some msg) := by
    intro r hr
    refine ⟨?_, ?_⟩
    · have h := FanSys.nil_iff s hwf r hr
      rw [hproc] at h
      exact h
    · intro msg hmsg
      subst hmsg
      have h1 := (FanSys.err_first s hwf msg hr).1
      refine ⟨h1, ?_⟩
      have hhead := hwf.2.2.2.2.2.2.2.2.1
      rw [h1] at hhead
      simp only [FanSys.failures, hproc] at hhead
      have hmem : msg ∈ s.processed.filterMap proc := List.mem_of_mem_head? hhead.symm
      obtain ⟨v, hv, hpv⟩ := List.mem_filterMap.1 hmem
      exact ⟨v, hv, hpv⟩
  refine ⟨hd, hres, ?_, FanSys.cancelled_return s hwf hd⟩
  intro hnone r hr
  exact ((hres r hr).1).2 (fun v _ => hnone v)

/-- Witness of C14 as amended: one worker on a closed input holding 1 and 2 under a
cancelled token, the processing function failing on every item: the worker still
takes item 1, and `Run` returns its error "e", not `nil` and not the error of the
token. -/
theorem FanOut.Run_cancelled_witness :
    NewFanOut { buf := [1, 2], cap := 2, closed := true } 1 failAll = .ok (demoFan failAll) ∧
    Ctx.isDone { err := some "context canceled" } = true ∧
    (FanSys.start (demoFan failAll) { err := some "context canceled" }).run
        [.worker .queue, .collect] = some (demoFanCancelled failAll) ∧
    (demoFanCancelled failAll).runner = .returned (some "e") ∧
    (demoFanCancelled failAll).processed = [1] ∧
    ((some "e" = none ↔ ∀ v ∈ (demoFanCancelled failAll).processed, failAll v = none) ∧
      (∀ msg, some "e" = some msg →
        (demoFanCancelled failAll).recorded.head? = some msg ∧
          ∃ v ∈ (demoFanCancelled failAll).processed, failAll v = some msg)) :=
  ⟨rfl, rfl, rfl, rfl, rfl,
    (FanOut.Run_cancelled { buf := [1, 2], cap := 2, closed := true } 1 failAll
      (demoFan failAll) { err := some "context canceled" } [.worker .queue, .collect]
      (demoFanCancelled failAll) rfl rfl rfl).2.1 (some "e") rfl⟩

/-- C16: one worker (error buffer of capacity 1) on an input holding 1 and 2, `Run`
not having read yet.  With a processing function failing on both items, the error of
item 2 takes the `default` case; the channels, the counter, the closing goroutine and
the caller are then exactly as with a processing function failing on item 1 only, and
so they are when `Run` has returned "e": nothing in the program tells that an error
was dropped. -/
theorem FanOut.dropped_error_leaves_no_trace :
    ((FanSys.start (demoFan failAll) Ctx.background).run
        [.worker .queue, .worker .queue]).map FanSys.dropped = some 1 ∧
    ((FanSys.start (demoFan failFirst) Ctx.background).run
        [.worker .queue, .worker .queue]).map FanSys.dropped = some 0 ∧
    ((FanSys.start (demoFan failAll) Ctx.background).run
        [.worker .queue, .worker .queue]).map FanSys.real
      = ((FanSys.start (demoFan failFirst) Ctx.background).run
        [.worker .queue, .worker .queue]).map FanSys.real ∧
    ((FanSys.start (demoFan failAll) Ctx.background).run
        [.worker .queue, .worker .queue, .worker .queue, .closer, .collect]).map FanSys.real
      = some ({ buf := [], cap := 2, closed := true }, { buf := [], cap := 1, closed := true },
              0, true, .returned (some "e")) ∧
    ((FanSys.start (demoFan failFirst) Ctx.background).run
        [.worker .queue, .worker .queue, .worker .queue, .closer, .collect]).map FanSys.real
      = some ({ buf := [], cap := 2, closed := true }, { buf := [], cap := 1, closed := true },
              0, true, .returned (some "e")) :=
  ⟨rfl, rfl, rfl, rfl, rfl⟩

/-- C17, counterexample: one worker on a closed input holding 1 and 2, the processing
function failing on every item: once the worker has processed item 1 and recorded its
error, `Run` reads it and returns while the worker is still in its loop, item 2 is
still in the input and the error channel is open. -/
theorem FanOut.Run_returns_before_barrier :
    NewFanOut { buf := [1, 2], cap := 2, closed := true } 1 failAll = .ok (demoFan failAll) ∧
    (FanSys.start (demoFan failAll) Ctx.background).run [.worker .queue, .collect]
      = some (demoFanReturned failAll) ∧
    (demoFanReturned failAll).real
      = ({ buf := [2], cap := 2, closed := true }, { buf := [], cap := 1, closed := false },
         1, false, .returned (some "e")) ∧
    (FanSys.step (demoFanReturned failAll) (.worker .queue)).map FanSys.processed
      = some [1, 2] :=
  ⟨rfl, rfl, rfl, rfl⟩

/-- C17, amended: for a FanOut built by `NewFanOut`, a call of `Run` and any schedule,
if `Run` has returned `nil` then every consumer has left its loop and the error
channel has been closed; if `Run` has returned an error then it is the first error
recorded in the error channel, read by the `range` loop, with no condition on the
consumers. -/
theorem FanOut.Run_nil_after_barrier (input : Chan Int) (w : Int) (proc : Int → GoError)
    (f : FanOut) (ctx : Ctx) (acts : List FanAction) (s : FanSys)
    (hnew : NewFanOut input w proc = .ok f)
    (hrun : (FanSys.start f ctx).run acts = some s) :
    (s.runner = .returned none →
      s.wg = 0 ∧ s.closerDone = true ∧ s.f.errChan.closed = true ∧ s.recorded = []) ∧
    (∀ msg, s.runner = .returned (some msg) → s.recorded.head? = some msg) := by
  obtain ⟨hwf0, _, _⟩ := FanSys.start_wf input w proc f ctx hnew
  have hwf := FanSys.fanRun_wf acts _ s hwf0 hrun
  refine ⟨?_, fun msg hr => (FanSys.err_first s hwf msg hr).1⟩
  intro hr
  obtain ⟨_, hcl, hcd, _, _, _, hret, _⟩ := hwf
  rcases hret none hr with ⟨_, h2, h3⟩ | ⟨m, rs, h2, _⟩
  · exact ⟨hcd h3, h3, by rw [hcl, h3], h2⟩
  · simp at h2

/-- Witness of C17 as amended: the run of `demoFanDone`, where `Run` returns `nil`. -/
theorem FanOut.Run_nil_after_barrier_witness :
    NewFanOut { buf := [1, 2], cap := 2, closed := true } 1 failNone = .ok (demoFan failNone) ∧
    (FanSys.start (demoFan failNone) Ctx.background).run
        [.worker .queue, .worker .queue, .worker .queue, .closer, .collect]
      = some demoFanDone ∧
    demoFanDone.runner = .returned none ∧
    (demoFanDone.wg = 0 ∧ demoFanDone.closerDone = true ∧
      demoFanDone.f.errChan.closed = true ∧ demoFanDone.recorded = []) :=
  ⟨rfl, rfl, rfl,
    (FanOut.Run_nil_after_barrier { buf := [1, 2], cap := 2, closed := true } 1 failNone
      (demoFan failNone) Ctx.background
      [.worker .queue, .worker .queue, .worker .queue, .closer, .collect] demoFanDone
      rfl rfl).1 rfl⟩

/-! ### Construction of the pool -/

/-- C21, counterexample: for the worker count 2^45 the queue of `2^46` slots of 8
bytes exceeds the allocation limit of the runtime, and for the worker count 2^62 the
Go expression `workers*2` overflows to a negative size; in both cases `make` panics
with "makechan: size out of range" and `NewWorkerPool` returns no pool. -/
theorem NewWorkerPool_make_panics :
    (0 : Int) ≤ 35184372088832 ∧
    maxAlloc - hchanSize < 8 * (35184372088832 * 2) ∧
    NewWorkerPool 35184372088832 = .error .makeSizeOutOfRange ∧
    (0 : Int) ≤ 4611686018427387904 ∧
    wrapInt64 (4611686018427387904 * 2) = -9223372036854775808 ∧
    NewWorkerPool 4611686018427387904 = .error .makeSizeOutOfRange := by
  refine ⟨by decide, by decide, rfl, by decide, by decide, rfl⟩

/-- C21, amended: for every worker count `w ≥ 0` (a Go `int`): if the queue of `2*w`
slots of 8 bytes fits the allocation limit `maxAlloc - hchanSize` of the runtime,
`NewWorkerPool(w)` returns a pool whose task queue is open, empty and of capacity
exactly `2*w`, with `w` workers in their loop, a live token, the stopping flag unset
and no task executed; otherwise `make` panics with "makechan: size out of range"
and no pool is returned. -/
theorem NewWorkerPool_shape (w : Int) (h0 : 0 ≤ w) (h1 : w < 2 ^ 63) :
    (16 * w ≤ maxAlloc - hchanSize →
      ∃ p, NewWorkerPool w = .ok p ∧ p.workers = w ∧ p.tasks.buf = [] ∧
        (p.tasks.cap : Int) = 2 * w ∧ p.tasks.closed = false ∧ (p.wg : Int) = w ∧
        p.ctx.isDone = false ∧ p.stopping = false ∧ p.executed = []) ∧
    (maxAlloc - hchanSize < 16 * w → NewWorkerPool w = .error .makeSizeOutOfRange) := by
  refine ⟨fun hfit => ?_, fun hbig => ?_⟩
  · have hw62 : w < 2 ^ 62 := by
      simp only [maxAlloc, hchanSize] at hfit
      omega
    have hw : wrapInt64 (w * 2) = w * 2 := wrapInt64_eq (w * 2) (by omega) (by omega)
    have hnn : ¬ (w * 2 < 0 ∨ maxAlloc - hchanSize < 8 * (w * 2)) := by
      simp only [maxAlloc, hchanSize] at hfit ⊢
      omega
    refine ⟨WorkerPool.Start
        { workers := w, tasks := { buf := [], cap := (w * 2).toNat, closed := false },
          ctx := Ctx.background, wg := 0, stopping := false, executed := [] }, ?_, ?_⟩
    · simp only [NewWorkerPool, Chan.make, hw, hnn, if_false]
    · refine ⟨rfl, rfl, ?_, rfl, ?_, rfl, rfl, rfl⟩
      · show (((w * 2).toNat : Nat) : Int) = 2 * w
        rw [Int.toNat_of_nonneg (show (0 : Int) ≤ w * 2 by omega)]
        omega
      · show (((0 + w.toNat : Nat)) : Int) = w
        rw [Nat.zero_add, Int.toNat_of_nonneg h0]
  · have hyes : wrapInt64 (w * 2) < 0
        ∨ maxAlloc - hchanSize < 8 * wrapInt64 (w * 2) := by
      by_cases hw62 : w < 2 ^ 62
      · have hw : wrapInt64 (w * 2) = w * 2 := wrapInt64_eq (w * 2) (by omega) (by omega)
        rw [hw]
        right
        omega
      · have hw : wrapInt64 (w * 2) = w * 2 - 2 ^ 64 :=
          wrapInt64_high (w * 2) (by omega) (by omega)
        rw [hw]
        left
        omega
    simp only [NewWorkerPool, Chan.make, hyes, if_true]

/-- Witness of C21 as amended: one worker, and 2^45 workers. -/
theorem NewWorkerPool_shape_witness :
    ((0 : Int) ≤ 1 ∧ (1 : Int) < 2 ^ 63 ∧ 16 * 1 ≤ maxAlloc - hchanSize ∧
      ∃ p, NewWorkerPool 1 = .ok p ∧ p.workers = 1 ∧ p.tasks.buf = [] ∧
        (p.tasks.cap : Int) = 2 * 1 ∧ p.tasks.closed = false ∧ (p.wg : Int) = 1 ∧
        p.ctx.isDone = false ∧ p.stopping = false ∧ p.executed = []) ∧
    ((0 : Int) ≤ 35184372088832 ∧ (35184372088832 : Int) < 2 ^ 63 ∧
      maxAlloc - hchanSize < 16 * 35184372088832 ∧
      NewWorkerPool 35184372088832 = .error .makeSizeOutOfRange) :=
  ⟨⟨by decide, by decide, by decide,
     (NewWorkerPool_shape 1 (by decide) (by decide)).1 (by decide)⟩,
   ⟨by decide, by decide, by decide,
     (NewWorkerPool_shape 35184372088832 (by decide) (by decide)).2 (by decide)⟩⟩

/-! ### Work taken after cancellation -/

/-- C22, counterexample: a pool whose token is cancelled (`Stop` has run its first
statements) with task 1 still queued and one worker in its loop: the receive case of
the `select` of the worker is ready and, when it fires, the worker takes task 1 and
runs it.  Likewise a FanOut consumer under a cancelled token takes item 1 and hands
it to the processing function. -/
theorem work_taken_after_cancel :
    (demoStopping [⟨1, false⟩] 1).ctx.isDone = true ∧
    WorkerPool.workerStep (demoStopping [⟨1, false⟩] 1) .queue
      = .done { demoStopping [] 1 with executed := [⟨1, false⟩] } ∧
    Ctx.isDone { err := some "context canceled" } = true ∧
    (FanSys.step (FanSys.start (demoFan failNone) { err := some "context canceled" })
        (.worker .queue)).map FanSys.processed = some [1] :=
  ⟨rfl, rfl, rfl, rfl⟩

/-- C22, amended: once the token is cancelled, a pool worker or FanOut consumer that
is in its loop has the `ctx.Done()` case of its `select` ready and, when that case
fires, leaves the loop taking nothing (queue, input and logs unchanged); a worker or
consumer that has left takes nothing more; but the receive case stays ready while the
queue or input holds an entry, and when it fires the entry is taken and started. -/
theorem cancelled_worker_may_leave (p : WorkerPool) (s : FanSys)
    (hp : p.ctx.isDone = true) (hs : s.ctx.isDone = true) :
    (p.wg ≠ 0 → p.workerStep .ctxDone = .done { p with wg := p.wg - 1 }) ∧
    (p.wg = 0 → ∀ c, p.workerStep c = .blocked) ∧
    (p.wg ≠ 0 → ∀ t rest, p.tasks.buf = t :: rest → t.panics = false →
      p.workerStep .queue
        = .done { p with tasks := { p.tasks with buf := rest },
                         executed := p.executed ++ [t] }) ∧
    (s.wg ≠ 0 → s.workerStep .ctxDone = .done { s with wg := s.wg - 1 }) ∧
    (s.wg = 0 → ∀ c, s.workerStep c = .blocked) ∧
    (s.wg ≠ 0 → ∀ v rest, s.f.input.buf = v :: rest → s.f.processor v = none →
      s.workerStep .queue
        = .done { s with f := { s.f with input := { s.f.input with buf := rest } },
                         processed := s.processed ++ [v] }) := by
  refine ⟨?_, ?_, ?_, ?_, ?_, ?_⟩
  · intro hwg
    simp [WorkerPool.workerStep, hwg, hp]
  · intro hwg c
    simp [WorkerPool.workerStep, hwg]
  · intro hwg t rest hb ht
    simp [WorkerPool.workerStep, Chan.recv, hwg, hb, ht]
  · intro hwg
    simp [FanSys.workerStep, hwg, hs]
  · intro hwg c
    simp [FanSys.workerStep, hwg]
  · intro hwg v rest hb hv
    simp [FanSys.workerStep, Chan.recv, hwg, hb, hv]

/-- Witness of C22 as amended: the stopping pool with one worker and the FanOut of
`demoFan` under a cancelled token. -/
theorem cancelled_worker_may_leave_witness :
    (demoStopping [⟨1, false⟩] 1).ctx.isDone = true ∧
    (FanSys.start (demoFan failNone) { err := some "context canceled" }).ctx.isDone = true ∧
    WorkerPool.workerStep (demoStopping [⟨1, false⟩] 1) .ctxDone
      = .done (demoStopping [⟨1, false⟩] 0) :=
  ⟨rfl, rfl,
    (cancelled_worker_may_leave (demoStopping [⟨1, false⟩] 1)
      (FanSys.start (demoFan failNone) { err := some "context canceled" }) rfl rfl).1
      (by decide)⟩

/-! ### Shutdown of the pool -/

theorem WorkerPool.workersRun_leave (n : Nat) (p : WorkerPool) (hn : p.wg = n)
    (hd : p.ctx.isDone = true) :
    p.workersRun (List.replicate n .ctxDone) = .done { p with wg := 0 } := by
  induction n generalizing p with
  | zero =>
    simp only [List.replicate_zero, WorkerPool.workersRun]
    rw [← hn]
  | succ n ih =>
    have hstep : p.workerStep .ctxDone = .done { p with wg := n } := by
      simp [WorkerPool.workerStep, hn, hd]
    simp only [List.replicate_succ, WorkerPool.workersRun, hstep]
    exact ih { p with wg := n } rfl hd

/-- C25: for a pool built by `NewWorkerPool` and any schedule: the wait of `Stop` can
complete only when no worker is in its loop; once a `Stop` has returned no worker is
in its loop and no worker step is possible; a worker leaves its loop only on a
receive from the closed and drained queue or on `ctx.Done()`; a whole call of `Stop`
that returns leaves no worker in its loop; and on a pool not yet stopped the call of
`Stop` does return once the workers have taken their `ctx.Done()` case. -/
theorem WorkerPool.Stop_waits_for_workers (w : Int) (p : WorkerPool)
    (acts : List PoolAction) (s : PoolSys) (hnew : NewWorkerPool w = .ok p)
    (hrun : (PoolSys.init p).run acts = some s) :
    (∀ s1, s.step .stopReturn = some s1 → s.pool.wg = 0 ∧ s1.pool.wg = 0) ∧
    (s.stopped = true → s.pool.wg = 0 ∧ ∀ c, s.pool.workerStep c = .blocked) ∧
    (∀ c p1, s.pool.workerStep c = .done p1 → p1.wg < s.pool.wg →
      (c = .queue ∧ s.pool.tasks.buf = [] ∧ s.pool.tasks.closed = true) ∨
      (c = .ctxDone ∧ s.pool.ctx.isDone = true)) ∧
    (∀ sched p1, s.pool.Stop sched = .done p1 → p1.wg = 0) ∧
    (s.pool.stopping = false →
      ∃ p1, s.pool.Stop (List.replicate s.pool.wg .ctxDone) = .done p1 ∧ p1.wg = 0) := by
  have hinv := PoolSys.run_inv w.toNat acts _ s (NewWorkerPool_inv w p hnew) hrun
  obtain ⟨_, hret, hlive⟩ := hinv
  refine ⟨?_, ?_, ?_, ?_, ?_⟩
  · intro s1 h
    simp only [PoolSys.step, WorkerPool.stopWait] at h
    by_cases hr : s.stopReturns < s.stopCalls
    · by_cases hwg : s.pool.wg = 0
      · simp only [hr, hwg, if_true, Option.some.injEq] at h
        subst h
        exact ⟨hwg, hwg⟩
      · simp [hr, hwg] at h
    · simp [hr] at h
  · intro hst
    have hwg : s.pool.wg = 0 := hret (by simpa [PoolSys.stopped] using hst)
    exact ⟨hwg, fun c => by simp [WorkerPool.workerStep, hwg]⟩
  · intro c p1 h hlt
    simp only [WorkerPool.workerStep] at h
    by_cases hwg : s.pool.wg = 0
    · simp [hwg] at h
    · simp only [hwg, if_false] at h
      cases c with
      | queue =>
        simp only [Chan.recv] at h
        cases hb : s.pool.tasks.buf with
        | nil =>
          simp only [hb] at h
          cases hcl : s.pool.tasks.closed with
          | true => exact Or.inl ⟨rfl, rfl, rfl⟩
          | false => simp [hcl] at h
        | cons t rest =>
          simp only [hb] at h
          cases hp : t.panics with
          | true => simp [hp] at h
          | false =>
            simp [hp] at h
            subst h
            simp at hlt
      | ctxDone =>
        cases hd : s.pool.ctx.isDone with
        | true => exact Or.inr ⟨rfl, rfl⟩
        | false => simp [hd] at h
  · intro sched p1 h
    simp only [WorkerPool.Stop] at h
    cases hb : s.pool.stopBegin with
    | error f => simp [hb] at h
    | ok p2 =>
      simp only [hb] at h
      cases hw : p2.workersRun sched with
      | blocked => simp [hw] at h
      | fault f => simp [hw] at h
      | done p3 =>
        simp only [hw, WorkerPool.stopWait] at h
        by_cases hwg : p3.wg = 0
        · simp only [hwg, if_true, Op.done.injEq] at h
          rw [← h]
          exact hwg
        · simp [hwg] at h
  · intro hst
    have hopen := (hlive hst).2.2
    refine ⟨{ s.pool with stopping := true, ctx := s.pool.ctx.cancel,
                           tasks := { s.pool.tasks with closed := true }, wg := 0 }, ?_, rfl⟩
    have hb : s.pool.stopBegin
        = .ok { s.pool with stopping := true, ctx := s.pool.ctx.cancel,
                            tasks := { s.pool.tasks with closed := true } } := by
      simp [WorkerPool.stopBegin, Chan.close, hopen]
    have hl := WorkerPool.workersRun_leave s.pool.wg
      { s.pool with stopping := true, ctx := s.pool.ctx.cancel,
                    tasks := { s.pool.tasks with closed := true } }
      rfl (Ctx.cancel_isDone _)
    simp only [WorkerPool.Stop, hb]
    rw [hl]
    simp [WorkerPool.stopWait]

/-- Witness of C25: the pool of `NewWorkerPool(1)` stopped with task 1 queued. -/
theorem WorkerPool.Stop_waits_for_workers_witness :
    NewWorkerPool 1 = .ok demoPool ∧
    (PoolSys.init demoPool).run
        [.submit ⟨1, false⟩ .queue, .stopBegin, .worker .ctxDone, .stopReturn]
      = some { pool := demoStopping [⟨1, false⟩] 0, accepted := [⟨1, false⟩],
               stopCalls := 1, stopReturns := 1 } ∧
    (demoStopping [⟨1, false⟩] 0).wg = 0 :=
  ⟨rfl, rfl,
    ((WorkerPool.Stop_waits_for_workers 1 demoPool
      [.submit ⟨1, false⟩ .queue, .stopBegin, .worker .ctxDone, .stopReturn]
      { pool := demoStopping [⟨1, false⟩] 0, accepted := [⟨1, false⟩],
        stopCalls := 1, stopReturns := 1 } rfl rfl).2.1 rfl).1⟩

/-! ## Timeouts -/

theorem WithTimeout_live (parent : Nat → Ctx) (T : Nat)
    (hp : ∀ k, (parent k).isDone = false) (k : Nat) :
    WithTimeout parent T k
      = if T ≤ k then { err := some deadlineExceeded } else { err := none } := by
  induction k with
  | zero =>
    by_cases hT : T = 0
    · simp [WithTimeout, hp, hT]
    · simp [WithTimeout, hp, hT]
  | succ k ih =>
    by_cases h1 : T ≤ k
    · have h2 : T ≤ k + 1 := by omega
      simp [WithTimeout, ih, h1, h2, Ctx.isDone]
    · have hq : (parent (k + 1)).err.isSome = false := hp (k + 1)
      by_cases h2 : T ≤ k + 1
      · simp [WithTimeout, ih, h1, h2, Ctx.isDone, hq]
      · simp [WithTimeout, ih, h1, h2, Ctx.isDone, hq]

theorem workOrDone_threshold (ctx : Nat → Ctx) (T : Nat)
    (hc : ∀ k, ctx k = if T ≤ k then { err := some deadlineExceeded } else { err := none }) :
    ∀ fuel k, k ≤ T →
      (T < k + fuel → workOrDone ctx fuel k = (T, [some deadlineExceeded]))
      ∧ (k + fuel < T → workOrDone ctx fuel k = (k + fuel, [none])) := by
  intro fuel
  induction fuel with
  | zero =>
    intro k hk
    refine ⟨fun h => by omega, fun h => ?_⟩
    have : ¬ T ≤ k := by omega
    simp [workOrDone, hc, this, Ctx.isDone]
  | succ fuel ih =>
    intro k hk
    by_cases hkT : k = T
    · subst hkT
      refine ⟨fun _ => ?_, fun h => by omega⟩
      simp [workOrDone, hc, Ctx.isDone]
    · have hlt : ¬ T ≤ k := by omega
      have hr := ih (k + 1) (by omega)
      refine ⟨fun h => ?_, fun h => ?_⟩
      · have := hr.1 (by omega)
        simp [workOrDone, hc, hlt, Ctx.isDone, this]
      · have := hr.2 (by omega)
        simp [workOrDone, hc, hlt, Ctx.isDone, this]
        omega

/-- C23: an operation that takes `D` ticks, run under a token made by `WithTimeout`
with timeout `T` from a parent that stays live, returns the deadline error (at tick
`T`) when `T < D` and its own result nil (at tick `D`) when `D < T`; so
`TimeoutRespected` returns the deadline error after one second, and the call of
`DoWork` in `Parent` returns nil after two seconds. -/
theorem timeout_discipline (parent : Nat → Ctx) (T D second : Nat)
    (hp : ∀ k, (parent k).isDone = false) (hs : 0 < second) :
    (T < D → workOrDone (WithTimeout parent T) D 0 = (T, [some deadlineExceeded]))
    ∧ (D < T → workOrDone (WithTimeout parent T) D 0 = (D, [none]))
    ∧ TimeoutRespected second = (second, [some deadlineExceeded])
    ∧ Parent second = (2 * second, [none]) := by
  have key : ∀ (q : Nat → Ctx) (t d : Nat), (∀ k, (q k).isDone = false) →
      (t < d → workOrDone (WithTimeout q t) d 0 = (t, [some deadlineExceeded]))
      ∧ (d < t → workOrDone (WithTimeout q t) d 0 = (d, [none])) := by
    intro q t d hq
    have h := workOrDone_threshold (WithTimeout q t) t (WithTimeout_live q t hq) d 0
      (Nat.zero_le _)
    refine ⟨fun h1 => h.1 (by omega), fun h2 => ?_⟩
    have := h.2 (by omega)
    simpa using this
  refine ⟨(key parent T D hp).1, (key parent T D hp).2, ?_, ?_⟩
  · exact (key (fun _ => Ctx.background) second (2 * second) (fun _ => rfl)).1 (by omega)
  · exact (key (fun _ => Ctx.background) (3 * second) (2 * second) (fun _ => rfl)).2 (by omega)

theorem timeout_discipline_witness :
    (50 < 200 → workOrDone (WithTimeout (fun _ => Ctx.background) 50) 200 0
        = (50, [some deadlineExceeded]))
    ∧ (200 < 500 → workOrDone (WithTimeout (fun _ => Ctx.background) 500) 200 0
        = (200, [none]))
    ∧ TimeoutRespected 1000 = (1000, [some deadlineExceeded])
    ∧ Parent 1000 = (2 * 1000, [none]) :=
  ⟨(timeout_discipline (fun _ => Ctx.background) 50 200 1000 (fun _ => rfl) (by decide)).1,
   (timeout_discipline (fun _ => Ctx.background) 500 200 1000 (fun _ => rfl) (by decide)).2.1,
   (timeout_discipline (fun _ => Ctx.background) 50 200 1000 (fun _ => rfl) (by decide)).2.2.1,
   (timeout_discipline (fun _ => Ctx.background) 50 200 1000 (fun _ => rfl) (by decide)).2.2.2⟩

/-! ## SafeSelect -/

/-- C28: on `context.Background()` and two open channels that hold no value,
`SafeSelect` has no ready case when its `select` is entered (the timer it has just
made has not fired), so it takes the `default` case: its only result is `(0, nil)`,
returned at once, and `(0, context.DeadlineExceeded)` is not among its results. -/
theorem SafeSelect_takes_default :
    Ctx.background.isDone = false
    ∧ recvCase idleChan = none
    ∧ SafeSelect Ctx.background false idleChan idleChan = [(0, none)]
    ∧ (0, some deadlineExceeded) ∉ SafeSelect Ctx.background false idleChan idleChan := by
  decide

/-! ## SafeResource -/

theorem SafeResource.Update_distinct (h : ResHeap) (r other : Nat) (hne : r ≠ other)
    (hr : (h r).locked = false) (ho : (h other).locked = false) :
    ∃ h1, SafeResource.Update h r other = .done (true, h1)
      ∧ (h1 r).value = wrapInt64 ((h r).value + (h other).value)
      ∧ (h1 r).locked = false ∧ (h1 other).locked = false
      ∧ (h1 other).value = (h other).value := by
  have hne2 : other ≠ r := fun e => hne e.symm
  by_cases hlt : other < r
  · simp [SafeResource.Update, ResHeap.lock, ResHeap.unlock, hlt, hr, ho, Function.update,
      hne, hne2]
  · simp [SafeResource.Update, ResHeap.lock, ResHeap.unlock, hlt, hr, ho, Function.update,
      hne, hne2]

/-- C29: the resource at address 0 has a free mutex, and `r.Update(r)` on it never
returns: `first` and `second` are the same resource, so the second `Lock` waits for the
mutex that the first `Lock` of the same call holds.  On the two distinct resources at
addresses 0 and 1 the call returns true. -/
theorem Update_self_deadlocks :
    (freeHeap 0).locked = false
    ∧ SafeResource.Update freeHeap 0 0 = .blocked
    ∧ (match SafeResource.Update freeHeap 0 1 with
       | .done (b, h) => some (b, h 0, h 1)
       | _ => none)
        = some (true, ({ locked := false, value := 2 } : SafeResource),
            ({ locked := false, value := 1 } : SafeResource)) := by
  refine ⟨rfl, rfl, ?_⟩
  decide

/-! ## ProcessUser -/

/-- C30: for the user of the benchmarks (all three flags set), when the loop over
the map `status` visits the keys in the order Admin, Ativo, Premium, `ProcessUser`
returns the full name "John Doe (Admin) (Ativo) (Premium)", which is not the first
result "John Doe (Ativo) (Admin) (Premium)" of `ProcessUserData`, and not the full name
that `ProcessUser` returns for the same input when the loop visits the keys in the
order Ativo, Admin, Premium; the addresses agree. -/
theorem ProcessUser_label_order :
    (ProcessUser johnDoe 30 ["Admin", "Ativo", "Premium"]).FullName
        = "John Doe (Admin) (Ativo) (Premium)"
    ∧ (ProcessUserData "John" "Doe" "john@example.com" "123456789" "Street 1" "City" "State"
        "Country" "12345" 30 true true true).1 = "John Doe (Ativo) (Admin) (Premium)"
    ∧ (ProcessUser johnDoe 30 ["Admin", "Ativo", "Premium"]).FullName
        ≠ (ProcessUserData "John" "Doe" "john@example.com" "123456789" "Street 1" "City" "State"
            "Country" "12345" 30 true true true).1
    ∧ (ProcessUser johnDoe 30 ["Admin", "Ativo", "Premium"]).FullName
        ≠ (ProcessUser johnDoe 30 ["Ativo", "Admin", "Premium"]).FullName
    ∧ (ProcessUser johnDoe 30 ["Admin", "Ativo", "Premium"]).FullAddress
        = (ProcessUserData "John" "Doe" "john@example.com" "123456789" "Street 1" "City" "State"
            "Country" "12345" 30 true true true).2.1
    ∧ (ProcessUser johnDoe 30 ["Admin", "Ativo", "Premium"]).IsValid = true := by
  decide

/-! ## BufferedPipe -/

/-- C26: a pipe of capacity 1 whose input receives 1, then 2 before the consumer
has taken anything, and is then closed, delivers 1 alone and closes its output: the
value 2, received from the input while the buffer was full, is discarded. -/
theorem BufferedPipe_drops_when_full :
    (NewBufferedPipe 1).run [.send 1, .send 2, .close]
      = some { buffer := [1], capacity := 1, received := [1, 2], delivered := [1],
               outputClosed := true } := by
  decide

/-! ## SafeChannel under its RWMutex -/

theorem SafeChanSys.sender_unlocked (s : SafeChanSys) (hi : s.Inv) (i : Nat) (pc : SendPc)
    (hg : s.senders[i]? = some pc) :
    s.writer = false ∧ s.closers = [] ∧ s.sc.ch.closed = s.sc.closed := by
  have hmem : pc ∈ s.senders := List.getElem?_mem hg
  have hne : s.senders ≠ [] := List.ne_nil_of_mem hmem
  have hwf : s.writer = false := by
    cases hw : s.writer with
    | false => rfl
    | true => exact absurd (hi.2.2.1 hw).1 hne
  exact ⟨hwf, hi.2.1 hwf⟩

theorem SafeChanSys.lockStep_inv (s s1 : SafeChanSys) (a : SafeAct) (hi : s.Inv)
    (h : s.step a = .done s1) : s1.Inv := by
  have hi0 := hi
  obtain ⟨hr, hw0, hw1, hs⟩ := hi
  cases a with
  | sendEnter value =>
    cases hw : s.writer with
    | true => simp [SafeChanSys.step, hw] at h
    | false =>
      simp [SafeChanSys.step, hw] at h
      subst h
      refine ⟨by simp [hr], fun _ => hw0 hw, fun h1 => ?_, ?_⟩
      · simp [hw] at h1
      · intro v hv
        simp at hv
        exact hs v hv
  | sendStep i handoff =>
    simp only [SafeChanSys.step] at h
    cases hg : s.senders[i]? with
    | none => simp [hg] at h
    | some pc =>
      obtain ⟨hwf, hc0, hcc⟩ := SafeChanSys.sender_unlocked s hi0 i pc hg
      have hlt : i < s.senders.length := (List.getElem?_eq_some.1 hg).1
      cases pc with
      | check value =>
        cases hcl : s.sc.closed with
        | true =>
          simp [hg, hcl] at h
          subst h
          refine ⟨by simp [hr], fun _ => hw0 hwf, fun h1 => ?_, ?_⟩
          · simp [hwf] at h1
          · intro v hv
            rcases List.mem_or_eq_of_mem_set hv with hv | hv
            · exact hs v hv
            · cases hv
        | false =>
          simp [hg, hcl] at h
          subst h
          refine ⟨by simp [hr], fun _ => hw0 hwf, fun h1 => ?_, ?_⟩
          · simp [hwf] at h1
          · intro v _
            exact hcl
      | send value =>
        have hop : s.sc.closed = false := hs value (List.getElem?_mem hg)
        have hch : s.sc.ch.closed = false := by rw [hcc]; exact hop
        cases handoff with
        | true =>
          simp [hg, hch] at h
          subst h
          refine ⟨by simp [hr], fun _ => hw0 hwf, fun h1 => ?_, ?_⟩
          · simp [hwf] at h1
          · intro v _
            exact hop
        | false =>
          simp only [hg, Chan.send, hch] at h
          cases hroom : s.sc.ch.hasRoom with
          | false => simp [hroom] at h
          | true =>
            simp [hroom] at h
            subst h
            refine ⟨by simp [hr], fun _ => ⟨hc0, ?_⟩, fun h1 => ?_, ?_⟩
            · simp [hch, hop]
            · simp [hwf] at h1
            · intro v _
              exact hop
      | unlock err =>
        simp [hg] at h
        subst h
        refine ⟨?_, fun _ => hw0 hwf, fun h1 => ?_, ?_⟩
        · simp [hr, List.length_eraseIdx, hlt]
        · simp [hwf] at h1
        · intro v hv
          exact hs v (List.mem_of_mem_eraseIdx hv)
  | closeEnter =>
    cases hw : s.writer with
    | true => simp [SafeChanSys.step, hw] at h
    | false =>
      by_cases hrd : 0 < s.readers
      · simp [SafeChanSys.step, hw, hrd] at h
      · have hr0 : s.readers = 0 := by omega
        simp [SafeChanSys.step, hw, hr0] at h
        subst h
        obtain ⟨hc0, hcc⟩ := hw0 hw
        have hnil : s.senders = [] := List.length_eq_zero.1 (by omega)
        refine ⟨by simp [hnil], fun h1 => ?_, fun _ => ⟨hnil, Or.inl ⟨?_, hcc⟩⟩, hs⟩
        · simp at h1
        · simp [hc0]
  | closeStep j =>
    simp only [SafeChanSys.step] at h
    cases hg : s.closers[j]? with
    | none => simp [hg] at h
    | some pc =>
      have hwt : s.writer = true := by
        cases hw : s.writer with
        | true => rfl
        | false =>
          have := (hw0 hw).1
          rw [this] at hg
          simp at hg
      obtain ⟨hnil, hcases⟩ := hw1 hwt
      rcases hcases with ⟨hcl, hcc⟩ | ⟨hcl, hflag, hopen⟩ | ⟨hcl, hcc⟩
      · rw [hcl] at hg
        cases j with
        | succ j => simp at hg
        | zero =>
          simp at hg
          subst hg
          cases hclosed : s.sc.closed with
          | false =>
            simp [hcl, hclosed] at h
            subst h
            refine ⟨hr, fun h1 => ?_, fun _ => ⟨hnil, Or.inr (Or.inl ⟨by simp [hcl], rfl, ?_⟩)⟩, ?_⟩
            · simp [hwt] at h1
            · simp [hcc, hclosed]
            · intro v hv
              rw [hnil] at hv
              simp at hv
          | true =>
            simp [hcl, hclosed] at h
            subst h
            refine ⟨hr, fun h1 => ?_, fun _ => ⟨hnil, Or.inr (Or.inr ⟨by simp [hcl], hcc⟩)⟩, hs⟩
            simp [hwt] at h1
      · rw [hcl] at hg
        cases j with
        | succ j => simp at hg
        | zero =>
          simp at hg
          subst hg
          simp [hcl, Chan.close, hopen] at h
          subst h
          refine ⟨hr, fun h1 => ?_, fun _ => ⟨hnil, Or.inr (Or.inr ⟨by simp [hcl], ?_⟩)⟩, ?_⟩
          · simp [hwt] at h1
          · simp [hflag]
          · intro v hv
            rw [hnil] at hv
            simp at hv
      · rw [hcl] at hg
        cases j with
        | succ j => simp at hg
        | zero =>
          simp at hg
          subst hg
          simp [hcl] at h
          subst h
          refine ⟨hr, fun _ => ⟨by simp [hcl], hcc⟩, fun h1 => ?_, hs⟩
          simp at h1
  | recv =>
    simp only [SafeChanSys.step, Chan.recv] at h
    cases hb : s.sc.ch.buf with
    | nil =>
      cases hcl : s.sc.ch.closed with
      | false => simp [hb, hcl] at h
      | true =>
        simp [hb, hcl] at h
        subst h
        exact ⟨hr, hw0, hw1, hs⟩
    | cons v rest =>
      simp [hb] at h
      subst h
      exact ⟨hr, hw0, hw1, hs⟩

theorem SafeChanSys.step_safe (s : SafeChanSys) (a : SafeAct) (f : Fault) (hi : s.Inv) :
    s.step a ≠ .fault f := by
  have hi0 := hi
  obtain ⟨hr, hw0, hw1, hs⟩ := hi
  cases a with
  | sendEnter value =>
    cases hw : s.writer <;> simp [SafeChanSys.step, hw]
  | sendStep i handoff =>
    simp only [SafeChanSys.step]
    cases hg : s.senders[i]? with
    | none => simp
    | some pc =>
      obtain ⟨hwf, hc0, hcc⟩ := SafeChanSys.sender_unlocked s hi0 i pc hg
      cases pc with
      | check value => cases hcl : s.sc.closed <;> simp
      | send value =>
        have hop : s.sc.closed = false := hs value (List.getElem?_mem hg)
        have hch : s.sc.ch.closed = false := by rw [hcc]; exact hop
        cases handoff with
        | true => simp [hch]
        | false =>
          cases hroom : s.sc.ch.hasRoom <;> simp [Chan.send, hch, hroom]
      | unlock err => simp
  | closeEnter =>
    cases hw : s.writer with
    | true => simp [SafeChanSys.step, hw]
    | false =>
      by_cases hrd : 0 < s.readers
      · simp [SafeChanSys.step, hw, hrd]
      · simp [SafeChanSys.step, hw, hrd]
  | closeStep j =>
    simp only [SafeChanSys.step]
    cases hg : s.closers[j]? with
    | none => simp
    | some pc =>
      have hwt : s.writer = true := by
        cases hw : s.writer with
        | true => rfl
        | false =>
          have := (hw0 hw).1
          rw [this] at hg
          simp at hg
      obtain ⟨hnil, hcases⟩ := hw1 hwt
      rcases hcases with ⟨hcl, hcc⟩ | ⟨hcl, hflag, hopen⟩ | ⟨hcl, hcc⟩
      · rw [hcl] at hg
        cases j with
        | succ j => simp at hg
        | zero =>
          simp at hg
          subst hg
          cases hclosed : s.sc.closed <;> simp
      · rw [hcl] at hg
        cases j with
        | succ j => simp at hg
        | zero =>
          simp at hg
          subst hg
          simp [Chan.close, hopen]
      · rw [hcl] at hg
        cases j with
        | succ j => simp at hg
        | zero =>
          simp at hg
          subst hg
          simp
  | recv =>
    simp only [SafeChanSys.step, Chan.recv]
    cases hb : s.sc.ch.buf with
    | nil => cases hcl : s.sc.ch.closed <;> simp
    | cons v rest => simp

theorem SafeChanSys.init_inv (buffer : Int) (sc0 : SafeChannel)
    (hnew : NewSafeChannel buffer = .ok sc0) : (SafeChanSys.init sc0).Inv := by
  unfold NewSafeChannel Chan.make at hnew
  by_cases hb : buffer < 0 ∨ maxAlloc - hchanSize < 8 * buffer
  · simp [hb] at hnew
  · simp [hb] at hnew
    subst hnew
    simp [SafeChanSys.Inv, SafeChanSys.init]

theorem SafeChanSys.run_safe (acts : List SafeAct) (s : SafeChanSys) (hi : s.Inv) :
    (∀ f, s.run acts ≠ .fault f) ∧ ∀ s1, s.run acts = .done s1 → s1.Inv := by
  induction acts generalizing s with
  | nil =>
    refine ⟨fun f => by simp [SafeChanSys.run], fun s1 h => ?_⟩
    simp [SafeChanSys.run] at h
    subst h
    exact hi
  | cons a as ih =>
    cases hstep : s.step a with
    | done s2 =>
      have hi2 := SafeChanSys.lockStep_inv s s2 a hi hstep
      simpa [SafeChanSys.run, hstep] using ih s2 hi2
    | blocked => simp [SafeChanSys.run, hstep]
    | fault f => exact absurd hstep (SafeChanSys.step_safe s a f hi)

/-- C24: in every interleaving of calls of `Send` and `Close` (and receives) on a
channel made by `NewSafeChannel`, no step panics; and in every state reached, a call
of `Send` that stands at its statement `sc.ch <- value` finds the channel open, no
call of `Close` holds the lock, and whatever step comes next does not panic. -/
theorem SafeChannel.Send_Close_no_race (buffer : Int) (sc0 : SafeChannel)
    (acts : List SafeAct) (hnew : NewSafeChannel buffer = .ok sc0) :
    (∀ f, (SafeChanSys.init sc0).run acts ≠ .fault f)
    ∧ ∀ s, (SafeChanSys.init sc0).run acts = .done s →
        (∀ (i : Nat) (value : Int), s.senders[i]? = some (SendPc.send value) →
            s.sc.ch.closed = false ∧ s.sc.closed = false ∧ s.writer = false ∧ s.closers = [])
        ∧ (∀ a f, s.step a ≠ .fault f) := by
  have h0 := SafeChanSys.init_inv buffer sc0 hnew
  have hrun := SafeChanSys.run_safe acts _ h0
  refine ⟨hrun.1, fun s hs => ?_⟩
  have hi := hrun.2 s hs
  refine ⟨fun i value hg => ?_, fun a f => SafeChanSys.step_safe s a f hi⟩
  obtain ⟨hwf, hc0, hcc⟩ := SafeChanSys.sender_unlocked s hi i _ hg
  have hop : s.sc.closed = false := hi.2.2.2 value (List.getElem?_mem hg)
  exact ⟨by rw [hcc]; exact hop, hop, hwf, hc0⟩

theorem SafeChannel.Send_Close_no_race_witness :
    NewSafeChannel 1 = .ok { ch := { buf := [], cap := 1, closed := false }, closed := false }
    ∧ (SafeChanSys.init { ch := { buf := [], cap := 1, closed := false }, closed := false }).run
        [.sendEnter 7, .sendStep 0 false, .closeEnter] = .blocked
    ∧ (SafeChanSys.init { ch := { buf := [], cap := 1, closed := false }, closed := false }).run
        [.sendEnter 7, .sendStep 0 false]
        = .done { sc := { ch := { buf := [], cap := 1, closed := false }, closed := false },
                  readers := 1, writer := false, senders := [.send 7], closers := [],
                  returned := [] }
    ∧ ((∀ f, (SafeChanSys.init
            { ch := { buf := [], cap := 1, closed := false }, closed := false }).run
          [.sendEnter 7, .sendStep 0 false] ≠ .fault f)
      ∧ ∀ s, (SafeChanSys.init
            { ch := { buf := [], cap := 1, closed := false }, closed := false }).run
          [.sendEnter 7, .sendStep 0 false] = .done s →
        (∀ (i : Nat) (value : Int), s.senders[i]? = some (SendPc.send value) →
            s.sc.ch.closed = false ∧ s.sc.closed = false ∧ s.writer = false ∧ s.closers = [])
        ∧ (∀ a f, s.step a ≠ .fault f)) :=
  ⟨rfl, by decide, by decide,
   SafeChannel.Send_Close_no_race 1
     { ch := { buf := [], cap := 1, closed := false }, closed := false }
     [.sendEnter 7, .sendStep 0 false] rfl⟩

/-! ## BatchProcessor -/

theorem join_batches (items : List Int) (b k : Nat) :
    ((List.range k).map (fun j => (items.drop (j * b)).take b)).flatten = items.take (k * b) := by
  induction k with
  | zero => simp
  | succ k ih =>
    rw [List.range_succ, List.map_append, List.flatten_append, ih, Nat.succ_mul, List.take_add]
    simp

theorem take_drop_clamp (items : List Int) (i b m : Nat) (hm : m = min b (items.length - i)) :
    (items.drop i).take m = (items.drop i).take b := by
  subst hm
  by_cases h : b ≤ items.length - i
  · rw [Nat.min_eq_left h]
  · have h1 : items.length - i ≤ b := by omega
    rw [Nat.min_eq_right h1]
    rw [List.take_of_length_le (by simp), List.take_of_length_le (by simp; omega)]

theorem BatchSys.iterate_loop (items : List Int) (b : Nat) (s : BatchSys) (i : Int)
    (c : SelectCase) (hb : 0 < b) (hb63 : (b : Int) < 2 ^ 63)
    (hn : (items.length : Int) < 2 ^ 61) (hc : s.Cut items b) (hpc : s.pc = .loop i)
    (hlt : i < (items.length : Int)) :
    wrapInt64 (i + s.b.batchSize) = (((s.batches.length + 1) * b : Nat) : Int)
    ∧ s.batches.length * b < items.length
    ∧ s.step (.iterate c) =
      match s.b.pool.Submit { id := s.batches.length, panics := false } c with
      | .returned none p =>
        .done { s with b := { s.b with pool := p },
                       pc := .loop (((s.batches.length + 1) * b : Nat) : Int),
                       batches := s.batches ++ [(items.drop (s.batches.length * b)).take b] }
      | .returned (some err) p =>
        .done { s with b := { s.b with pool := p }, pc := .returned (some err) }
      | .blocked => .blocked
      | .fault f => .fault f := by
  obtain ⟨hitems, hbs, hbat, hlast, hloop, hret⟩ := hc
  have hi := hloop i hpc
  have hk : s.batches.length * b < items.length := by
    rw [hi] at hlt
    exact_mod_cast hlt
  have hsum : i + s.b.batchSize = (((s.batches.length + 1) * b : Nat) : Int) := by
    rw [hi, hbs, Nat.succ_mul]
    push_cast
    ring
  have hsmall : (((s.batches.length + 1) * b : Nat) : Int) < 2 ^ 63 := by
    rw [Nat.succ_mul]
    push_cast
    rcases Nat.eq_zero_or_pos s.batches.length with h0 | hpos
    · rw [h0]
      simpa using hb63
    · have h1 : b ≤ s.batches.length * b := Nat.le_mul_of_pos_left b hpos
      have h2 : ((s.batches.length * b : Nat) : Int) < (items.length : Int) := by
        exact_mod_cast hk
      have h3 : (b : Int) ≤ ((s.batches.length * b : Nat) : Int) := by exact_mod_cast h1
      push_cast at h2 h3
      omega
  have hwrap : wrapInt64 (i + s.b.batchSize) = (((s.batches.length + 1) * b : Nat) : Int) := by
    rw [hsum]
    exact wrapInt64_eq _ (by
      have : (0 : Int) ≤ (((s.batches.length + 1) * b : Nat) : Int) := Int.natCast_nonneg _
      omega) hsmall
  refine ⟨hwrap, hk, ?_⟩
  have hlt2 : i < (s.items.length : Int) := by rw [hitems]; exact hlt
  simp only [BatchSys.step, hpc, hlt2, if_true, hwrap]
  have hslice : sliceOf s.items i
      (if (((s.batches.length + 1) * b : Nat) : Int) > (s.items.length : Int)
        then (s.items.length : Int) else (((s.batches.length + 1) * b : Nat) : Int))
      = some ((items.drop (s.batches.length * b)).take b) := by
    rw [hitems, hi]
    have hle : s.batches.length * b ≤ (s.batches.length + 1) * b := by
      rw [Nat.succ_mul]; omega
    by_cases hover : (((s.batches.length + 1) * b : Nat) : Int) > (items.length : Int)
    · have hover2 : items.length < (s.batches.length + 1) * b := by exact_mod_cast hover
      simp only [hover, if_true, sliceOf]
      have hcond : (0 : Int) ≤ ((s.batches.length * b : Nat) : Int)
          ∧ ((s.batches.length * b : Nat) : Int) ≤ (items.length : Int)
          ∧ (items.length : Int) ≤ (items.length : Int) := by
        refine ⟨Int.natCast_nonneg _, ?_, le_refl _⟩
        exact_mod_cast hk.le
      rw [if_pos hcond]
      simp only [Int.toNat_ofNat]
      congr 1
      apply take_drop_clamp
      rw [Nat.succ_mul] at hover2
      omega
    · have hover2 : (s.batches.length + 1) * b ≤ items.length := by
        have : (((s.batches.length + 1) * b : Nat) : Int) ≤ (items.length : Int) := by omega
        exact_mod_cast this
      simp only [hover, if_false, sliceOf]
      have hcond : (0 : Int) ≤ ((s.batches.length * b : Nat) : Int)
          ∧ ((s.batches.length * b : Nat) : Int) ≤ (((s.batches.length + 1) * b : Nat) : Int)
          ∧ (((s.batches.length + 1) * b : Nat) : Int) ≤ (items.length : Int) := by
        refine ⟨Int.natCast_nonneg _, ?_, ?_⟩
        · exact_mod_cast hle
        · exact_mod_cast hover2
      rw [if_pos hcond]
      simp only [Int.toNat_ofNat]
      congr 1
      apply take_drop_clamp
      rw [Nat.succ_mul] at hover2 ⊢
      omega
  rw [hslice]

theorem BatchSys.step_cut (items : List Int) (b : Nat) (s s1 : BatchSys) (a : BatchAction)
    (hb : 0 < b) (hb63 : (b : Int) < 2 ^ 63) (hn : (items.length : Int) < 2 ^ 61)
    (hc : s.Cut items b) (h : s.step a = .done s1) : s1.Cut items b := by
  cases a with
  | iterate c =>
    cases hpc : s.pc with
    | returned e => simp [BatchSys.step, hpc] at h
    | loop i =>
      by_cases hlt : i < (items.length : Int)
      · obtain ⟨_, hk, hstep⟩ := BatchSys.iterate_loop items b s i c hb hb63 hn hc hpc hlt
        rw [hstep] at h
        obtain ⟨hitems, hbs, hbat, hlast, hloop, hret⟩ := hc
        cases hsub : s.b.pool.Submit { id := s.batches.length, panics := false } c with
        | returned err p =>
          cases err with
          | none =>
            simp only [hsub, Op.done.injEq] at h
            subst h
            refine ⟨hitems, hbs, ?_, Or.inr ?_, ?_, ?_⟩
            · simp only [List.length_append, List.length_singleton, List.range_succ,
                List.map_append, List.map_singleton]
              rw [← hbat]
            · simpa using hk
            · intro i1 hi1
              simp only [ProcessPc.loop.injEq] at hi1
              rw [← hi1]
              simp
            · intro h1
              simp at h1
          | some e =>
            simp only [hsub, Op.done.injEq] at h
            subst h
            exact ⟨hitems, hbs, hbat, hlast, by simp, by simp⟩
        | blocked => simp [hsub] at h
        | fault f => simp [hsub] at h
      · obtain ⟨hitems, hbs, hbat, hlast, hloop, hret⟩ := hc
        have hlt2 : ¬ i < (s.items.length : Int) := by rw [hitems]; exact hlt
        simp only [BatchSys.step, hpc, hlt2, if_false, Op.done.injEq] at h
        subst h
        refine ⟨hitems, hbs, hbat, hlast, by simp, fun _ => ?_⟩
        have hi := hloop i hpc
        rw [hi] at hlt
        have : ¬ (s.batches.length * b < items.length) := by
          intro h2
          exact hlt (by exact_mod_cast h2)
        show items.length ≤ s.batches.length * b
        omega
  | worker c =>
    simp only [BatchSys.step] at h
    cases hw : s.b.pool.workerStep c with
    | done p =>
      simp only [hw, Op.done.injEq] at h
      subst h
      exact hc
    | blocked => simp [hw] at h
    | fault f => simp [hw] at h
  | stop =>
    simp only [BatchSys.step] at h
    cases hw : s.b.pool.stopBegin with
    | ok p =>
      simp only [hw, Op.done.injEq] at h
      subst h
      exact hc
    | error f => simp [hw] at h

theorem WorkerPool.Submit_inService (p : WorkerPool) (task : Task) (c : SelectCase)
    (hp : p.InService) :
    p.Submit task c
      = if c = .queue ∧ p.tasks.hasRoom = true then
          .returned none { p with tasks := { p.tasks with buf := p.tasks.buf ++ [task] } }
        else .blocked := by
  obtain ⟨hs, hctx, hcl, _, _, _⟩ := hp
  cases c with
  | queue =>
    cases hr : p.tasks.hasRoom <;> simp [WorkerPool.Submit, hs, Chan.send, hcl, hr]
  | ctxDone => simp [WorkerPool.Submit, hs, hctx]

theorem WorkerPool.workerStep_inService (p : WorkerPool) (c : SelectCase)
    (hp : p.InService) :
    p.workerStep c
      = match c, p.tasks.buf with
        | .queue, t :: rest =>
          .done { p with tasks := { p.tasks with buf := rest }, executed := p.executed ++ [t] }
        | _, _ => .blocked := by
  obtain ⟨hs, hctx, hcl, hwg, _, hpan⟩ := hp
  have hwg0 : p.wg ≠ 0 := by omega
  cases c with
  | queue =>
    cases hbuf : p.tasks.buf with
    | nil => simp [WorkerPool.workerStep, hwg0, Chan.recv, hbuf, hcl]
    | cons t rest =>
      have ht : t.panics = false := hpan t (by rw [hbuf]; exact List.mem_cons_self _ _)
      simp [WorkerPool.workerStep, hwg0, Chan.recv, hbuf, ht]
  | ctxDone =>
    cases hbuf : p.tasks.buf <;> simp [WorkerPool.workerStep, hwg0, hctx]

theorem BatchSys.step_good (items : List Int) (b : Nat) (s s1 : BatchSys) (a : BatchAction)
    (hb : 0 < b) (hb63 : (b : Int) < 2 ^ 63) (hn : (items.length : Int) < 2 ^ 61)
    (hc : s.Cut items b) (hg : s.Good) (ha : a ≠ .stop) (h : s.step a = .done s1) :
    s1.Good ∧ s1.work + 1 ≤ s.work := by
  obtain ⟨hp, hret⟩ := hg
  have hp0 := hp
  obtain ⟨hs, hctx, hcl, hwg, hcap, hpan⟩ := hp
  cases a with
  | stop => exact absurd rfl ha
  | iterate c =>
    cases hpc : s.pc with
    | returned e => simp [BatchSys.step, hpc] at h
    | loop i =>
      by_cases hlt : i < (items.length : Int)
      · obtain ⟨_, hk, hstep⟩ := BatchSys.iterate_loop items b s i c hb hb63 hn hc hpc hlt
        rw [hstep, WorkerPool.Submit_inService _ _ _ hp0] at h
        have hi := hc.2.2.2.2.1 i hpc
        have hitems := hc.1
        by_cases hq : c = .queue ∧ s.b.pool.tasks.hasRoom = true
        · simp only [hq, and_self, if_true, Op.done.injEq] at h
          subst h
          refine ⟨⟨⟨hs, hctx, hcl, hwg, hcap, ?_⟩, ?_⟩, ?_⟩
          · intro t ht
            simp only [List.mem_append, List.mem_singleton] at ht
            rcases ht with ht | ht
            · exact hpan t ht
            · rw [ht]
          · intro err herr
            simp at herr
          · simp only [BatchSys.work, hpc, hi, hitems, Int.toNat_ofNat, List.length_append,
              List.length_singleton, Nat.succ_mul]
            omega
        · simp [hq] at h
      · have hitems := hc.1
        have hlt2 : ¬ i < (s.items.length : Int) := by rw [hitems]; exact hlt
        simp only [BatchSys.step, hpc, hlt2, if_false, Op.done.injEq] at h
        subst h
        refine ⟨⟨hp0, ?_⟩, ?_⟩
        · intro err herr
          simp only [ProcessPc.returned.injEq] at herr
          exact herr.symm
        · simp only [BatchSys.work, hpc]
          omega
  | worker c =>
    simp only [BatchSys.step] at h
    rw [WorkerPool.workerStep_inService _ _ hp0] at h
    cases c with
    | ctxDone => cases hbuf : s.b.pool.tasks.buf <;> simp [hbuf] at h
    | queue =>
      cases hbuf : s.b.pool.tasks.buf with
      | nil => simp [hbuf] at h
      | cons t rest =>
        simp only [hbuf, Op.done.injEq] at h
        subst h
        refine ⟨⟨⟨hs, hctx, hcl, hwg, hcap, ?_⟩, hret⟩, ?_⟩
        · intro t1 ht1
          exact hpan t1 (by rw [hbuf]; exact List.mem_cons_of_mem _ ht1)
        · simp only [BatchSys.work, hbuf, List.length_cons]
          omega

theorem BatchSys.step_progress (items : List Int) (b : Nat) (s : BatchSys) (i : Int)
    (hb : 0 < b) (hb63 : (b : Int) < 2 ^ 63) (hn : (items.length : Int) < 2 ^ 61)
    (hc : s.Cut items b) (hg : s.Good) (hpc : s.pc = .loop i) :
    ∃ a s1, a ≠ BatchAction.stop ∧ s.step a = .done s1 := by
  obtain ⟨hp, _⟩ := hg
  by_cases hlt : i < (items.length : Int)
  · cases hr : s.b.pool.tasks.hasRoom with
    | true =>
      obtain ⟨_, _, hstep⟩ :=
        BatchSys.iterate_loop items b s i .queue hb hb63 hn hc hpc hlt
      rw [WorkerPool.Submit_inService _ _ _ hp] at hstep
      simp only [hr, and_self, if_true] at hstep
      exact ⟨.iterate .queue, _, by simp, hstep⟩
    | false =>
      have hcap := hp.2.2.2.2.1
      cases hbuf : s.b.pool.tasks.buf with
      | nil =>
        simp [Chan.hasRoom, hbuf] at hr
        omega
      | cons t rest =>
        have hstep : s.step (.worker .queue)
            = .done { s with b := { s.b with pool := { s.b.pool with
                tasks := { s.b.pool.tasks with buf := rest },
                executed := s.b.pool.executed ++ [t] } } } := by
          simp only [BatchSys.step]
          rw [WorkerPool.workerStep_inService _ _ hp]
          simp only [hbuf]
        exact ⟨.worker .queue, _, by simp, hstep⟩
  · have hlt2 : ¬ i < (s.items.length : Int) := by rw [hc.1]; exact hlt
    exact ⟨.iterate .queue, { s with pc := .returned none }, by simp,
      by simp only [BatchSys.step, hpc, hlt2, if_false]⟩

theorem BatchSys.run_cut (items : List Int) (b : Nat) (acts : List BatchAction)
    (s s1 : BatchSys) (hb : 0 < b) (hb63 : (b : Int) < 2 ^ 63)
    (hn : (items.length : Int) < 2 ^ 61)
    (hc : s.Cut items b) (h : s.run acts = .done s1) : s1.Cut items b := by
  induction acts generalizing s with
  | nil =>
    simp only [BatchSys.run, Op.done.injEq] at h
    subst h
    exact hc
  | cons a as ih =>
    cases hstep : s.step a with
    | done s2 =>
      simp only [BatchSys.run, hstep] at h
      exact ih s2 (BatchSys.step_cut items b s s2 a hb hb63 hn hc hstep) h
    | blocked => simp [BatchSys.run, hstep] at h
    | fault f => simp [BatchSys.run, hstep] at h

theorem BatchSys.run_good (items : List Int) (b : Nat) (acts : List BatchAction)
    (s s1 : BatchSys) (hb : 0 < b) (hb63 : (b : Int) < 2 ^ 63)
    (hn : (items.length : Int) < 2 ^ 61)
    (hc : s.Cut items b) (hg : s.Good) (hns : BatchAction.stop ∉ acts)
    (h : s.run acts = .done s1) : s1.Good ∧ acts.length + s1.work ≤ s.work := by
  induction acts generalizing s with
  | nil =>
    simp only [BatchSys.run, Op.done.injEq] at h
    subst h
    exact ⟨hg, by simp⟩
  | cons a as ih =>
    have ha : a ≠ .stop := fun e => hns (by rw [e]; exact List.mem_cons_self _ _)
    have hns2 : BatchAction.stop ∉ as := fun e => hns (List.mem_cons_of_mem _ e)
    cases hstep : s.step a with
    | done s2 =>
      simp only [BatchSys.run, hstep] at h
      have h2 := BatchSys.step_good items b s s2 a hb hb63 hn hc hg ha hstep
      have h3 := ih s2 (BatchSys.step_cut items b s s2 a hb hb63 hn hc hstep) h2.1 hns2 h
      refine ⟨h3.1, ?_⟩
      simp only [List.length_cons]
      omega
    | blocked => simp [BatchSys.run, hstep] at h
    | fault f => simp [BatchSys.run, hstep] at h

theorem BatchSys.step_slice_ok (items : List Int) (b : Nat) (s : BatchSys) (a : BatchAction)
    (hb : 0 < b) (hb63 : (b : Int) < 2 ^ 63) (hn : (items.length : Int) < 2 ^ 61)
    (hc : s.Cut items b) : s.step a ≠ .fault .sliceBounds := by
  cases a with
  | iterate c =>
    cases hpc : s.pc with
    | returned e => simp [BatchSys.step, hpc]
    | loop i =>
      by_cases hlt : i < (items.length : Int)
      · obtain ⟨_, _, hstep⟩ := BatchSys.iterate_loop items b s i c hb hb63 hn hc hpc hlt
        rw [hstep]
        simp only [WorkerPool.Submit, Chan.send]
        cases hs : s.b.pool.stopping
        · cases c with
          | queue =>
            cases hcl : s.b.pool.tasks.closed
            · cases hr : s.b.pool.tasks.hasRoom <;> simp
            · simp
          | ctxDone =>
            cases hd : s.b.pool.ctx.isDone
            · simp
            · cases he : s.b.pool.ctx.err <;> simp
        · simp
      · have hlt2 : ¬ i < (s.items.length : Int) := by rw [hc.1]; exact hlt
        simp [BatchSys.step, hpc, hlt2]
  | worker c =>
    simp only [BatchSys.step, WorkerPool.workerStep, Chan.recv]
    by_cases hwg : s.b.pool.wg = 0
    · simp [hwg]
    · cases c with
      | queue =>
        cases hbuf : s.b.pool.tasks.buf with
        | nil => cases hcl : s.b.pool.tasks.closed <;> simp [hwg]
        | cons t rest => cases ht : t.panics <;> simp [hwg, ht]
      | ctxDone => cases hd : s.b.pool.ctx.isDone <;> simp [hwg]
  | stop =>
    simp only [BatchSys.step, WorkerPool.stopBegin, Chan.close]
    cases hcl : s.b.pool.tasks.closed <;> simp

theorem BatchSys.run_slice_ok (items : List Int) (b : Nat) (acts : List BatchAction)
    (s : BatchSys) (hb : 0 < b) (hb63 : (b : Int) < 2 ^ 63)
    (hn : (items.length : Int) < 2 ^ 61)
    (hc : s.Cut items b) : s.run acts ≠ .fault .sliceBounds := by
  induction acts generalizing s with
  | nil => simp [BatchSys.run]
  | cons a as ih =>
    cases hstep : s.step a with
    | done s2 =>
      simp only [BatchSys.run, hstep]
      exact ih s2 (BatchSys.step_cut items b s s2 a hb hb63 hn hc hstep)
    | blocked => simp [BatchSys.run, hstep]
    | fault f =>
      simp only [BatchSys.run, hstep]
      intro h
      injection h with h
      rw [h] at hstep
      exact BatchSys.step_slice_ok items b s a hb hb63 hn hc hstep

theorem BatchSys.returned_final (acts : List BatchAction) (s s1 : BatchSys) (err : GoError)
    (hpc : s.pc = .returned err) (h : s.run acts = .done s1) :
    s1.pc = .returned err ∧ s1.batches = s.batches := by
  induction acts generalizing s with
  | nil =>
    simp only [BatchSys.run, Op.done.injEq] at h
    subst h
    exact ⟨hpc, rfl⟩
  | cons a as ih =>
    cases hstep : s.step a with
    | done s2 =>
      simp only [BatchSys.run, hstep] at h
      have h2 : s2.pc = .returned err ∧ s2.batches = s.batches := by
        cases a with
        | iterate c => simp [BatchSys.step, hpc] at hstep
        | worker c =>
          simp only [BatchSys.step] at hstep
          cases hw : s.b.pool.workerStep c with
          | done p =>
            simp only [hw, Op.done.injEq] at hstep
            subst hstep
            exact ⟨hpc, rfl⟩
          | blocked => simp [hw] at hstep
          | fault f => simp [hw] at hstep
        | stop =>
          simp only [BatchSys.step] at hstep
          cases hw : s.b.pool.stopBegin with
          | ok p =>
            simp only [hw, Op.done.injEq] at hstep
            subst hstep
            exact ⟨hpc, rfl⟩
          | error f => simp [hw] at hstep
      have h3 := ih s2 h2.1 h
      exact ⟨h3.1, h3.2.trans h2.2⟩
    | blocked => simp [BatchSys.run, hstep] at h
    | fault f => simp [BatchSys.run, hstep] at h

theorem BatchSys.exists_nil_return (items : List Int) (b : Nat)
    (hb : 0 < b) (hb63 : (b : Int) < 2 ^ 63) (hn : (items.length : Int) < 2 ^ 61) :
    ∀ (m : Nat) (s : BatchSys), s.Cut items b → s.Good → s.work ≤ m →
      ∃ acts s1, BatchAction.stop ∉ acts ∧ s.run acts = .done s1 ∧ s1.pc = .returned none := by
  intro m
  induction m with
  | zero =>
    intro s hc hg hm
    cases hpc : s.pc with
    | returned e =>
      have := hg.2 e hpc
      subst this
      exact ⟨[], s, by simp, rfl, hpc⟩
    | loop i =>
      simp [BatchSys.work, hpc] at hm
  | succ m ih =>
    intro s hc hg hm
    cases hpc : s.pc with
    | returned e =>
      have := hg.2 e hpc
      subst this
      exact ⟨[], s, by simp, rfl, hpc⟩
    | loop i =>
      obtain ⟨a, s2, ha, hstep⟩ := BatchSys.step_progress items b s i hb hb63 hn hc hg hpc
      have h2 := BatchSys.step_good items b s s2 a hb hb63 hn hc hg ha hstep
      obtain ⟨acts, s1, hns, hrun, hfin⟩ :=
        ih s2 (BatchSys.step_cut items b s s2 a hb hb63 hn hc hstep) h2.1 (by omega)
      refine ⟨a :: acts, s1, ?_, ?_, hfin⟩
      · intro hmem
        rcases List.mem_cons.1 hmem with h | h
        · exact ha h.symm
        · exact hns h
      · simp only [BatchSys.run, hstep]
        exact hrun

theorem BatchSys.cut_batches (items : List Int) (b : Nat) (s : BatchSys) (hb : 0 < b)
    (hc : s.Cut items b) (j : Nat) (hj : j < s.batches.length) :
    s.batches[j]? = some ((items.drop (j * b)).take b)
    ∧ 0 < ((items.drop (j * b)).take b).length
    ∧ ((items.drop (j * b)).take b).length ≤ b
    ∧ (j + 1 < s.batches.length → ((items.drop (j * b)).take b).length = b) := by
  obtain ⟨_, _, hbat, hlast, _, _⟩ := hc
  have hlast2 : (s.batches.length - 1) * b < items.length := by
    rcases hlast with h | h
    · omega
    · exact h
  have hjb : j * b ≤ (s.batches.length - 1) * b := Nat.mul_le_mul_right b (by omega)
  refine ⟨?_, ?_, ?_, ?_⟩
  · rw [hbat]
    simp [List.getElem?_map, List.getElem?_range, hj]
  · simp only [List.length_take, List.length_drop]
    omega
  · simp only [List.length_take, List.length_drop]
    omega
  · intro hj1
    have hjb1 : (j + 1) * b ≤ (s.batches.length - 1) * b := Nat.mul_le_mul_right b (by omega)
    rw [Nat.succ_mul] at hjb1
    simp only [List.length_take, List.length_drop]
    omega

theorem BatchSys.cut_complete (items : List Int) (b : Nat) (s : BatchSys) (hb : 0 < b)
    (hc : s.Cut items b) (hpc : s.pc = .returned none) :
    s.batches.length = (items.length + b - 1) / b ∧ s.batches.flatten = items := by
  obtain ⟨_, _, hbat, hlast, _, hret⟩ := hc
  have hfull := hret hpc
  refine ⟨?_, ?_⟩
  · symm
    apply Nat.div_eq_of_lt_le
    · rcases hlast with h | h
      · rw [h]
        simp
      · have : (s.batches.length - 1) * b + b = s.batches.length * b := by
          have h1 : s.batches.length - 1 + 1 = s.batches.length := by
            rcases Nat.eq_zero_or_pos s.batches.length with h0 | h0
            · rw [h0] at hfull
              simp at hfull
              rw [h0, hfull] at h
              simp at h
            · omega
          rw [← Nat.succ_mul, Nat.succ_eq_add_one, h1]
        omega
    · rw [Nat.succ_mul]
      omega
  · rw [hbat, join_batches]
    exact List.take_of_length_le hfull

theorem BatchProcessor.Process_cut (bp : BatchProcessor) (items : List Int) (b : Nat)
    (hbs : bp.batchSize = (b : Int)) : (bp.Process items).Cut items b := by
  refine ⟨rfl, hbs, by simp [BatchProcessor.Process], Or.inl rfl, ?_, ?_⟩
  · intro i hi
    simp only [BatchProcessor.Process, ProcessPc.loop.injEq] at hi
    simp [BatchProcessor.Process, ← hi]
  · intro h
    simp [BatchProcessor.Process] at h

theorem NewBatchProcessor_inService (batchSize workers : Int) (bp : BatchProcessor)
    (hw0 : 0 < workers) (hw1 : 16 * workers ≤ maxAlloc - hchanSize)
    (hnew : NewBatchProcessor batchSize workers = .ok bp) :
    bp.batchSize = batchSize ∧ bp.pool.InService := by
  have hw62 : workers < 2 ^ 62 := by
    simp only [maxAlloc, hchanSize] at hw1
    omega
  have hwrap : wrapInt64 (workers * 2) = workers * 2 :=
    wrapInt64_eq _ (by omega) (by omega)
  have hneg : ¬ (workers * 2 < 0 ∨ maxAlloc - hchanSize < 8 * (workers * 2)) := by
    simp only [maxAlloc, hchanSize] at hw1 ⊢
    omega
  simp only [NewBatchProcessor, NewWorkerPool, Chan.make, hwrap, hneg, if_false,
    Except.ok.injEq] at hnew
  subst hnew
  refine ⟨rfl, rfl, rfl, rfl, ?_, ?_, ?_⟩
  · show 0 < 0 + workers.toNat
    omega
  · show 0 < (workers * 2).toNat
    omega
  · intro t ht
    cases ht

/-- C27, counterexample: `NewBatchProcessor(1, 0)` builds a processor whose pool is
not stopping, has no worker and an unbuffered queue; in `Process([]int{1})` on it the
first `Submit` can take neither case of its `select` and no worker can take a step, so
the call never returns. -/
theorem Process_blocks_without_workers :
    NewBatchProcessor 1 0 = .ok idleBatch
    ∧ idleBatch.pool.stopping = false
    ∧ (idleBatch.Process [1]).pc = .loop 0
    ∧ (idleBatch.Process [1]).step (.iterate .queue) = .blocked
    ∧ (idleBatch.Process [1]).step (.iterate .ctxDone) = .blocked
    ∧ (idleBatch.Process [1]).step (.worker .queue) = .blocked
    ∧ (idleBatch.Process [1]).step (.worker .ctxDone) = .blocked := by
  refine ⟨rfl, rfl, rfl, ?_, ?_, ?_, ?_⟩ <;> decide

/-- C27, amended: for a batch size `b > 0`, a slice of `n` items and a pool in
service (not stopping, at least one worker in its loop, a buffered queue, no queued
task that panics): some schedule without `Stop` makes `Process` return nil, and no
schedule panics on the slice bounds; in every state reached the batches submitted so
far are the consecutive sub-slices `items[j*b : j*b+b]` cut at `n`, each non-empty
and of at most `b` items, all but the last of exactly `b`; once `Process` has
returned nil there are `ceil(n / b)` of them and their concatenation is `items`; once
it has returned, it stays returned and submits nothing more; a `Submit` that fails
makes `Process` return that error without adding a batch; and while nobody calls
`Stop`, `Process` returns no error, a schedule has at most `2 * (n + 1)` steps plus one
per task queued at the start, and some step is possible as long as `Process` has not
returned. -/
theorem BatchProcessor.Process_partitions (bp : BatchProcessor) (items : List Int) (b : Nat)
    (hb : 0 < b) (hbs : bp.batchSize = (b : Int)) (hb63 : (b : Int) < 2 ^ 63)
    (hn : (items.length : Int) < 2 ^ 61) (hp : bp.pool.InService) :
    (∃ acts s, BatchAction.stop ∉ acts ∧ (bp.Process items).run acts = .done s
        ∧ s.pc = .returned none)
    ∧ (∀ acts, (bp.Process items).run acts ≠ .fault .sliceBounds)
    ∧ ∀ acts s, (bp.Process items).run acts = .done s →
        (∀ j, j < s.batches.length →
            s.batches[j]? = some ((items.drop (j * b)).take b)
            ∧ 0 < ((items.drop (j * b)).take b).length
            ∧ ((items.drop (j * b)).take b).length ≤ b
            ∧ (j + 1 < s.batches.length → ((items.drop (j * b)).take b).length = b))
        ∧ (s.pc = .returned none →
            s.batches.length = (items.length + b - 1) / b ∧ s.batches.flatten = items)
        ∧ (∀ err, s.pc = .returned err → ∀ acts2 s2, s.run acts2 = .done s2 →
            s2.pc = .returned err ∧ s2.batches = s.batches)
        ∧ (∀ i c err p, s.pc = .loop i → i < (items.length : Int) →
            s.b.pool.Submit { id := s.batches.length, panics := false } c
              = .returned (some err) p →
            ∃ s1, s.step (.iterate c) = .done s1 ∧ s1.pc = .returned (some err)
              ∧ s1.batches = s.batches)
        ∧ (BatchAction.stop ∉ acts →
            (∀ err, s.pc = .returned err → err = none)
            ∧ acts.length + s.work ≤ 2 * (items.length + 1) + bp.pool.tasks.buf.length
            ∧ (∀ i, s.pc = .loop i → ∃ a s1, a ≠ BatchAction.stop ∧ s.step a = .done s1)) := by
  have hc0 := BatchProcessor.Process_cut bp items b hbs
  have hg0 : (bp.Process items).Good := by
    refine ⟨hp, fun err herr => ?_⟩
    simp [BatchProcessor.Process] at herr
  refine ⟨BatchSys.exists_nil_return items b hb hb63 hn _ _ hc0 hg0 (le_refl _),
    fun acts => BatchSys.run_slice_ok items b acts _ hb hb63 hn hc0, fun acts s hrun => ?_⟩
  have hc := BatchSys.run_cut items b acts _ s hb hb63 hn hc0 hrun
  refine ⟨fun j hj => BatchSys.cut_batches items b s hb hc j hj,
    fun hpc => BatchSys.cut_complete items b s hb hc hpc,
    fun err hpc acts2 s2 h2 => BatchSys.returned_final acts2 s s2 err hpc h2, ?_, ?_⟩
  · intro i c err p hpc hlt hsub
    obtain ⟨_, _, hstep⟩ := BatchSys.iterate_loop items b s i c hb hb63 hn hc hpc hlt
    rw [hsub] at hstep
    exact ⟨_, hstep, rfl, rfl⟩
  · intro hns
    have hg := BatchSys.run_good items b acts _ s hb hb63 hn hc0 hg0 hns hrun
    refine ⟨hg.1.2, ?_, fun i hpc => BatchSys.step_progress items b s i hb hb63 hn hc hg.1 hpc⟩
    have hw : (bp.Process items).work
        = 2 * (items.length + 1) + bp.pool.tasks.buf.length := by
      simp [BatchSys.work, BatchProcessor.Process]
    rw [← hw]
    exact hg.2

theorem BatchProcessor.Process_partitions_witness :
    NewBatchProcessor 2 1 = .ok demoBatch
    ∧ (demoBatch.Process [1, 2, 3]).run [.iterate .queue, .iterate .queue, .iterate .queue]
        = .done { b := { batchSize := 2,
                         pool := { demoPool with
                           tasks := { buf := [⟨0, false⟩, ⟨1, false⟩], cap := 2,
                                      closed := false } } },
                  items := [1, 2, 3], pc := .returned none, batches := [[1, 2], [3]] }
    ∧ (∃ acts s, BatchAction.stop ∉ acts ∧ (demoBatch.Process [1, 2, 3]).run acts = .done s
        ∧ s.pc = .returned none) :=
  ⟨rfl, by decide,
   (BatchProcessor.Process_partitions demoBatch [1, 2, 3] 2 (by decide) rfl (by decide)
      (by decide) ⟨rfl, rfl, rfl, by decide, by decide, by simp [demoPool, demoBatch]⟩).1⟩

end FubanGo
